import Mathlib

/-!
# Portfolio backend: store, repositories, handlers

A shallow embedding of the Go backend (`backend/models`, `backend/handlers`,
`backend/middleware`).  The key-value store is an explicit state value, the
wall clock is an explicit argument (`now`, whole seconds), and every Go
function that can fail returns its error as a value.

Conventions
* A Redis string value is kept in classified form (`StrVal`): the decimal
  rendering of an integer (`int`), the rendering of a JSON document (`doc`), or
  any other text (`text`).  `json.Marshal` / `json.Unmarshal` are modelled on
  the document tree, field by field, from the struct tags of the source.
* A `time.Time` value is its Unix time in seconds; in a document it is the node
  `Json.time`, which stands for the RFC 3339 string that Go writes.
* Go slices are lists; a nil slice and an empty slice are both `[]`.
* Go strings are `String`s, that is valid UTF-8 text: every entity field and
  request field is bound from JSON, which yields no other strings.
* Calls into Go libraries whose tables or algorithms are not part of the
  repository are arguments: `unicode.ToLower` (`lower`), the `time.Parse` of a
  project's creation date (`unixOfCreatedAt`), and the duration parser, bcrypt
  and JWT signing of the authentication code (`AuthLib`).
* Store commands fail only with the errors Redis itself reports for the data
  it holds (`WRONGTYPE`, not an integer, overflow); connection failures are not
  part of the state and are not modelled.
-/

namespace Portfolio

/-! ## JSON documents -/

/-- JSON document tree; `time t` is a string node carrying an RFC 3339 timestamp.  The
documents of this program hold such a node only under keys of `time.Time`
fields, so the decoders below read it into a time field only. -/
inductive Json where
  | null
  | bool (b : Bool)
  | num (n : Int)
  | str (s : String)
  | time (t : Int)
  | arr (items : List Json)
  | obj (fields : List (String × Json))

/-- Zero value of `time.Time` (January 1, year 1, 00:00 UTC) as Unix seconds. -/
def zeroTime : Int := -62135596800

/-! ## The key-value store -/

/-- Classified content of a Redis string value. -/
inductive StrVal where
  | text (s : String)
  | int (n : Int)
  | doc (j : Json)

/-- Redis value: a string, a set (members in insertion order, no duplicates) or a sorted set. -/
inductive RVal where
  | str (v : StrVal)
  | set (members : List String)
  | zset (members : List (String × Int))

/-- Stored value with its optional absolute expiry time (seconds). -/
structure Entry where
  val : RVal
  expireAt : Option Nat

/-- Keyspace of one Redis database: an association list, first match wins. -/
structure Redis where
  entries : List (String × Entry)

/-- Errors that a Redis command reports. -/
inductive RedisErr where
  | nil
  | wrongType
  | notInteger
  | overflow
  deriving DecidableEq, Repr

namespace Redis

/-- Empty database. -/
def empty : Redis := ⟨[]⟩

/-- Entry is still alive at time `now`. -/
def live (now : Nat) (e : Entry) : Bool :=
  match e.expireAt with
  | none => true
  | some t => decide (now < t)

/-- Entry under key `k` as seen at time `now`; an expired entry is absent. -/
def find (r : Redis) (now : Nat) (k : String) : Option Entry :=
  match r.entries.lookup k with
  | some e => if live now e then some e else none
  | none => none

/-- Store `e` under `k`, replacing whatever was there. -/
def put (r : Redis) (k : String) (e : Entry) : Redis :=
  ⟨(k, e) :: r.entries.filter (fun p => p.1 != k)⟩

/-- Remove key `k`. -/
def erase (r : Redis) (k : String) : Redis :=
  ⟨r.entries.filter (fun p => p.1 != k)⟩

/-- Expiry produced by go-redis `Set` for a duration in seconds: only a positive
duration sends `EX`; zero or a negative duration stores the key without expiry. -/
def setExpiry (now : Nat) (ttl : Int) : Option Nat :=
  if 0 < ttl then some (now + ttl.toNat) else none

/-- Command `GET k`. -/
def get (r : Redis) (now : Nat) (k : String) : Except RedisErr StrVal :=
  match r.find now k with
  | none => .error .nil
  | some ⟨.str v, _⟩ => .ok v
  | some _ => .error .wrongType

/-- Command `MGET`: one slot per key, `none` for a missing key or a key that holds no string. -/
def mget (r : Redis) (now : Nat) (ks : List String) : List (Option StrVal) :=
  ks.map (fun k => match r.find now k with
    | some ⟨.str v, _⟩ => some v
    | _ => none)

/-- Command `SMEMBERS k`. -/
def smembers (r : Redis) (now : Nat) (k : String) : Except RedisErr (List String) :=
  match r.find now k with
  | none => .ok []
  | some ⟨.set ms, _⟩ => .ok ms
  | some _ => .error .wrongType

/-- Score of member `m` in the sorted set `k` (`ZSCORE`), `none` when absent. -/
def zscore (r : Redis) (now : Nat) (k m : String) : Option Int :=
  match r.find now k with
  | some ⟨.zset ms, _⟩ => ms.lookup m
  | _ => none

/-- Command `SISMEMBER k m`; false for a missing key or a key of another type. -/
def sismember (r : Redis) (now : Nat) (k m : String) : Bool :=
  match r.find now k with
  | some ⟨.set ms, _⟩ => ms.contains m
  | _ => false

/-- Largest value of a signed 64-bit integer, the bound of `INCR`. -/
def maxInt64 : Int := 9223372036854775807

/-- Command `INCR k`: the new value and the new state. -/
def incr (r : Redis) (now : Nat) (k : String) : Except RedisErr (Int × Redis) :=
  match r.find now k with
  | none => .ok (1, r.put k ⟨.str (.int 1), none⟩)
  | some ⟨.str (.int n), ex⟩ =>
      if n = maxInt64 then .error .overflow
      else .ok (n + 1, r.put k ⟨.str (.int (n + 1)), ex⟩)
  | some ⟨.str _, _⟩ => .error .notInteger
  | some _ => .error .wrongType

/-- Command `EXPIRE k seconds`: a non-positive time-to-live deletes the key. -/
def expire (r : Redis) (now : Nat) (k : String) (ttl : Int) : Redis :=
  match r.find now k with
  | none => r
  | some e => if ttl ≤ 0 then r.erase k else r.put k ⟨e.val, some (now + ttl.toNat)⟩

end Redis

/-- Write commands that the repositories issue, alone or queued in a pipeline. -/
inductive Cmd where
  | set (k : String) (v : StrVal) (ttl : Int)
  | del (k : String)
  | sadd (k m : String)
  | srem (k m : String)
  | zadd (k : String) (score : Int) (m : String)
  | zrem (k m : String)

namespace Cmd

/-- Effect of one write command at time `now`; on an error the state is unchanged. -/
def run (now : Nat) (r : Redis) : Cmd → Except RedisErr Redis
  | .set k v ttl => .ok (r.put k ⟨.str v, Redis.setExpiry now ttl⟩)
  | .del k => .ok (r.erase k)
  | .sadd k m =>
      match r.find now k with
      | none => .ok (r.put k ⟨.set [m], none⟩)
      | some ⟨.set ms, ex⟩ => .ok (if ms.contains m then r else r.put k ⟨.set (ms ++ [m]), ex⟩)
      | some _ => .error .wrongType
  | .srem k m =>
      match r.find now k with
      | none => .ok r
      | some ⟨.set ms, ex⟩ =>
          let ms1 := ms.filter (fun x => x != m)
          .ok (if ms1.isEmpty then r.erase k else r.put k ⟨.set ms1, ex⟩)
      | some _ => .error .wrongType
  | .zadd k score m =>
      match r.find now k with
      | none => .ok (r.put k ⟨.zset [(m, score)], none⟩)
      | some ⟨.zset ms, ex⟩ =>
          .ok (r.put k ⟨.zset ((m, score) :: ms.filter (fun p => p.1 != m)), ex⟩)
      | some _ => .error .wrongType
  | .zrem k m =>
      match r.find now k with
      | none => .ok r
      | some ⟨.zset ms, ex⟩ =>
          let ms1 := ms.filter (fun p => p.1 != m)
          .ok (if ms1.isEmpty then r.erase k else r.put k ⟨.zset ms1, ex⟩)
      | some _ => .error .wrongType

end Cmd

/-- Pipeline `Exec`: every queued command runs in order, a failing command does
not stop the ones after it, and the first error is the one returned. -/
def pipelineExec (now : Nat) : List Cmd → Redis → Option RedisErr × Redis
  | [], r => (none, r)
  | c :: cs, r =>
      match c.run now r with
      | .ok r1 => pipelineExec now cs r1
      | .error e => (some e, (pipelineExec now cs r).2)

/-- Errors returned by the repositories. -/
inductive RepoErr where
  | notFound
  | store (e : RedisErr)
  | unmarshal
  deriving DecidableEq, Repr

/-- Expiry of every primary record: `time.Hour*24*365`, in seconds. -/
def recordTTL : Int := 3600 * 24 * 365

/-! ## Decoding of JSON nodes into Go values (`encoding/json`) -/

/-- Decode into a `string` field: `null` leaves the field as it is. -/
def decStr (cur : String) : Json → Option String
  | .str s => some s
  | .null => some cur
  | _ => none

/-- Decode into a `time.Time` field. -/
def decTime (cur : Int) : Json → Option Int
  | .time t => some t
  | .null => some cur
  | _ => none

/-- Decode into an `int` field (64 bits). -/
def decInt (cur : Int) : Json → Option Int
  | .num n => if -9223372036854775808 ≤ n ∧ n ≤ 9223372036854775807 then some n else none
  | .null => some cur
  | _ => none

/-- Decode into a `bool` field. -/
def decBool (cur : Bool) : Json → Option Bool
  | .bool b => some b
  | .null => some cur
  | _ => none

/-- Decode one element of a `[]string`. -/
def decStrElem : Json → Option String
  | .str s => some s
  | .null => some ""
  | _ => none

/-- Decode the elements of a JSON array one by one; one bad element fails the decode. -/
def decElems {α : Type} (dec : Json → Option α) : List Json → Option (List α)
  | [] => some []
  | j :: js =>
      match dec j with
      | none => none
      | some a => (decElems dec js).map (fun as => a :: as)

/-- Decode into a `[]string` field. -/
def decStrList (cur : List String) : Json → Option (List String)
  | .arr items => decElems decStrElem items
  | .null => some cur
  | _ => none

namespace models

/-! ## models/skill.go -/

/-- Go struct `Skill`; the Go field `Skill` (JSON key `skill`) is `Name` here, since
a Lean structure cannot have a field of its own name. -/
structure Skill where
  ID : String
  Category : String
  Name : String
  Icon : String
  CreatedAt : Int
  UpdatedAt : Int
  deriving DecidableEq, Repr

/-- Zero value of `Skill`. -/
def Skill.zero : Skill := ⟨"", "", "", "", zeroTime, zeroTime⟩

/-- Function `generateSkillID`. -/
def generateSkillID (category skill : String) : String :=
  "skill:" ++ category ++ ":" ++ skill

/-- Function `NewSkill`, with `time.Now()` passed in. -/
def NewSkill (now : Nat) (category skill icon : String) : Skill :=
  ⟨generateSkillID category skill, category, skill, icon, now, now⟩

/-- Method `Skill.ToJSON`: the struct has no `omitempty` field that can be empty
(`omitempty` has no effect on a struct-typed `time.Time`). -/
def Skill.ToJSON (s : Skill) : StrVal :=
  .doc (.obj [("id", .str s.ID), ("category", .str s.Category), ("skill", .str s.Name),
    ("icon", .str s.Icon), ("created_at", .time s.CreatedAt), ("updated_at", .time s.UpdatedAt)])

/-- One key of a JSON object decoded into a `Skill`; unknown keys are skipped. -/
def Skill.setField (s : Skill) (kv : String × Json) : Option Skill :=
  if kv.1 = "id" then (decStr s.ID kv.2).map (fun x => { s with ID := x })
  else if kv.1 = "category" then (decStr s.Category kv.2).map (fun x => { s with Category := x })
  else if kv.1 = "skill" then (decStr s.Name kv.2).map (fun x => { s with Name := x })
  else if kv.1 = "icon" then (decStr s.Icon kv.2).map (fun x => { s with Icon := x })
  else if kv.1 = "created_at" then (decTime s.CreatedAt kv.2).map (fun x => { s with CreatedAt := x })
  else if kv.1 = "updated_at" then (decTime s.UpdatedAt kv.2).map (fun x => { s with UpdatedAt := x })
  else some s

/-- Method `Skill.FromJSON` on a fresh `var skill Skill`. -/
def Skill.FromJSON : StrVal → Option Skill
  | .doc .null => some Skill.zero
  | .doc (.obj fields) => fields.foldlM Skill.setField Skill.zero
  | _ => none

/-! ## models/project.go -/

/-- Go struct `ProjectTool`. -/
structure ProjectTool where
  Skill : String
  Icon : String
  deriving DecidableEq, Repr

/-- Go struct `Project`. -/
structure Project where
  ID : String
  Title : String
  Description : String
  Tools : List ProjectTool
  Link : String
  Image : String
  Status : String
  CreatedAt : String
  ViewCount : Int
  Featured : Bool
  UpdatedAt : Int
  deriving DecidableEq, Repr

/-- Zero value of `Project`. -/
def Project.zero : Project := ⟨"", "", "", [], "", "", "", "", 0, false, zeroTime⟩

/-- Function `generateProjectID`. -/
def generateProjectID (title : String) : String := "project:" ++ title

/-- Function `NewProject`; `createdAt` is `time.Now().Format(...)`, `now` is `time.Now()`. -/
def NewProject (now : Nat) (createdAt : String) (title description link image status : String)
    (tools : List ProjectTool) : Project :=
  ⟨generateProjectID title, title, description, tools, link, image, status, createdAt, 0, false, now⟩

/-- JSON object of one `ProjectTool`. -/
def ProjectTool.json (t : ProjectTool) : Json :=
  .obj [("skill", .str t.Skill), ("icon", .str t.Icon)]

/-- Method `Project.ToJSON`; `createdAt`, `view_count` and `featured` carry `omitempty`. -/
def Project.ToJSON (p : Project) : StrVal :=
  .doc (.obj ([("id", .str p.ID), ("title", .str p.Title), ("description", .str p.Description),
      ("tools", .arr (p.Tools.map ProjectTool.json)), ("link", .str p.Link),
      ("image", .str p.Image), ("status", .str p.Status)]
    ++ (if p.CreatedAt = "" then [] else [("createdAt", .str p.CreatedAt)])
    ++ (if p.ViewCount = 0 then [] else [("view_count", .num p.ViewCount)])
    ++ (if p.Featured then [("featured", .bool true)] else [])
    ++ [("updated_at", .time p.UpdatedAt)]))

/-- One key of a JSON object decoded into a `ProjectTool`. -/
def ProjectTool.setField (t : ProjectTool) (kv : String × Json) : Option ProjectTool :=
  if kv.1 = "skill" then (decStr t.Skill kv.2).map (fun x => { t with Skill := x })
  else if kv.1 = "icon" then (decStr t.Icon kv.2).map (fun x => { t with Icon := x })
  else some t

/-- Decode one element of a `[]ProjectTool`. -/
def decTool : Json → Option ProjectTool
  | .obj fields => fields.foldlM ProjectTool.setField ⟨"", ""⟩
  | .null => some ⟨"", ""⟩
  | _ => none

/-- Decode into a `[]ProjectTool` field. -/
def decTools (cur : List ProjectTool) : Json → Option (List ProjectTool)
  | .arr items => decElems decTool items
  | .null => some cur
  | _ => none

/-- One key of a JSON object decoded into a `Project`. -/
def Project.setField (p : Project) (kv : String × Json) : Option Project :=
  if kv.1 = "id" then (decStr p.ID kv.2).map (fun x => { p with ID := x })
  else if kv.1 = "title" then (decStr p.Title kv.2).map (fun x => { p with Title := x })
  else if kv.1 = "description" then
    (decStr p.Description kv.2).map (fun x => { p with Description := x })
  else if kv.1 = "tools" then (decTools p.Tools kv.2).map (fun x => { p with Tools := x })
  else if kv.1 = "link" then (decStr p.Link kv.2).map (fun x => { p with Link := x })
  else if kv.1 = "image" then (decStr p.Image kv.2).map (fun x => { p with Image := x })
  else if kv.1 = "status" then (decStr p.Status kv.2).map (fun x => { p with Status := x })
  else if kv.1 = "createdAt" then (decStr p.CreatedAt kv.2).map (fun x => { p with CreatedAt := x })
  else if kv.1 = "view_count" then (decInt p.ViewCount kv.2).map (fun x => { p with ViewCount := x })
  else if kv.1 = "featured" then (decBool p.Featured kv.2).map (fun x => { p with Featured := x })
  else if kv.1 = "updated_at" then (decTime p.UpdatedAt kv.2).map (fun x => { p with UpdatedAt := x })
  else some p

/-- Method `Project.FromJSON` on a fresh `var project Project`. -/
def Project.FromJSON : StrVal → Option Project
  | .doc .null => some Project.zero
  | .doc (.obj fields) => fields.foldlM Project.setField Project.zero
  | _ => none

/-- Method `Project.IncrementViewCount`. -/
def Project.IncrementViewCount (now : Nat) (p : Project) : Project :=
  { p with ViewCount := p.ViewCount + 1, UpdatedAt := now }

/-! ## models/blog.go -/

/-- Go struct `BlogPost`. -/
structure BlogPost where
  ID : String
  Title : String
  Slug : String
  Content : String
  Excerpt : String
  Author : String
  PublishedAt : Int
  UpdatedAt : Int
  Tags : List String
  ReadingTime : String
  ViewCount : Int
  Featured : Bool
  Published : Bool
  FeaturedImage : String
  MetaDescription : String
  MetaKeywords : String
  deriving DecidableEq, Repr

/-- Zero value of `BlogPost`. -/
def BlogPost.zero : BlogPost :=
  ⟨"", "", "", "", "", "", zeroTime, zeroTime, [], "", 0, false, false, "", "", ""⟩

/-- Method `BlogPost.ToJSON`; only the two SEO fields carry `omitempty`. -/
def BlogPost.ToJSON (bp : BlogPost) : StrVal :=
  .doc (.obj ([("id", .str bp.ID), ("title", .str bp.Title), ("slug", .str bp.Slug),
      ("content", .str bp.Content), ("excerpt", .str bp.Excerpt), ("author", .str bp.Author),
      ("published_at", .time bp.PublishedAt), ("updated_at", .time bp.UpdatedAt),
      ("tags", .arr (bp.Tags.map Json.str)), ("reading_time", .str bp.ReadingTime),
      ("view_count", .num bp.ViewCount), ("featured", .bool bp.Featured),
      ("published", .bool bp.Published), ("featured_image", .str bp.FeaturedImage)]
    ++ (if bp.MetaDescription = "" then [] else [("meta_description", .str bp.MetaDescription)])
    ++ (if bp.MetaKeywords = "" then [] else [("meta_keywords", .str bp.MetaKeywords)])))

/-- One key of a JSON object decoded into a `BlogPost`. -/
def BlogPost.setField (bp : BlogPost) (kv : String × Json) : Option BlogPost :=
  if kv.1 = "id" then (decStr bp.ID kv.2).map (fun x => { bp with ID := x })
  else if kv.1 = "title" then (decStr bp.Title kv.2).map (fun x => { bp with Title := x })
  else if kv.1 = "slug" then (decStr bp.Slug kv.2).map (fun x => { bp with Slug := x })
  else if kv.1 = "content" then (decStr bp.Content kv.2).map (fun x => { bp with Content := x })
  else if kv.1 = "excerpt" then (decStr bp.Excerpt kv.2).map (fun x => { bp with Excerpt := x })
  else if kv.1 = "author" then (decStr bp.Author kv.2).map (fun x => { bp with Author := x })
  else if kv.1 = "published_at" then
    (decTime bp.PublishedAt kv.2).map (fun x => { bp with PublishedAt := x })
  else if kv.1 = "updated_at" then
    (decTime bp.UpdatedAt kv.2).map (fun x => { bp with UpdatedAt := x })
  else if kv.1 = "tags" then (decStrList bp.Tags kv.2).map (fun x => { bp with Tags := x })
  else if kv.1 = "reading_time" then
    (decStr bp.ReadingTime kv.2).map (fun x => { bp with ReadingTime := x })
  else if kv.1 = "view_count" then
    (decInt bp.ViewCount kv.2).map (fun x => { bp with ViewCount := x })
  else if kv.1 = "featured" then (decBool bp.Featured kv.2).map (fun x => { bp with Featured := x })
  else if kv.1 = "published" then
    (decBool bp.Published kv.2).map (fun x => { bp with Published := x })
  else if kv.1 = "featured_image" then
    (decStr bp.FeaturedImage kv.2).map (fun x => { bp with FeaturedImage := x })
  else if kv.1 = "meta_description" then
    (decStr bp.MetaDescription kv.2).map (fun x => { bp with MetaDescription := x })
  else if kv.1 = "meta_keywords" then
    (decStr bp.MetaKeywords kv.2).map (fun x => { bp with MetaKeywords := x })
  else some bp

/-- Method `BlogPost.FromJSON` on a fresh `var post BlogPost`. -/
def BlogPost.FromJSON : StrVal → Option BlogPost
  | .doc .null => some BlogPost.zero
  | .doc (.obj fields) => fields.foldlM BlogPost.setField BlogPost.zero
  | _ => none

/-- Method `BlogPost.IncrementViewCount`. -/
def BlogPost.IncrementViewCount (now : Nat) (bp : BlogPost) : BlogPost :=
  { bp with ViewCount := bp.ViewCount + 1, UpdatedAt := now }

/-! ## Shared repository helpers -/

/-- A command whose `.Err()` the caller does not look at. -/
def runIgnore (now : Nat) (c : Cmd) (r : Redis) : Redis :=
  match c.run now r with
  | .ok r1 => r1
  | .error _ => r

/-- Loop over the slots of an `MGET` reply shared by the bulk readers: a `nil`
slot is skipped, a slot that does not decode fails the whole read. -/
def decodeSlots {α : Type} (dec : StrVal → Option α) : List (Option StrVal) → Except RepoErr (List α)
  | [] => .ok []
  | none :: rest => decodeSlots dec rest
  | some v :: rest =>
      match dec v with
      | none => .error .unmarshal
      | some a =>
          match decodeSlots dec rest with
          | .ok as => .ok (a :: as)
          | .error e => .error e

/-- Primary-record read shared by the three `Get…ByID`: `redis.Nil` is not-found. -/
def getByID {α : Type} (dec : StrVal → Option α) (r : Redis) (now : Nat) (id : String) :
    Except RepoErr α :=
  match r.get now id with
  | .error .nil => .error .notFound
  | .error e => .error (.store e)
  | .ok v =>
      match dec v with
      | some a => .ok a
      | none => .error .unmarshal

/-! ## models/skills_crud.go -/

/-- Method `SkillsRepository.GetSkillByID`. -/
def GetSkillByID (r : Redis) (now : Nat) (skillID : String) : Except RepoErr Skill :=
  getByID Skill.FromJSON r now skillID

/-- Method `SkillsRepository.CreateSkill` on a store that answers every command, for a
skill that `json.Marshal` accepts: three separate commands, each checked.  `SET`
overwrites a key of any type, so on such a store only the two `SADD` can fail;
`CreateSkillWith` has the error returns of the marshal step and of a store
that does not answer. -/
def CreateSkill (now : Nat) (skill : Skill) (r : Redis) : Option RepoErr × Redis :=
  match (Cmd.set skill.ID skill.ToJSON recordTTL).run now r with
  | .error e => (some (.store e), r)
  | .ok r1 =>
      match (Cmd.sadd "skills:categories" skill.Category).run now r1 with
      | .error e => (some (.store e), r1)
      | .ok r2 =>
          match (Cmd.sadd ("skills:category:" ++ skill.Category) skill.ID).run now r2 with
          | .error e => (some (.store e), r2)
          | .ok r3 => (none, r3)

/-- Method `SkillsRepository.GetSkillsByCategory`. -/
def GetSkillsByCategory (r : Redis) (now : Nat) (category : String) : Except RepoErr (List Skill) :=
  match r.smembers now ("skills:category:" ++ category) with
  | .error e => .error (.store e)
  | .ok skillIDs =>
      if skillIDs.length = 0 then .ok []
      else decodeSlots Skill.FromJSON (r.mget now skillIDs)

/-- Method `SkillsRepository.GetCategories`. -/
def GetCategories (r : Redis) (now : Nat) : Except RepoErr (List String) :=
  match r.smembers now "skills:categories" with
  | .error e => .error (.store e)
  | .ok cs => .ok cs

/-- Method `SkillsRepository.UpdateSkill`; the index commands are not checked. -/
def UpdateSkill (now : Nat) (skill : Skill) (r : Redis) : Option RepoErr × Redis :=
  match GetSkillByID r now skill.ID with
  | .error e => (some e, r)
  | .ok existingSkill =>
      let skill1 := { skill with UpdatedAt := now }
      match (Cmd.set skill1.ID skill1.ToJSON recordTTL).run now r with
      | .error e => (some (.store e), r)
      | .ok r1 =>
          if existingSkill.Category ≠ skill1.Category then
            let r2 := runIgnore now (.srem ("skills:category:" ++ existingSkill.Category) skill1.ID) r1
            let r3 := runIgnore now (.sadd "skills:categories" skill1.Category) r2
            (none, runIgnore now (.sadd ("skills:category:" ++ skill1.Category) skill1.ID) r3)
          else (none, r1)

/-- Method `SkillsRepository.DeleteSkill`. -/
def DeleteSkill (now : Nat) (skillID : String) (r : Redis) : Option RepoErr × Redis :=
  match GetSkillByID r now skillID with
  | .error e => (some e, r)
  | .ok skill =>
      match (Cmd.del skillID).run now r with
      | .error e => (some (.store e), r)
      | .ok r1 =>
          match (Cmd.srem ("skills:category:" ++ skill.Category) skillID).run now r1 with
          | .error e => (some (.store e), r1)
          | .ok r2 => (none, r2)

/-! ## models/projects_crud.go

`unixOfCreatedAt s` stands for `time.Parse("2006-01-02T15:04:05.000Z", s)` followed by
`.Unix()`; the parse error is dropped by the source, so a string that does not parse
yields the Unix time of the zero `time.Time`.  The parser belongs to the Go library
and is an argument here. -/

/-- Method `ProjectsRepository.GetProjectByID`. -/
def GetProjectByID (r : Redis) (now : Nat) (projectID : String) : Except RepoErr Project :=
  getByID Project.FromJSON r now projectID

/-- Index commands queued by `CreateProject`. -/
def createProjectIndexCmds (unixOfCreatedAt : String → Int) (project : Project) : List Cmd :=
  [.sadd ("projects:status:" ++ project.Status) project.ID,
   .sadd "projects:all" project.ID,
   .sadd "projects:statuses" project.Status,
   .zadd "projects:by_date" (unixOfCreatedAt project.CreatedAt) project.ID,
   .zadd "projects:by_views" project.ViewCount project.ID]

/-- Method `ProjectsRepository.CreateProject` on a store that answers every command, for
a project that `json.Marshal` accepts: the record is written first, on its own;
the index commands follow in one pipeline.  `SET` overwrites a key of any type,
so on such a store only the pipeline can fail; `CreateProjectWith` has the
error returns of the marshal step and of a store that does not answer. -/
def CreateProject (unixOfCreatedAt : String → Int) (now : Nat) (project : Project) (r : Redis) :
    Option RepoErr × Redis :=
  match (Cmd.set project.ID project.ToJSON recordTTL).run now r with
  | .error e => (some (.store e), r)
  | .ok r1 =>
      match pipelineExec now (createProjectIndexCmds unixOfCreatedAt project) r1 with
      | (some e, r2) => (some (.store e), r2)
      | (none, r2) => (none, r2)

/-- Helper `getProjectsByIDs`. -/
def getProjectsByIDs (r : Redis) (now : Nat) (projectIDs : List String) :
    Except RepoErr (List Project) :=
  if projectIDs.length = 0 then .ok []
  else decodeSlots Project.FromJSON (r.mget now projectIDs)

/-- Method `ProjectsRepository.GetProjectsByStatus`. -/
def GetProjectsByStatus (r : Redis) (now : Nat) (status : String) : Except RepoErr (List Project) :=
  match r.smembers now ("projects:status:" ++ status) with
  | .error e => .error (.store e)
  | .ok projectIDs => getProjectsByIDs r now projectIDs

/-- Index commands queued by `UpdateProject`. -/
def updateProjectIndexCmds (existingProject project : Project) : List Cmd :=
  (if existingProject.Status ≠ project.Status then
      [.srem ("projects:status:" ++ existingProject.Status) project.ID,
       .sadd ("projects:status:" ++ project.Status) project.ID,
       .sadd "projects:statuses" project.Status]
    else [])
  ++ (if existingProject.ViewCount ≠ project.ViewCount then
      [.zadd "projects:by_views" project.ViewCount project.ID]
    else [])

/-- Method `ProjectsRepository.UpdateProject`. -/
def UpdateProject (now : Nat) (project : Project) (r : Redis) : Option RepoErr × Redis :=
  match GetProjectByID r now project.ID with
  | .error e => (some e, r)
  | .ok existingProject =>
      let project1 := { project with UpdatedAt := now }
      match (Cmd.set project1.ID project1.ToJSON recordTTL).run now r with
      | .error e => (some (.store e), r)
      | .ok r1 =>
          match pipelineExec now (updateProjectIndexCmds existingProject project1) r1 with
          | (some e, r2) => (some (.store e), r2)
          | (none, r2) => (none, r2)

/-- Method `ProjectsRepository.DeleteProject`: one pipeline. -/
def DeleteProject (now : Nat) (projectID : String) (r : Redis) : Option RepoErr × Redis :=
  match GetProjectByID r now projectID with
  | .error e => (some e, r)
  | .ok project =>
      match pipelineExec now
          [.del projectID,
           .srem "projects:all" projectID,
           .srem ("projects:status:" ++ project.Status) projectID,
           .zrem "projects:by_date" projectID,
           .zrem "projects:by_views" projectID] r with
      | (some e, r1) => (some (.store e), r1)
      | (none, r1) => (none, r1)

/-! ## models/blog_crud.go -/

/-- Method `BlogRepository.GetPostByID`. -/
def GetPostByID (r : Redis) (now : Nat) (postID : String) : Except RepoErr BlogPost :=
  getByID BlogPost.FromJSON r now postID

/-- Commands queued by `CreatePost`, in source order. -/
def createPostCmds (post : BlogPost) : List Cmd :=
  [.set post.ID post.ToJSON recordTTL, .sadd "blog:posts:all" post.ID]
  ++ (if post.Published then [.sadd "blog:posts:published" post.ID] else [])
  ++ post.Tags.flatMap (fun tag => [.sadd "blog:tags" tag, .sadd ("blog:tag:" ++ tag) post.ID])
  ++ (if post.Featured then [.sadd "blog:posts:featured" post.ID] else [])
  ++ [.zadd "blog:by_date" post.PublishedAt post.ID, .zadd "blog:by_views" post.ViewCount post.ID]

/-- Method `BlogRepository.CreatePost`: one pipeline, record included. -/
def CreatePost (now : Nat) (post : BlogPost) (r : Redis) : Option RepoErr × Redis :=
  match pipelineExec now (createPostCmds post) r with
  | (some e, r1) => (some (.store e), r1)
  | (none, r1) => (none, r1)

/-- Helper `getPostsByIDs`. -/
def getPostsByIDs (r : Redis) (now : Nat) (postIDs : List String) : Except RepoErr (List BlogPost) :=
  if postIDs.length = 0 then .ok []
  else decodeSlots BlogPost.FromJSON (r.mget now postIDs)

/-- Method `BlogRepository.GetPostsByTag`. -/
def GetPostsByTag (r : Redis) (now : Nat) (tag : String) : Except RepoErr (List BlogPost) :=
  match r.smembers now ("blog:tag:" ++ tag) with
  | .error e => .error (.store e)
  | .ok postIDs => getPostsByIDs r now postIDs

/-- Index commands queued by `UpdatePost`: published set, featured set, view score. -/
def updatePostIndexCmds (existingPost post : BlogPost) : List Cmd :=
  (if existingPost.Published ≠ post.Published then
      (if post.Published then [.sadd "blog:posts:published" post.ID]
       else [.srem "blog:posts:published" post.ID])
    else [])
  ++ (if existingPost.Featured ≠ post.Featured then
      (if post.Featured then [.sadd "blog:posts:featured" post.ID]
       else [.srem "blog:posts:featured" post.ID])
    else [])
  ++ (if existingPost.ViewCount ≠ post.ViewCount then
      [.zadd "blog:by_views" post.ViewCount post.ID]
    else [])

/-- Method `BlogRepository.UpdatePost`. -/
def UpdatePost (now : Nat) (post : BlogPost) (r : Redis) : Option RepoErr × Redis :=
  match GetPostByID r now post.ID with
  | .error e => (some e, r)
  | .ok existingPost =>
      let post1 := { post with UpdatedAt := now }
      match (Cmd.set post1.ID post1.ToJSON recordTTL).run now r with
      | .error e => (some (.store e), r)
      | .ok r1 =>
          match pipelineExec now (updatePostIndexCmds existingPost post1) r1 with
          | (some e, r2) => (some (.store e), r2)
          | (none, r2) => (none, r2)

/-- Commands queued by `DeletePost`; the tag sets are those of the fetched record. -/
def deletePostCmds (postID : String) (post : BlogPost) : List Cmd :=
  [.del postID, .srem "blog:posts:all" postID, .srem "blog:posts:published" postID,
   .srem "blog:posts:featured" postID]
  ++ post.Tags.map (fun tag => .srem ("blog:tag:" ++ tag) postID)
  ++ [.zrem "blog:by_date" postID, .zrem "blog:by_views" postID]

/-- Method `BlogRepository.DeletePost`. -/
def DeletePost (now : Nat) (postID : String) (r : Redis) : Option RepoErr × Redis :=
  match GetPostByID r now postID with
  | .error e => (some e, r)
  | .ok post =>
      match pipelineExec now (deletePostCmds postID post) r with
      | (some e, r1) => (some (.store e), r1)
      | (none, r1) => (none, r1)

end models

namespace handlers

open models

/-! ## handlers/skills.go, handlers/projects.go, handlers/blog.go: the update handlers

A request body is given by the fields its JSON object carries: `none` is a field
that the body omits.  `ShouldBindJSON` binds an omitted field of a plain type to
the zero value and an omitted pointer field to `nil`; a body that does not parse
is `none` as a whole. -/

/-- Body of `PUT /skills/:id`. -/
structure UpdateSkillBody where
  category : Option String
  skill : Option String
  icon : Option String

/-- Field assignments of `SkillsHandler.UpdateSkill` on the fetched skill
("only the fields that were sent"). -/
def applySkillUpdate (b : UpdateSkillBody) (existingSkill : Skill) : Skill :=
  let reqCategory := b.category.getD ""
  let reqSkill := b.skill.getD ""
  let reqIcon := b.icon.getD ""
  { existingSkill with
    Category := if reqCategory ≠ "" then reqCategory else existingSkill.Category
    Name := if reqSkill ≠ "" then reqSkill else existingSkill.Name
    Icon := if reqIcon ≠ "" then reqIcon else existingSkill.Icon }

/-- Handler `SkillsHandler.UpdateSkill`: the HTTP status and the store afterwards. -/
def UpdateSkill (now : Nat) (skillID : String) (body : Option UpdateSkillBody) (r : Redis) :
    Nat × Redis :=
  match body with
  | none => (400, r)
  | some b =>
      match GetSkillByID r now skillID with
      | .error _ => (404, r)
      | .ok existingSkill =>
          match models.UpdateSkill now (applySkillUpdate b existingSkill) r with
          | (some _, r1) => (500, r1)
          | (none, r1) => (200, r1)

/-- Body of `PUT /projects/:id`; every field but `tools` is bound to a pointer. -/
structure UpdateProjectBody where
  title : Option String
  description : Option String
  image : Option String
  link : Option String
  tools : Option (List ProjectTool)
  status : Option String

/-- Overwrite rule of the pointer fields that ignore an empty string. -/
def setIfNonEmpty (req : Option String) (cur : String) : String :=
  match req with
  | some v => if v ≠ "" then v else cur
  | none => cur

/-- Field assignments of `ProjectsHandler.UpdateProject` on the fetched project; `image`
alone is taken even when it is the empty string. -/
def applyProjectUpdate (b : UpdateProjectBody) (existingProject : Project) : Project :=
  let reqTools := b.tools.getD []
  { existingProject with
    Title := setIfNonEmpty b.title existingProject.Title
    Description := setIfNonEmpty b.description existingProject.Description
    Image := (match b.image with
      | some v => v
      | none => existingProject.Image)
    Link := setIfNonEmpty b.link existingProject.Link
    Tools := if reqTools.length > 0 then reqTools else existingProject.Tools
    Status := setIfNonEmpty b.status existingProject.Status }

/-- Handler `ProjectsHandler.UpdateProject`. -/
def UpdateProject (now : Nat) (projectID : String) (body : Option UpdateProjectBody) (r : Redis) :
    Nat × Redis :=
  match body with
  | none => (400, r)
  | some b =>
      match GetProjectByID r now projectID with
      | .error _ => (404, r)
      | .ok existingProject =>
          match models.UpdateProject now (applyProjectUpdate b existingProject) r with
          | (some _, r1) => (500, r1)
          | (none, r1) => (200, r1)

/-- Body of `PUT /blog/posts/:id`. -/
structure UpdatePostBody where
  title : Option String
  content : Option String
  excerpt : Option String
  tags : Option (List String)
  featured : Option Bool
  published : Option Bool
  featured_image : Option String

/-- Outcome of `BlogHandler.UpdatePost`: status, store, and the slug whose image
files `deleteBlogImageFile` was called for, if it was called. -/
structure UpdatePostResult where
  status : Nat
  store : Redis
  imageDeletedFor : Option String

/-- Field assignments of `BlogHandler.UpdatePost` on the fetched post: the text fields
and the tags only when sent non-empty, `Featured`, `Published` and `FeaturedImage`
always. -/
def applyPostUpdate (b : UpdatePostBody) (existingPost : BlogPost) : BlogPost :=
  let reqTitle := b.title.getD ""
  let reqContent := b.content.getD ""
  let reqExcerpt := b.excerpt.getD ""
  let reqTags := b.tags.getD []
  { existingPost with
    Title := if reqTitle ≠ "" then reqTitle else existingPost.Title
    Content := if reqContent ≠ "" then reqContent else existingPost.Content
    Excerpt := if reqExcerpt ≠ "" then reqExcerpt else existingPost.Excerpt
    Tags := if reqTags.length > 0 then reqTags else existingPost.Tags
    Featured := b.featured.getD false
    Published := b.published.getD false
    FeaturedImage := b.featured_image.getD "" }

/-- Handler `BlogHandler.UpdatePost`. -/
def UpdatePost (now : Nat) (postID : String) (body : Option UpdatePostBody) (r : Redis) :
    UpdatePostResult :=
  match body with
  | none => ⟨400, r, none⟩
  | some b =>
      match GetPostByID r now postID with
      | .error _ => ⟨404, r, none⟩
      | .ok existingPost =>
          let deleted :=
            if b.featured_image.getD "" = "" ∧ existingPost.FeaturedImage ≠ "" then
              some existingPost.Slug
            else none
          match models.UpdatePost now (applyPostUpdate b existingPost) r with
          | (some _, r1) => ⟨500, r1, deleted⟩
          | (none, r1) => ⟨200, r1, deleted⟩

end handlers

/-! ## Authentication: config/config.go, handlers/auth.go, middleware/auth.go -/

/-- Section `Auth` of `config.Config`; the durations are the strings of the environment. -/
structure AuthConfig where
  JWTSecret : String
  JWTExpiration : String
  AdminUsername : String
  AdminPasswordHash : String
  MaxLoginAttempts : Int
  LoginCooldown : String

/-- Go struct `Claims`: the username and the registered claims the code reads or
writes; a time claim that the token does not carry is `none`. -/
structure Claims where
  Username : String
  ExpiresAt : Option Int
  NotBefore : Option Int
  IssuedAt : Option Int
  Issuer : String
  deriving DecidableEq, Repr

/-- Library calls of the authentication code, taken as arguments:
`time.ParseDuration` (whole seconds, `none` on a parse error),
`bcrypt.CompareHashAndPassword` (true when it returns no error),
`SignedString` under HS256, and the signature check and claims decoding of
`jwt.ParseWithClaims` (`none` for a malformed token or a wrong signature). -/
structure AuthLib where
  parseDuration : String → Option Int
  compareHashAndPassword : String → String → Bool
  signedString : String → Claims → Option String
  parseSigned : String → String → Option Claims

/-- Request headers that the authentication code reads: the `Authorization`
header (empty when absent) and the `admin_token` cookie as `c.Cookie` returns it. -/
structure AuthRequest where
  authorization : String
  adminToken : Option String

/-- Claims validation done by `jwt.ParseWithClaims` after the signature check:
an `exp` claim must lie after `now`, an `nbf` claim must not. -/
def claimsValidAt (now : Nat) (c : Claims) : Bool :=
  (match c.ExpiresAt with
    | some exp => decide ((now : Int) < exp)
    | none => true)
  && (match c.NotBefore with
    | some nbf => decide (nbf ≤ (now : Int))
    | none => true)

/-- Call `jwt.ParseWithClaims(tokenString, claims, keyFunc)` with the configured secret. -/
def parseWithClaims (lib : AuthLib) (cfg : AuthConfig) (now : Nat) (tokenString : String) :
    Option Claims :=
  match lib.parseSigned cfg.JWTSecret tokenString with
  | none => none
  | some c => if claimsValidAt now c then some c else none

/-- Helper `extractToken`, identical in the handler and in the middleware.  The
source compares the first seven bytes with `Bearer `; these are ASCII, so the
first seven bytes match exactly when the first seven characters do, and the
byte slice `authHeader[7:]` is the text after them. -/
def extractToken (req : AuthRequest) : String :=
  if req.authorization ≠ "" ∧ req.authorization.utf8ByteSize > 7
      ∧ req.authorization.data.take 7 = "Bearer ".data then
    String.mk (req.authorization.data.drop 7)
  else
    match req.adminToken with
    | some cookie => cookie
    | none => ""

/-- Result of `strconv.Atoi` on a stored string with the error dropped. -/
def atoiOrZero : StrVal → Int
  | .int n => n
  | _ => 0

namespace handlers

/-- Helper `AuthHandler.validateCredentials`. -/
def validateCredentials (lib : AuthLib) (cfg : AuthConfig) (username password : String) : Bool :=
  if username ≠ cfg.AdminUsername then false
  else lib.compareHashAndPassword cfg.AdminPasswordHash password

/-- Helper `AuthHandler.generateJWT`: the token and its expiry (Unix seconds). -/
def generateJWT (lib : AuthLib) (cfg : AuthConfig) (now : Nat) (username : String) :
    Option (String × Int) :=
  let duration : Int :=
    match lib.parseDuration cfg.JWTExpiration with
    | some d => d
    | none => 30 * 60
  let expirationTime : Int := now + duration
  let claims : Claims :=
    ⟨username, some expirationTime, none, some now, "portfolio-admin"⟩
  match lib.signedString cfg.JWTSecret claims with
  | none => none
  | some tokenString => some (tokenString, expirationTime)

/-- Helper `AuthHandler.isTokenBlacklisted`. -/
def isTokenBlacklisted (r : Redis) (now : Nat) (token : String) : Bool :=
  match r.get now ("blacklist:" ++ token) with
  | .ok _ => true
  | .error _ => false

/-- Helper `AuthHandler.validateJWT`. -/
def validateJWT (lib : AuthLib) (cfg : AuthConfig) (r : Redis) (now : Nat) (tokenString : String) :
    Option Claims :=
  if isTokenBlacklisted r now tokenString then none
  else parseWithClaims lib cfg now tokenString

/-- Helper `AuthHandler.isRateLimited`. -/
def isRateLimited (cfg : AuthConfig) (r : Redis) (now : Nat) (clientIP : String) : Bool :=
  match r.get now ("login_attempts:" ++ clientIP) with
  | .error _ => false
  | .ok attempts => decide (atoiOrZero attempts ≥ cfg.MaxLoginAttempts)

/-- Helper `AuthHandler.recordFailedAttempt`: `INCR` then `EXPIRE`, neither checked. -/
def recordFailedAttempt (lib : AuthLib) (cfg : AuthConfig) (now : Nat) (clientIP : String)
    (r : Redis) : Redis :=
  let key := "login_attempts:" ++ clientIP
  let cooldownDuration : Int := (lib.parseDuration cfg.LoginCooldown).getD 0
  let r1 :=
    match r.incr now key with
    | .ok (_, r1) => r1
    | .error _ => r
  r1.expire now key cooldownDuration

/-- Helper `AuthHandler.clearFailedAttempts`. -/
def clearFailedAttempts (now : Nat) (clientIP : String) (r : Redis) : Redis :=
  models.runIgnore now (.del ("login_attempts:" ++ clientIP)) r

/-- Helper `AuthHandler.blacklistToken`: the time-to-live is the configured
`JWTExpiration`, zero when it does not parse. -/
def blacklistToken (lib : AuthLib) (cfg : AuthConfig) (now : Nat) (token : String) (r : Redis) :
    Redis :=
  let duration : Int := (lib.parseDuration cfg.JWTExpiration).getD 0
  models.runIgnore now (.set ("blacklist:" ++ token) (.int 1) duration) r

/-- Body of `POST /auth/login` after JSON parsing. -/
structure LoginRequest where
  Username : String
  Password : String

/-- What `Login` answers: status, the token in the body and cookie (if any) with
its expiry, and the store afterwards. -/
structure LoginResult where
  status : Nat
  token : Option (String × Int)
  store : Redis

/-- Handler `AuthHandler.Login`; `body` is `none` when the JSON does not parse, and
`binding:"required"` rejects an empty username or password. -/
def Login (lib : AuthLib) (cfg : AuthConfig) (now : Nat) (clientIP : String)
    (body : Option LoginRequest) (r : Redis) : LoginResult :=
  match body with
  | none => ⟨400, none, r⟩
  | some req =>
      if req.Username = "" ∨ req.Password = "" then ⟨400, none, r⟩
      else if isRateLimited cfg r now clientIP then ⟨429, none, r⟩
      else if ¬ validateCredentials lib cfg req.Username req.Password then
        ⟨401, none, recordFailedAttempt lib cfg now clientIP r⟩
      else
        match generateJWT lib cfg now req.Username with
        | none => ⟨500, none, r⟩
        | some tok => ⟨200, some tok, clearFailedAttempts now clientIP r⟩

/-- Handler `AuthHandler.Logout`: always 200; the store afterwards. -/
def Logout (lib : AuthLib) (cfg : AuthConfig) (now : Nat) (req : AuthRequest) (r : Redis) :
    Nat × Redis :=
  let token := extractToken req
  if token ≠ "" then (200, blacklistToken lib cfg now token r) else (200, r)

/-- Handler `AuthHandler.Verify`: status and, on 200, the claims reported. -/
def Verify (lib : AuthLib) (cfg : AuthConfig) (now : Nat) (req : AuthRequest) (r : Redis) :
    Nat × Option Claims :=
  let token := extractToken req
  if token = "" then (401, none)
  else
    match validateJWT lib cfg r now token with
    | none => (401, none)
    | some claims => (200, some claims)

end handlers

namespace middleware

/-- Helper `AuthMiddleware.isTokenBlacklisted`. -/
def isTokenBlacklisted (r : Redis) (now : Nat) (token : String) : Bool :=
  match r.get now ("blacklist:" ++ token) with
  | .ok _ => true
  | .error _ => false

/-- Helper `AuthMiddleware.validateJWT`. -/
def validateJWT (lib : AuthLib) (cfg : AuthConfig) (r : Redis) (now : Nat) (tokenString : String) :
    Option Claims :=
  if isTokenBlacklisted r now tokenString then none
  else parseWithClaims lib cfg now tokenString

/-- What `RequireAuth` does with a request: answer and `c.Abort()`, or set the
user on the context and `c.Next()`. -/
inductive AuthOutcome where
  | abort (status : Nat)
  | next (username : String)
  deriving DecidableEq, Repr

/-- Middleware `AuthMiddleware.RequireAuth`. -/
def RequireAuth (lib : AuthLib) (cfg : AuthConfig) (r : Redis) (now : Nat) (req : AuthRequest) :
    AuthOutcome :=
  let token := extractToken req
  if token = "" then .abort 401
  else
    match validateJWT lib cfg r now token with
    | none => .abort 401
    | some claims => .next claims.Username

/-- A route of a group built with `.Use(authMiddleware.RequireAuth())`: gin runs the
handler only when the middleware called `c.Next()`; after `c.Abort()` the
response is the one the middleware wrote.  The result is the status and whether
the handler ran. -/
def protectedRoute (lib : AuthLib) (cfg : AuthConfig) (r : Redis) (now : Nat) (req : AuthRequest)
    (handler : String → Nat) : Nat × Bool :=
  match RequireAuth lib cfg r now req with
  | .abort status => (status, false)
  | .next username => (handler username, true)

end middleware

/-! ## handlers/upload.go

`unicode.ToLower` is a table of the Go library and an argument (`lower`) of every
function that calls `strings.ToLower`.  The disk is not a value here: a handler
yields the list of disk operations it performs, in order; whether `os.Create` and
`io.Copy` succeed is given by two flags. -/

/-- Function `strings.ToLower`, rune by rune. -/
def stringsToLower (lower : Char → Char) (s : String) : String :=
  String.mk (s.data.map lower)

/-- Function `strings.ReplaceAll` for a one-character pattern and replacement. -/
def replaceAllChar (old new : Char) (s : String) : String :=
  String.mk (s.data.map (fun c => if c = old then new else c))

/-- Scan of `filepath.Ext` from the end of the path: stops at a separator, returns
the text from the last dot of the final element. -/
def extScan : List Char → List Char → List Char
  | [], _ => []
  | c :: rest, acc =>
      if c = '/' then []
      else if c = '.' then '.' :: acc
      else extScan rest (c :: acc)

/-- Function `filepath.Ext`. -/
def filepathExt (path : String) : String :=
  String.mk (extScan path.data.reverse [])

/-- Part of a multipart `FileHeader` that the handlers read. -/
structure FileHeader where
  Filename : String
  Size : Int

/-- Disk operations of the upload handlers; a path is a directory and a file name. -/
inductive DiskAction where
  | cleanupOldProjectImages (projectID : String)
  | cleanupOldSkillIcons (skillName : String)
  | cleanupOldBlogImages (blogSlug : String)
  | create (dir filename : String)
  | copy (dir filename : String)
  | remove (dir filename : String)
  deriving DecidableEq, Repr

namespace handlers

/-- Extension allow-list of `UploadFile` and `UploadProjectImage`. -/
def generalAllowedExts : List String := [".jpg", ".jpeg", ".png", ".gif", ".svg", ".webp"]

/-- Extension allow-list of `UploadSkillIcon`. -/
def skillAllowedExts : List String := [".svg", ".png", ".jpg", ".jpeg", ".webp"]

/-- Extension allow-list of `UploadBlogImage`. -/
def blogAllowedExts : List String := [".jpg", ".jpeg", ".png", ".gif", ".webp"]

/-- Helper `generateProjectImageName`. -/
def generateProjectImageName (lower : Char → Char) (projectID ext : String) : String :=
  stringsToLower lower (replaceAllChar ' ' '-' (replaceAllChar ':' '-' projectID)) ++ "-main" ++ ext

/-- Characters kept by the pattern `[^a-zA-Z0-9\-]` of `generateSkillIconName`. -/
def isSkillNameChar (c : Char) : Bool :=
  c.isAlphanum || c = '-'

/-- Helper `generateSkillIconName`. -/
def generateSkillIconName (lower : Char → Char) (skillName ext : String) : String :=
  String.mk ((stringsToLower lower (replaceAllChar ' ' '-' skillName)).data.filter isSkillNameChar)
    ++ ext

/-- Replace every maximal run of `c` by one `c` (the patterns `_+` and `-+`). -/
def collapseRuns (c : Char) : List Char → List Char
  | [] => []
  | [x] => [x]
  | x :: y :: rest =>
      if x = c ∧ y = c then collapseRuns c (y :: rest) else x :: collapseRuns c (y :: rest)

/-- Function `strings.Trim` with a one-character cutset. -/
def trimChar (c : Char) (l : List Char) : List Char :=
  ((l.dropWhile (fun x => x = c)).reverse.dropWhile (fun x => x = c)).reverse

/-- Characters kept by the pattern `[^a-zA-Z0-9\-_.]` of `sanitizeFilename`. -/
def isFilenameChar (c : Char) : Bool :=
  c.isAlphanum || c = '-' || c = '_' || c = '.'

/-- Helper `sanitizeFilename`. -/
def sanitizeFilename (filename : String) : String :=
  let ext := filepathExt filename
  let name := filename.data.take (filename.data.length - ext.data.length)
  let safe1 := name.map (fun c => if isFilenameChar c then c else '_')
  let safe2 := trimChar '_' (collapseRuns '_' safe1)
  (if safe2 = [] then "upload" else String.mk safe2) ++ ext

/-- Table `replacements` of `sanitizeBlogImageName`; the keys are single letters and no
value is a key, so the order in which Go walks the map does not matter. -/
def turkishReplacement (c : Char) : Char :=
  if c = 'ç' ∨ c = 'Ç' then 'c'
  else if c = 'ğ' ∨ c = 'Ğ' then 'g'
  else if c = 'ı' ∨ c = 'İ' then 'i'
  else if c = 'ö' ∨ c = 'Ö' then 'o'
  else if c = 'ş' ∨ c = 'Ş' then 's'
  else if c = 'ü' ∨ c = 'Ü' then 'u'
  else c

/-- Characters kept by the pattern `[^a-z0-9\-]` of `sanitizeBlogImageName`. -/
def isSlugChar (c : Char) : Bool :=
  c.isLower || c.isDigit || c = '-'

/-- Helper `sanitizeBlogImageName`; after the filter the name is ASCII, so its byte
length is its length and `name[:60]` takes sixty characters. -/
def sanitizeBlogImageName (lower : Char → Char) (name : String) : String :=
  let n1 := (stringsToLower lower name).data.map turkishReplacement
  let n2 := n1.map (fun c => if c = ' ' then '-' else c)
  let n3 := trimChar '-' (collapseRuns '-' (n2.filter isSlugChar))
  let n4 := if n3 = [] then "image".data else n3
  String.mk (if n4.length > 60 then trimChar '-' (n4.take 60) else n4)

/-- Outcome of an upload handler: HTTP status and the disk operations performed. -/
structure UploadOutcome where
  status : Nat
  actions : List DiskAction
  deriving DecidableEq, Repr

/-- Tail shared by the single-file handlers once the file name is chosen:
`os.Create`, `io.Copy`, and the removal of the file when the copy fails. -/
def saveUpload (dir filename : String) (before : List DiskAction) (createOk copyOk : Bool) :
    UploadOutcome :=
  if ¬ createOk then ⟨500, before ++ [.create dir filename]⟩
  else if ¬ copyOk then
    ⟨500, before ++ [.create dir filename, .copy dir filename, .remove dir filename]⟩
  else ⟨200, before ++ [.create dir filename, .copy dir filename]⟩

/-- Helper `updateProjectImageInRedis`. -/
def updateProjectImageInRedis (now : Nat) (projectID imageURL : String) (r : Redis) :
    Option RepoErr × Redis :=
  match models.GetProjectByID r now projectID with
  | .error e => (some e, r)
  | .ok project => models.UpdateProject now { project with Image := imageURL } r

/-- Handler `UploadHandler.UploadProjectImage`; `file` is `none` when the form has no
`file` part.  A failed store update is only logged. -/
def UploadProjectImage (lower : Char → Char) (now : Nat) (projectID : String)
    (file : Option FileHeader) (createOk copyOk : Bool) (r : Redis) : UploadOutcome × Redis :=
  if projectID = "" then (⟨400, []⟩, r)
  else
    match file with
    | none => (⟨400, []⟩, r)
    | some header =>
        if header.Size > 10 * 1024 * 1024 then (⟨400, []⟩, r)
        else
          let ext := stringsToLower lower (filepathExt header.Filename)
          if ¬ generalAllowedExts.contains ext then (⟨400, []⟩, r)
          else
            let filename := generateProjectImageName lower projectID ext
            let out := saveUpload "./uploads" filename [.cleanupOldProjectImages projectID]
              createOk copyOk
            if out.status = 200 then
              (out, (updateProjectImageInRedis now projectID ("/uploads/" ++ filename) r).2)
            else (out, r)

/-- Handler `UploadHandler.UploadFile`. -/
def UploadFile (lower : Char → Char) (now : Nat) (file : Option FileHeader)
    (createOk copyOk : Bool) : UploadOutcome :=
  match file with
  | none => ⟨400, []⟩
  | some header =>
      if header.Size > 10 * 1024 * 1024 then ⟨400, []⟩
      else
        let ext := stringsToLower lower (filepathExt header.Filename)
        if ¬ generalAllowedExts.contains ext then ⟨400, []⟩
        else
          let filename := toString now ++ "_" ++ sanitizeFilename header.Filename
          saveUpload "./uploads" filename [] createOk copyOk

/-- Handler `UploadHandler.UploadSkillIcon`. -/
def UploadSkillIcon (lower : Char → Char) (skillName : String) (file : Option FileHeader)
    (createOk copyOk : Bool) : UploadOutcome :=
  if skillName = "" then ⟨400, []⟩
  else
    match file with
    | none => ⟨400, []⟩
    | some header =>
        if header.Size > 5 * 1024 * 1024 then ⟨400, []⟩
        else
          let ext := stringsToLower lower (filepathExt header.Filename)
          if ¬ skillAllowedExts.contains ext then ⟨400, []⟩
          else
            let filename := generateSkillIconName lower skillName ext
            saveUpload "./skills-upload" filename [.cleanupOldSkillIcons skillName] createOk copyOk

/-- Handler `UploadHandler.UploadBlogImage`; `blogSlug` is the query value, empty when absent. -/
def UploadBlogImage (lower : Char → Char) (now : Nat) (blogSlug : String)
    (file : Option FileHeader) (createOk copyOk : Bool) : UploadOutcome :=
  match file with
  | none => ⟨400, []⟩
  | some header =>
      if header.Size > 5 * 1024 * 1024 then ⟨400, []⟩
      else
        let ext := stringsToLower lower (filepathExt header.Filename)
        if ¬ blogAllowedExts.contains ext then ⟨400, []⟩
        else
          let filename :=
            if blogSlug ≠ "" then "blog-" ++ sanitizeBlogImageName lower blogSlug ++ ext
            else "blog-" ++ toString now ++ ext
          saveUpload "./blog-upload" filename
            (if blogSlug ≠ "" then [.cleanupOldBlogImages blogSlug] else []) createOk copyOk

end handlers

/-! ## handlers/upload.go: the multi-file handler -/

namespace handlers

/-- One entry of `form.File["files"]` with what happens when it is stored: whether
`Open`, `os.Create` and `io.Copy` succeed, and `time.Now().UnixNano()` at
that moment. -/
structure MultiFile where
  header : FileHeader
  openOk : Bool
  createOk : Bool
  copyOk : Bool
  unixNano : Nat

/-- What `UploadMultiple` reports for one file: an entry of `errors` (the first five
cases) or an entry of `uploaded_files`. -/
inductive FileReport where
  | tooLarge
  | invalidType
  | openFailed
  | createFailed
  | saveFailed
  | uploaded (filename : String)
  deriving DecidableEq, Repr

/-- Body of the loop of `UploadMultiple` for one file: the report and the disk
operations.  The file name keeps the client's name as it is. -/
def uploadMultipleFile (lower : Char → Char) (f : MultiFile) : FileReport × List DiskAction :=
  if f.header.Size > 10 * 1024 * 1024 then (.tooLarge, [])
  else if ¬ generalAllowedExts.contains (stringsToLower lower (filepathExt f.header.Filename))
  then (.invalidType, [])
  else if ¬ f.openOk then (.openFailed, [])
  else
    let filename := toString f.unixNano ++ "_" ++ f.header.Filename
    if ¬ f.createOk then (.createFailed, [.create "./uploads" filename])
    else if ¬ f.copyOk then
      (.saveFailed, [.create "./uploads" filename, .copy "./uploads" filename,
        .remove "./uploads" filename])
    else (.uploaded filename, [.create "./uploads" filename, .copy "./uploads" filename])

/-- Handler `UploadHandler.UploadMultiple`; `files` is `none` when the multipart form
does not parse.  The result is the status, the per-file reports in order and
the disk operations in order. -/
def UploadMultiple (lower : Char → Char) (files : Option (List MultiFile)) :
    Nat × List FileReport × List DiskAction :=
  match files with
  | none => (400, [], [])
  | some fs =>
      if fs.length = 0 then (400, [], [])
      else (200, fs.map (fun f => (uploadMultipleFile lower f).1),
        fs.flatMap (fun f => (uploadMultipleFile lower f).2))

end handlers

/-! ## Notions used in the statements -/

/-- Commands that only touch set and sorted-set keys. -/
def Cmd.isIndex : Cmd → Bool
  | .sadd _ _ => true
  | .srem _ _ => true
  | .zadd _ _ _ => true
  | .zrem _ _ => true
  | _ => false

/-- Value fits a Go `int` (64 bits). -/
def isInt64 (n : Int) : Prop := -9223372036854775808 ≤ n ∧ n ≤ 9223372036854775807

instance (n : Int) : Decidable (isInt64 n) := by
  unfold isInt64
  exact inferInstance

/-! ## Concrete inputs used by the witnesses and counterexamples -/

/-- Skill of the spec example. -/
def exSkill : models.Skill := models.NewSkill 100 "Languages" "Rust" "/rust.svg"

/-- A project as `NewProject` builds it. -/
def exProject : models.Project :=
  models.NewProject 100 "2024-01-02T03:04:05.000Z" "404 Squad" "A team page" "https://x.dev"
    "/uploads/a.png" "Live" [⟨"React", "/react.svg"⟩]

/-- A draft post with one tag and a featured image. -/
def exPost : models.BlogPost :=
  { models.BlogPost.zero with
    ID := "blog:modern-css", Title := "Modern CSS", Slug := "modern-css", Content := "text",
    Excerpt := "text", Author := "admin", PublishedAt := 100, UpdatedAt := 100, Tags := ["go"],
    ReadingTime := "1 min read", FeaturedImage := "/blog-upload/blog-modern-css.png" }

/-- Store holding `exSkill` only. -/
def storeWithSkill : Redis := (models.CreateSkill 100 exSkill Redis.empty).2

/-- Store holding `exPost` only. -/
def storeWithPost : Redis := (models.CreatePost 100 exPost Redis.empty).2

/-- Update body that carries a title and nothing else. -/
def exTitleOnlyBody : handlers.UpdatePostBody :=
  ⟨some "New title", none, none, none, none, none, none⟩

/-- Update body that replaces the tag list by `rust` and resends the featured image. -/
def exRetagBody : handlers.UpdatePostBody :=
  ⟨none, none, none, some ["rust"], none, none, some "/blog-upload/blog-modern-css.png"⟩

/-- Store after `PUT /blog/posts/blog:modern-css` with `exRetagBody` at time 200. -/
def storeRetagged : Redis :=
  (handlers.UpdatePost 200 exPost.ID (some exRetagBody) storeWithPost).store

/-- Update body of a skill that carries only a new icon. -/
def exIconOnlyBody : handlers.UpdateSkillBody := ⟨none, none, some "/skills-upload/rust.svg"⟩

/-! ## Login attempts in sequence -/

/-- Key of the failed-login counter of a client. -/
def attemptsKey (clientIP : String) : String := "login_attempts:" ++ clientIP

/-- The counter key of `clientIP` is unused or holds a non-negative integer (what
`INCR` leaves there), whatever its expiry. -/
def counterOk (r : Redis) (clientIP : String) : Bool :=
  match r.entries.lookup (attemptsKey clientIP) with
  | none => true
  | some ⟨.str (.int n), _⟩ => decide (0 ≤ n)
  | some _ => false

/-- An attempt at `now` follows the previous attempt (at `last`, if any) and comes
before the counter written by it expires. -/
def inCooldownWindow (cooldown : Nat) (last : Option Nat) (now : Nat) : Bool :=
  match last with
  | none => true
  | some t => decide (t ≤ now ∧ now < t + cooldown)

/-- Login attempts of one client, run in order from store `r`.  The result is the
final store with the time of the last attempt when every attempt is answered
401 and every attempt after the first comes no earlier than the one before it
and before the counter written by that one expires (`cooldown` seconds after
it); otherwise `none`. -/
def failedLogins (lib : AuthLib) (cfg : AuthConfig) (clientIP : String) (cooldown : Nat) :
    Option Nat → Redis → List (Nat × handlers.LoginRequest) → Option (Redis × Option Nat)
  | last, r, [] => some (r, last)
  | last, r, (now, req) :: rest =>
      if inCooldownWindow cooldown last now = true
          ∧ (handlers.Login lib cfg now clientIP (some req) r).status = 401 then
        failedLogins lib cfg clientIP cooldown (some now)
          (handlers.Login lib cfg now clientIP (some req) r).store rest
      else none

/-- Invariant of a run of failed logins: before any attempt the counter key is
unused or a non-negative integer; after an attempt at time `t` it holds an
integer of at least `k` and expires `C` seconds after `t`. -/
def counterAtLeast (ip : String) (C k : Nat) (last : Option Nat) (r : Redis) : Prop :=
  match last with
  | none => k = 0 ∧ counterOk r ip = true
  | some t => ∃ n : Int,
      r.entries.lookup (attemptsKey ip) = some ⟨.str (.int n), some (t + C)⟩ ∧ (k : Int) ≤ n
/-! ## A configuration and a stand-in library for the concrete runs -/

/-- Claims of the token that `generateJWT` issues for `admin` at time 0 with a
lifetime of `seconds`. -/
def exClaims (seconds : Int) : Claims :=
  ⟨"admin", some seconds, none, some 0, "portfolio-admin"⟩

/-- Stand-in for the Go libraries: three durations parse, a password matches the
hash that spells it out, and tokens signed with the secret `s3cret` carry their
lifetime in their text for the two lifetimes used below. -/
def exAuthLib : AuthLib where
  parseDuration := fun s =>
    if s = "15m" then some 900 else if s = "30m" then some 1800
    else if s = "24h" then some 86400 else none
  compareHashAndPassword := fun hash password => hash = "hash(" ++ password ++ ")"
  signedString := fun secret c =>
    if secret ≠ "s3cret" then none
    else if c = exClaims 1800 then some "jwt.admin.1800"
    else if c = exClaims 86400 then some "jwt.admin.86400"
    else some "jwt.other"
  parseSigned := fun secret token =>
    if secret ≠ "s3cret" then none
    else if token = "jwt.admin.1800" then some (exClaims 1800)
    else if token = "jwt.admin.86400" then some (exClaims 86400)
    else none

/-- Configuration with the defaults of `LoadConfig` for the durations and a limit of
three failed logins. -/
def exAuthConfig : AuthConfig :=
  ⟨"s3cret", "30m", "admin", "hash(hunter2)", 3, "15m"⟩

/-- Login request with a wrong password. -/
def exBadLogin : handlers.LoginRequest := ⟨"admin", "guess"⟩

/-- Login request with the right password. -/
def exGoodLogin : handlers.LoginRequest := ⟨"admin", "hunter2"⟩

/-- Store after three failed logins of client `10.0.0.1` at times 1000, 1010 and 1020. -/
def exLockedStore : Redis :=
  handlers.recordFailedAttempt exAuthLib exAuthConfig 1020 "10.0.0.1"
    (handlers.recordFailedAttempt exAuthLib exAuthConfig 1010 "10.0.0.1"
      (handlers.recordFailedAttempt exAuthLib exAuthConfig 1000 "10.0.0.1" Redis.empty))

/-- Store after one failed login of `10.0.0.1` (time 1000) and one of `10.0.0.2` (time 1010). -/
def exTwoClientsStore : Redis :=
  handlers.recordFailedAttempt exAuthLib exAuthConfig 1010 "10.0.0.2"
    (handlers.recordFailedAttempt exAuthLib exAuthConfig 1000 "10.0.0.1" Redis.empty)

/-- Store after `POST /auth/logout` at time 600 with the bearer token `token`, under
`exAuthConfig` (token lifetime `30m`), starting from the empty store. -/
def exLoggedOutStore (token : String) : Redis :=
  (handlers.Logout exAuthLib exAuthConfig 600 ⟨"Bearer " ++ token, none⟩ Redis.empty).2

/-! ## The upload directories on disk

A file is a directory (as the handler names it), an entry name and the bytes.
`filepath.Match` is a function of the Go library and an argument (`pathMatch`) of
the cleanup helpers: `pathMatch pattern name` tells whether the entry name matches
the last element of the pattern; it is `false` for a malformed pattern, for which
`filepath.Glob` returns `ErrBadPattern` and the helper returns at once. -/

/-- File of an upload directory. -/
structure DiskFile where
  dir : String
  name : String
  contents : String
  deriving DecidableEq, Repr

/-- Files on disk, at most one per directory and name. -/
abbrev Disk := List DiskFile

namespace Disk

/-- Entry names of directory `dir`. -/
def names (d : Disk) (dir : String) : List String :=
  (d.filter (fun f => f.dir = dir)).map (fun f => f.name)

/-- Bytes of the file `dir/name`, `none` when there is no such file. -/
def read (d : Disk) (dir name : String) : Option String :=
  (d.find? (fun f => f.dir = dir ∧ f.name = name)).map (fun f => f.contents)

/-- Function `os.Remove`; removing a missing file fails and changes nothing. -/
def remove (d : Disk) (dir name : String) : Disk :=
  d.filter (fun f => ¬ (f.dir = dir ∧ f.name = name))

/-- File `dir/name` holds `contents` afterwards (`os.Create` with empty contents,
`io.Copy` with the uploaded bytes). -/
def write (d : Disk) (dir name contents : String) : Disk :=
  ⟨dir, name, contents⟩ :: d.remove dir name

/-- Function `os.Rename` inside one directory: fails when `old` is missing, replaces
an existing `new`. -/
def rename (d : Disk) (dir old new : String) : Disk :=
  match d.read dir old with
  | none => d
  | some c => if old = new then d else (d.remove dir old).write dir new c

end Disk

/-- Function `filepath.Glob` for a pattern `dir/pattern` whose directory part has no
metacharacter: the matching entries of the directory, sorted. -/
def filepathGlob (pathMatch : String → String → Bool) (d : Disk) (dir pattern : String) :
    List String :=
  ((d.names dir).filter (pathMatch pattern)).insertionSort (fun a b => a ≤ b)

/-- Test `sub` occurs in the list. -/
def hasInfix (sub : List Char) : List Char → Bool
  | [] => sub.isEmpty
  | c :: rest => sub.isPrefixOf (c :: rest) || hasInfix sub rest

/-- Function `strings.Contains`. -/
def stringsContains (s substr : String) : Bool :=
  hasInfix substr.data s.data

/-- Function `strings.Replace(s, old, new, 1)` on the characters. -/
def replaceFirst (old new : List Char) : List Char → List Char
  | [] => if old.isEmpty then new else []
  | c :: rest =>
      if old.isPrefixOf (c :: rest) then new ++ (c :: rest).drop old.length
      else c :: replaceFirst old new rest

namespace handlers

/-- Body of the loop of `cleanupOldProjectImages` for one matched file. -/
def cleanupProjectFile (d : Disk) (filename : String) : Disk :=
  if stringsContains filename "-temp" ∨ stringsContains filename "-backup" then
    d.remove "./uploads" filename
  else if stringsContains filename "-main" then
    d.rename "./uploads" filename (String.mk (replaceFirst "-main".data "-backup".data filename.data))
  else d

/-- Helper `cleanupOldProjectImages`. -/
def cleanupOldProjectImages (pathMatch : String → String → Bool) (lower : Char → Char)
    (projectID : String) (d : Disk) : Disk :=
  let safeID := stringsToLower lower (replaceAllChar ' ' '-' (replaceAllChar ':' '-' projectID))
  (filepathGlob pathMatch d "./uploads" (safeID ++ "-*")).foldl cleanupProjectFile d

/-- Helper `cleanupOldSkillIcons`. -/
def cleanupOldSkillIcons (pathMatch : String → String → Bool) (lower : Char → Char)
    (skillName : String) (d : Disk) : Disk :=
  let safeSkillName :=
    String.mk ((stringsToLower lower (replaceAllChar ' ' '-' skillName)).data.filter isSkillNameChar)
  (filepathGlob pathMatch d "./skills-upload" (safeSkillName ++ ".*")).foldl
    (fun d file => d.remove "./skills-upload" file) d

/-- Helper `cleanupOldBlogImages`. -/
def cleanupOldBlogImages (pathMatch : String → String → Bool) (lower : Char → Char)
    (blogSlug : String) (d : Disk) : Disk :=
  (filepathGlob pathMatch d "./blog-upload"
    ("blog-" ++ sanitizeBlogImageName lower blogSlug ++ ".*")).foldl
    (fun d file => d.remove "./blog-upload" file) d

end handlers

/-- Effect of one disk operation of an upload on the disk; `contents` is the uploaded
file, `createOk` tells whether `os.Create` succeeds. -/
def DiskAction.run (pathMatch : String → String → Bool) (lower : Char → Char)
    (contents : String) (createOk : Bool) : DiskAction → Disk → Disk
  | .cleanupOldProjectImages projectID, d =>
      handlers.cleanupOldProjectImages pathMatch lower projectID d
  | .cleanupOldSkillIcons skillName, d => handlers.cleanupOldSkillIcons pathMatch lower skillName d
  | .cleanupOldBlogImages blogSlug, d => handlers.cleanupOldBlogImages pathMatch lower blogSlug d
  | .create dir filename, d => if createOk then d.write dir filename "" else d
  | .copy dir filename, d => d.write dir filename contents
  | .remove dir filename, d => d.remove dir filename

/-- Disk after the operations of one upload, in order. -/
def runDiskActions (pathMatch : String → String → Bool) (lower : Char → Char)
    (contents : String) (createOk : Bool) (actions : List DiskAction) (d : Disk) : Disk :=
  actions.foldl (fun d a => a.run pathMatch lower contents createOk d) d

/-- Store and disk between two requests. -/
structure World where
  store : Redis
  disk : Disk

/-- Request `POST /api/upload/project/:id` with a file part of the given bytes, on store
and disk; `os.Create` and `io.Copy` succeed.  The result is the status and the
state afterwards. -/
def uploadProjectImage (pathMatch : String → String → Bool) (lower : Char → Char) (now : Nat)
    (projectID : String) (header : FileHeader) (contents : String) (w : World) : Nat × World :=
  let res := handlers.UploadProjectImage lower now projectID (some header) true true w.store
  (res.1.status, ⟨res.2, runDiskActions pathMatch lower contents true res.1.actions w.disk⟩)

/-- Stand-in for `filepath.Match` on patterns made of literal characters and one final
star, the literal part without separator: the name starts with the literal part
and has no separator. -/
def prefixStarMatch (pattern name : String) : Bool :=
  match pattern.data.reverse with
  | '*' :: revLit => revLit.reverse.isPrefixOf name.data && !name.data.contains '/'
  | _ => pattern = name

/-- Function `strings.HasPrefix`. -/
def hasPrefix (s pre : String) : Bool :=
  pre.data.isPrefixOf s.data

/-- Project stored under the ID `abc123`. -/
def exProjectAbc : models.Project := { exProject with ID := "abc123" }

/-- Store holding `exProjectAbc`, and an upload directory without files. -/
def worldWithProjectAbc : World :=
  ⟨(models.CreateProject (fun _ => 100) 100 exProjectAbc Redis.empty).2, []⟩

/-- Public URL that `UploadSkillIcon` reports for the stored file. -/
def handlers.skillIconURL (lower : Char → Char) (skillName ext : String) : String :=
  "/skills-upload/" ++ handlers.generateSkillIconName lower skillName ext

/-- Request `POST /api/upload/skill/:skillName` with a file part of the given bytes, on
store and disk; `os.Create` and `io.Copy` succeed.  The handler never calls a
repository: the store afterwards is the store before. -/
def uploadSkillIcon (pathMatch : String → String → Bool) (lower : Char → Char)
    (skillName : String) (header : FileHeader) (contents : String) (w : World) : Nat × World :=
  let out := handlers.UploadSkillIcon lower skillName (some header) true true
  (out.status, ⟨w.store, runDiskActions pathMatch lower contents true out.actions w.disk⟩)

/-- Slot of an `MGET` reply for key `k`: the string stored there, if any. -/
def Redis.slot (r : Redis) (now : Nat) (k : String) : Option StrVal :=
  match r.find now k with
  | some ⟨.str v, _⟩ => some v
  | _ => none

/-- Store whose category set `Languages` lists the key `note`, which holds a string
that is no JSON document. -/
def storeWithNote : Redis :=
  ⟨[("skills:category:Languages", ⟨.set ["note"], none⟩), ("note", ⟨.str (.text "hello"), none⟩)]⟩

/-! ## models/blog.go and models/blog_crud.go: the published posts -/

namespace models

/-- Go struct `BlogPostSummary`. -/
structure BlogPostSummary where
  ID : String
  Title : String
  Slug : String
  Excerpt : String
  Author : String
  PublishedAt : Int
  Tags : List String
  ReadingTime : String
  ViewCount : Int
  Featured : Bool
  Published : Bool
  FeaturedImage : String
  deriving DecidableEq, Repr

/-- Method `BlogPost.ToSummary`. -/
def BlogPost.ToSummary (bp : BlogPost) : BlogPostSummary :=
  { ID := bp.ID, Title := bp.Title, Slug := bp.Slug, Excerpt := bp.Excerpt, Author := bp.Author,
    PublishedAt := bp.PublishedAt, Tags := bp.Tags, ReadingTime := bp.ReadingTime,
    ViewCount := bp.ViewCount, Featured := bp.Featured, Published := bp.Published,
    FeaturedImage := bp.FeaturedImage }

/-- Go struct `BlogResponse`. -/
structure BlogResponse where
  Posts : List BlogPostSummary
  Total : Int
  Page : Int
  Limit : Int
  deriving DecidableEq, Repr

/-- Method `BlogRepository.GetPublishedPosts`. -/
def GetPublishedPosts (r : Redis) (now : Nat) : Except RepoErr (List BlogPost) :=
  match r.smembers now "blog:posts:published" with
  | .error e => .error (.store e)
  | .ok postIDs => getPostsByIDs r now postIDs

/-- Result of Go `int` arithmetic: the mathematical value wrapped to 64 bits. -/
def wrapInt64 (n : Int) : Int :=
  (n + 9223372036854775808) % 18446744073709551616 - 9223372036854775808

/-- The call of `sort.Slice` in `GetBlogResponse`: newest `PublishedAt` first.  Go's sort
is not stable; posts with equal times keep their order here. -/
def sortNewestFirst (posts : List BlogPost) : List BlogPost :=
  posts.insertionSort (fun a b => a.PublishedAt ≥ b.PublishedAt)

/-- Method `BlogRepository.GetBlogResponse`; `.ok none` stands for the run-time panic of
a slice expression whose bounds are out of range. -/
def GetBlogResponse (r : Redis) (now : Nat) (page limit : Int) :
    Except RepoErr (Option BlogResponse) :=
  match GetPublishedPosts r now with
  | .error e => .error e
  | .ok posts =>
      let sorted := sortNewestFirst posts
      let total : Int := sorted.length
      let start := wrapInt64 ((page - 1) * limit)
      let stop := wrapInt64 (start + limit)
      let window : Option (List BlogPost) :=
        if start ≥ total then some []
        else if stop > total then
          (if start < 0 then none else some (sorted.drop start.toNat))
        else if start < 0 ∨ stop < start then none
        else some ((sorted.drop start.toNat).take (stop - start).toNat)
      .ok (window.map (fun ps => ⟨ps.map BlogPost.ToSummary, total, page, limit⟩))

end models

/-- The post `exPost`, published. -/
def exPublishedPost : models.BlogPost := { exPost with Published := true }

/-- Store after `CreatePost` of `exPublishedPost` and then `CreatePost` of the draft
`exPost`, which has the same ID. -/
def storeRecreatedDraft : Redis :=
  (models.CreatePost 200 exPost (models.CreatePost 100 exPublishedPost Redis.empty).2).2

/-! ## models/skills_crud.go: all skills and the category list -/

/-- Command `KEYS pre*`: the live keys that start with `pre`, of any type. -/
def Redis.keysWithPrefix (r : Redis) (now : Nat) (pre : String) : List String :=
  (r.entries.filter (fun p => Redis.live now p.2 && hasPrefix p.1 pre)).map (fun p => p.1)

namespace models

/-- Helper `getAllSkillIDs`: `KEYS skill:*`. -/
def getAllSkillIDs (r : Redis) (now : Nat) : List String :=
  r.keysWithPrefix now "skill:"

/-- Method `SkillsRepository.GetAllSkills`. -/
def GetAllSkills (r : Redis) (now : Nat) : Except RepoErr (List Skill) :=
  let skillIDs := getAllSkillIDs r now
  if skillIDs.length = 0 then .ok []
  else decodeSlots Skill.FromJSON (r.mget now skillIDs)

/-- Go struct `SkillsResponse`. -/
structure SkillsResponse where
  Categories : List String
  Skills : List Skill
  deriving DecidableEq, Repr

/-- Method `SkillsRepository.GetSkillsResponse`. -/
def GetSkillsResponse (r : Redis) (now : Nat) : Except RepoErr SkillsResponse :=
  match GetAllSkills r now with
  | .error e => .error e
  | .ok skills =>
      match GetCategories r now with
      | .error e => .error e
      | .ok categories => .ok ⟨categories, skills⟩

end models

/-- One call of the skills repository. -/
inductive SkillOp where
  | create (skill : models.Skill)
  | update (skill : models.Skill)
  | delete (skillID : String)

/-- Store after the call at time `now`, whether or not the call reports an error. -/
def SkillOp.run (now : Nat) : SkillOp → Redis → Redis
  | .create skill, r => (models.CreateSkill now skill r).2
  | .update skill, r => (models.UpdateSkill now skill r).2
  | .delete skillID, r => (models.DeleteSkill now skillID r).2

/-- Store after a sequence of calls, each with the time at which it runs. -/
def runSkillOps : List (Nat × SkillOp) → Redis → Redis
  | [], r => r
  | (now, op) :: rest, r => runSkillOps rest (op.run now r)

/-- Key under which the call writes a record. -/
def SkillOp.recordKey : SkillOp → Option String
  | .create skill => some skill.ID
  | .update skill => some skill.ID
  | .delete _ => none

/-- State of the category list kept by the skills repository: `skills:categories` is
missing (`cs` empty) or a set `cs` without expiry, and every string in the store
is a skill document whose category is in `cs` or among the `pending` ones. -/
def categoriesCover (r : Redis) (cs pending : List String) : Prop :=
  ((r.entries.lookup "skills:categories" = none ∧ cs = [])
    ∨ r.entries.lookup "skills:categories" = some ⟨.set cs, none⟩)
  ∧ ∀ id v ex, r.entries.lookup id = some ⟨.str v, ex⟩ →
      ∃ s, models.Skill.FromJSON v = some s ∧ (s.Category ∈ cs ∨ s.Category ∈ pending)

/-! ## Sorted sets by rank: models/projects_crud.go, models/blog_crud.go, handlers/blog.go -/

/-- Order of `ZREVRANGE`: the higher score first; among equal scores the greater member
first. -/
def zrevBefore (a b : String × Int) : Prop :=
  b.2 < a.2 ∨ (b.2 = a.2 ∧ b.1 ≤ a.1)

instance : DecidableRel zrevBefore := fun a b => by
  unfold zrevBefore
  exact inferInstance

/-- Members of a sorted set with their scores, in the order of `ZREVRANGE`. -/
def zsetDescending (ms : List (String × Int)) : List (String × Int) :=
  ms.insertionSort zrevBefore

/-- Command `ZREVRANGE k start stop`: a negative index counts from the end, the range
is cut to the set, and a missing key is the empty set. -/
def Redis.zrevrange (r : Redis) (now : Nat) (k : String) (start stop : Int) :
    Except RedisErr (List String) :=
  match r.find now k with
  | none => .ok []
  | some ⟨.zset ms, _⟩ =>
      let n : Int := ms.length
      let start1 := if start < 0 then max (n + start) 0 else start
      let stop1 := if stop < 0 then n + stop else min stop (n - 1)
      if start1 > stop1 ∨ start1 ≥ n then .ok []
      else
        .ok ((((zsetDescending ms).drop start1.toNat).take (stop1 - start1 + 1).toNat).map
          (fun p => p.1))
  | some _ => .error .wrongType

namespace models

/-- Method `ProjectsRepository.GetLatestProjects`; `count` is a Go `int`. -/
def GetLatestProjects (r : Redis) (now : Nat) (count : Int) : Except RepoErr (List Project) :=
  match r.zrevrange now "projects:by_date" 0 (wrapInt64 (count - 1)) with
  | .error e => .error (.store e)
  | .ok projectIDs => getProjectsByIDs r now projectIDs

/-- Method `ProjectsRepository.GetPopularProjects`. -/
def GetPopularProjects (r : Redis) (now : Nat) (count : Int) : Except RepoErr (List Project) :=
  match r.zrevrange now "projects:by_views" 0 (wrapInt64 (count - 1)) with
  | .error e => .error (.store e)
  | .ok projectIDs => getProjectsByIDs r now projectIDs

/-- Method `BlogRepository.GetLatestPosts`. -/
def GetLatestPosts (r : Redis) (now : Nat) (count : Int) : Except RepoErr (List BlogPost) :=
  match r.zrevrange now "blog:by_date" 0 (wrapInt64 (count - 1)) with
  | .error e => .error (.store e)
  | .ok postIDs => getPostsByIDs r now postIDs

end models

/-- IDs that `GetLatestProjects` and `GetLatestPosts` ask for: the first `count` members
of the sorted set under `k` in descending order; none for a missing key. -/
def topIDs (r : Redis) (now : Nat) (k : String) (count : Int) : List String :=
  match r.find now k with
  | some ⟨.zset ms, _⟩ => ((zsetDescending ms).take count.toNat).map (fun p => p.1)
  | _ => []

/-- Handler `BlogHandler.GetPopularPosts`: status and the posts of the answer.  `count`
is what `strconv.Atoi` makes of the `count` query value (`"10"` when the query
has none), `none` when it does not parse. -/
def handlers.GetPopularPosts (r : Redis) (now : Nat) (count : Option Int) :
    Nat × List models.BlogPost :=
  let count1 : Int :=
    match count with
    | some c => if c ≤ 0 then 10 else c
    | none => 10
  match models.GetLatestPosts r now count1 with
  | .error _ => (500, [])
  | .ok posts => (200, posts)

/-- A published post of time 100 with 50 views. -/
def exOldPopularPost : models.BlogPost :=
  { exPost with
    ID := "blog:old", Slug := "old", Title := "Old", PublishedAt := 100, ViewCount := 50,
    Published := true }

/-- A published post of time 200 with 3 views. -/
def exNewQuietPost : models.BlogPost :=
  { exPost with
    ID := "blog:new", Slug := "new", Title := "New", PublishedAt := 200, ViewCount := 3,
    Published := true }

/-- Store holding `exOldPopularPost` and `exNewQuietPost`. -/
def storeWithTwoPosts : Redis :=
  (models.CreatePost 200 exNewQuietPost (models.CreatePost 100 exOldPopularPost Redis.empty).2).2

/-! ## The store commands of one update, in the order of the source -/

namespace models

/-- Commands that `UpdateSkill` sends once the existing skill is read, in source order. -/
def updateSkillCmds (now : Nat) (existingSkill skill : Skill) : List Cmd :=
  let skill1 := { skill with UpdatedAt := now }
  Cmd.set skill1.ID skill1.ToJSON recordTTL ::
    (if existingSkill.Category ≠ skill1.Category then
      [.srem ("skills:category:" ++ existingSkill.Category) skill1.ID,
       .sadd "skills:categories" skill1.Category,
       .sadd ("skills:category:" ++ skill1.Category) skill1.ID]
    else [])

/-- Commands that `UpdateProject` sends once the existing project is read: the `Set`,
then the pipeline. -/
def updateProjectCmds (now : Nat) (existingProject project : Project) : List Cmd :=
  let project1 := { project with UpdatedAt := now }
  Cmd.set project1.ID project1.ToJSON recordTTL :: updateProjectIndexCmds existingProject project1

/-- Commands that `UpdatePost` sends once the existing post is read: the `Set`, then
the pipeline. -/
def updatePostCmds (now : Nat) (existingPost post : BlogPost) : List Cmd :=
  let post1 := { post with UpdatedAt := now }
  Cmd.set post1.ID post1.ToJSON recordTTL :: updatePostIndexCmds existingPost post1

end models

/-- Store after a list of commands sent in order, a failed command changing nothing. -/
def runCmds (now : Nat) (cs : List Cmd) (r : Redis) : Redis :=
  cs.foldl (fun r c => models.runIgnore now c r) r

/-- Key that a `SET` writes; `none` for the other commands. -/
def Cmd.setKey : Cmd → Option String
  | .set k _ _ => some k
  | _ => none

/-- Store in which the key `skills:categories` holds a string. -/
def storeBadCategories : Redis :=
  ⟨[("skills:categories", ⟨.str (.text "x"), none⟩)]⟩

/-- Store in which the key `projects:all` holds a string. -/
def storeBadProjectsAll : Redis :=
  ⟨[("projects:all", ⟨.str (.text "x"), none⟩)]⟩

/-! ## Create calls with every error return of the source -/

/-- Failures of one repository call that do not depend on the stored data.  `marshal`
tells that `json.Marshal` returns an error (a `time.Time` whose year lies outside
0..9999 has no JSON form); `trip i` is the error of round trip number `i` of
the call when the store does not answer it (connection lost, store out of
memory or read-only).  A round trip that is not answered changes nothing. -/
structure Faults where
  marshal : Bool
  trip : Nat → Option RedisErr

/-- Call in which the record marshals and the store answers every round trip. -/
def noFaults : Faults := ⟨false, fun _ => none⟩

/-- One write command sent as a round trip of its own. -/
def Cmd.runTrip (fault : Option RedisErr) (now : Nat) (r : Redis) (c : Cmd) :
    Except RedisErr Redis :=
  match fault with
  | some e => .error e
  | none => c.run now r

/-- Errors of `CreateSkill` and `CreateProject` by the step that returns them:
`failed to marshal …`, `failed to save … to Redis`, and the messages of the
index steps (`failed to update category index`, `failed to update category
skills`, `failed to update project indexes`). -/
inductive CreateErr where
  | marshal
  | save (e : RedisErr)
  | index (e : RedisErr)
  deriving DecidableEq, Repr

namespace models

/-- Method `SkillsRepository.CreateSkill` with every error return of the source: the
marshal step, then `Set`, `SAdd` and `SAdd` as three round trips, each checked;
every return hands back the store as it is at that point. -/
def CreateSkillWith (f : Faults) (now : Nat) (skill : Skill) (r : Redis) :
    Option CreateErr × Redis :=
  if f.marshal then (some .marshal, r)
  else
    match Cmd.runTrip (f.trip 0) now r (.set skill.ID skill.ToJSON recordTTL) with
    | .error e => (some (.save e), r)
    | .ok r1 =>
        match Cmd.runTrip (f.trip 1) now r1 (.sadd "skills:categories" skill.Category) with
        | .error e => (some (.index e), r1)
        | .ok r2 =>
            match Cmd.runTrip (f.trip 2) now r2
                (.sadd ("skills:category:" ++ skill.Category) skill.ID) with
            | .error e => (some (.index e), r2)
            | .ok r3 => (none, r3)

/-- Method `ProjectsRepository.CreateProject` with every error return of the source: the
marshal step, then `Set` as one round trip and the pipeline of the index
commands as a second one. -/
def CreateProjectWith (f : Faults) (unixOfCreatedAt : String → Int) (now : Nat)
    (project : Project) (r : Redis) : Option CreateErr × Redis :=
  if f.marshal then (some .marshal, r)
  else
    match Cmd.runTrip (f.trip 0) now r (.set project.ID project.ToJSON recordTTL) with
    | .error e => (some (.save e), r)
    | .ok r1 =>
        match f.trip 1 with
        | some e => (some (.index e), r1)
        | none =>
            match pipelineExec now (createProjectIndexCmds unixOfCreatedAt project) r1 with
            | (some e, r2) => (some (.index e), r2)
            | (none, r2) => (none, r2)

end models

/-! ## handlers/projects.go: reading one project and counting a view -/

namespace models

/-- Method `ProjectsRepository.IncrementProjectViews`. -/
def IncrementProjectViews (now : Nat) (projectID : String) (r : Redis) : Option RepoErr × Redis :=
  match GetProjectByID r now projectID with
  | .error e => (some e, r)
  | .ok project => UpdateProject now (project.IncrementViewCount now) r

/-- Method `AnalyticsRepository.IncrementProjectViews`: one pipeline of `INCR`, `INCR`,
`EXPIRE` and `SET`; `today` is `time.Now()` in the layout `2006-01-02`.  The
result is the first error of the pipeline and the store. -/
def analyticsIncrementProjectViews (now : Nat) (today : String) (r : Redis) :
    Option RedisErr × Redis :=
  let dailyKey := "analytics:daily:" ++ today ++ ":project_views"
  let s1 : Option RedisErr × Redis :=
    match r.incr now "analytics:project_views" with
    | .ok (_, r1) => (none, r1)
    | .error e => (some e, r)
  let s2 : Option RedisErr × Redis :=
    match s1.2.incr now dailyKey with
    | .ok (_, r2) => (none, r2)
    | .error e => (some e, s1.2)
  let r3 := s2.2.expire now dailyKey (3600 * 24 * 30)
  let r4 := r3.put "analytics:last_updated" ⟨.str (.int now), Redis.setExpiry now 0⟩
  (match s1.1 with
    | some e => some e
    | none => s2.1, r4)

end models

/-- Handler `ProjectsHandler.GetProjectByID`: status and the project of the answer. -/
def handlers.GetProjectByID (r : Redis) (now : Nat) (projectID : String) :
    Nat × Option models.Project :=
  match models.GetProjectByID r now projectID with
  | .error _ => (404, none)
  | .ok project => (200, some project)

/-- Handler `ProjectsHandler.IncrementProjectViews`: status and the store afterwards; an
error of the analytics counters is only logged. -/
def handlers.IncrementProjectViews (now : Nat) (today : String) (projectID : String)
    (r : Redis) : Nat × Redis :=
  match models.IncrementProjectViews now projectID r with
  | (some _, r1) => (404, r1)
  | (none, r1) => (200, (models.analyticsIncrementProjectViews now today r1).2)

/-- Store holding `exProject` only. -/
def storeWithProject : Redis := (models.CreateProject (fun _ => 100) 100 exProject Redis.empty).2

/-! ## handlers/blog.go: Markdown import

`unicode.IsSpace` is an argument (`isSpace`), like `unicode.ToLower`.  The steps of
`parseMDContent` that go through the YAML and regexp libraries or cut a string at a
byte offset are the fields of `MDLib`; the rest of `parseMDContent` is below. -/

/-- Number of fields of `strings.Fields` from a position that is inside a word or not. -/
def countFieldsFrom (isSpace : Char → Bool) : Bool → List Char → Nat
  | _, [] => 0
  | inWord, c :: rest =>
      if isSpace c then countFieldsFrom isSpace false rest
      else (if inWord then 0 else 1) + countFieldsFrom isSpace true rest

/-- Length of `strings.Fields(s)`: the number of maximal runs of non-space characters. -/
def countFields (isSpace : Char → Bool) (s : String) : Nat :=
  countFieldsFrom isSpace false s.data

/-- Go struct `MDFrontmatter`. -/
structure MDFrontmatter where
  Title : String
  Excerpt : String
  Author : String
  PublishedAt : String
  Tags : List String
  ReadingTime : String
  ViewCount : Int
  Featured : Bool
  Slug : String
  FeaturedImage : String
  deriving DecidableEq, Repr

/-- Go struct `MDImportRequest`. -/
structure MDImportRequest where
  Content : String
  Filename : String
  deriving DecidableEq, Repr

/-- Library-bound steps of `parseMDContent`: `extractFrontmatter` followed by
`yaml.Unmarshal` (`none` when either fails), `generateExcerpt`, `processImagePaths`
and `time.Parse("2006-01-02", _)` followed by `Unix()`. -/
structure MDLib where
  frontmatter : String → Option (MDFrontmatter × String)
  generateExcerpt : String → String
  processImagePaths : String → String
  parseDate : String → Option Int

namespace handlers

/-- Helper `BlogHandler.generateSlug`. -/
def generateSlug (lower : Char → Char) (title : String) : String :=
  String.mk (trimChar '-' (collapseRuns '-'
    ((replaceAllChar ' ' '-' (stringsToLower lower title)).data.filter isSlugChar)))

/-- Helper `BlogHandler.calculateReadingTime`; `%d` prints the decimal digits. -/
def calculateReadingTime (isSpace : Char → Bool) (content : String) : String :=
  let minutes := countFields isSpace content / 200
  if minutes < 1 then "1 min read" else toString minutes ++ " min read"

/-- Helper `BlogHandler.parseMDContent`; `none` is a parse error. -/
def parseMDContent (lib : MDLib) (lower : Char → Char) (isSpace : Char → Bool) (now : Nat)
    (content : String) : Option models.BlogPost :=
  match lib.frontmatter content with
  | none => none
  | some (fm, markdownContent) =>
      if fm.Title = "" then none
      else
        let author := if fm.Author = "" then "Serkan Ursavaş" else fm.Author
        let slug := if fm.Slug = "" then generateSlug lower fm.Title else fm.Slug
        let excerpt := if fm.Excerpt = "" then lib.generateExcerpt markdownContent else fm.Excerpt
        let readingTime :=
          if fm.ReadingTime = "" then calculateReadingTime isSpace markdownContent
          else fm.ReadingTime
        let publishedAt : Int :=
          if fm.PublishedAt ≠ "" then
            (match lib.parseDate fm.PublishedAt with
              | some t => t
              | none => now)
          else now
        some
          { ID := "blog:" ++ slug, Title := fm.Title, Slug := slug,
            Content := lib.processImagePaths markdownContent, Excerpt := excerpt,
            Author := author, PublishedAt := publishedAt, UpdatedAt := now, Tags := fm.Tags,
            ReadingTime := readingTime, ViewCount := fm.ViewCount, Featured := fm.Featured,
            Published := true, FeaturedImage := fm.FeaturedImage, MetaDescription := excerpt,
            MetaKeywords := "" }

end handlers

/-- Method `BlogRepository.GetPostBySlug`. -/
def models.GetPostBySlug (r : Redis) (now : Nat) (slug : String) : Except RepoErr models.BlogPost :=
  models.GetPostByID r now ("blog:" ++ slug)

namespace handlers

/-- Handler `BlogHandler.ImportMD`: status and the store afterwards; `body` is `none` when
the request does not bind. -/
def ImportMD (lib : MDLib) (lower : Char → Char) (isSpace : Char → Bool) (now : Nat)
    (body : Option MDImportRequest) (r : Redis) : Nat × Redis :=
  match body with
  | none => (400, r)
  | some request =>
      match parseMDContent lib lower isSpace now request.Content with
      | none => (400, r)
      | some post =>
          match models.GetPostBySlug r now post.Slug with
          | .ok _ => (409, r)
          | .error _ =>
              match models.CreatePost now post r with
              | (some _, r1) => (500, r1)
              | (none, r1) => (201, r1)

/-- What `ImportBulkMD` reports for one file (Go struct `MDImportResult`, the error
text reduced to its kind). -/
inductive MDImportResult where
  | parseError (filename : String)
  | slugExists (filename slug : String)
  | creationError (filename : String)
  | imported (filename slug postID : String)
  deriving DecidableEq, Repr

/-- Field `Success` of the result. -/
def MDImportResult.Success : MDImportResult → Bool
  | .imported _ _ _ => true
  | _ => false

/-- Body of the loop of `ImportBulkMD` for one file. -/
def importBulkFile (lib : MDLib) (lower : Char → Char) (isSpace : Char → Bool) (now : Nat)
    (file : MDImportRequest) (r : Redis) : MDImportResult × Redis :=
  match parseMDContent lib lower isSpace now file.Content with
  | none => (.parseError file.Filename, r)
  | some post =>
      match models.GetPostBySlug r now post.Slug with
      | .ok _ => (.slugExists file.Filename post.Slug, r)
      | .error _ =>
          match models.CreatePost now post r with
          | (some _, r1) => (.creationError file.Filename, r1)
          | (none, r1) => (.imported file.Filename post.Slug post.ID, r1)

/-- The loop of `ImportBulkMD`: the results in the order of the files, and the store. -/
def importBulkFiles (lib : MDLib) (lower : Char → Char) (isSpace : Char → Bool) (now : Nat) :
    List MDImportRequest → Redis → List MDImportResult × Redis
  | [], r => ([], r)
  | file :: rest, r =>
      let step := importBulkFile lib lower isSpace now file r
      let tail := importBulkFiles lib lower isSpace now rest step.2
      (step.1 :: tail.1, tail.2)

/-- Handler `BlogHandler.ImportBulkMD`: status, results and the store afterwards. -/
def ImportBulkMD (lib : MDLib) (lower : Char → Char) (isSpace : Char → Bool) (now : Nat)
    (body : Option (List MDImportRequest)) (r : Redis) : Nat × List MDImportResult × Redis :=
  match body with
  | none => (400, [], r)
  | some files =>
      let out := importBulkFiles lib lower isSpace now files r
      (200, out.1, out.2)

end handlers
/-- Stand-in for the library steps of `parseMDContent`: the whole content is the title,
the body is fixed. -/
def exMDLib : MDLib :=
  { frontmatter := fun content =>
      some (⟨content, "", "", "", [], "", 0, false, "", ""⟩, "Some text of the post."),
    generateExcerpt := fun s => s,
    processImagePaths := fun s => s,
    parseDate := fun _ => none }

/-! ## models/blog.go: the slug of a title -/

/-- Function `strings.ReplaceAll(s, c, "")` for a one-character pattern. -/
def removeAllChar (c : Char) (s : String) : String :=
  String.mk (s.data.filter (fun x => x ≠ c))

/-- Function `generateSlug` of package `models`. -/
def models.generateSlug (lower : Char → Char) (title : String) : String :=
  removeAllChar ',' (removeAllChar '.' (replaceAllChar ' ' '-' (stringsToLower lower title)))

/-- String made of lowercase ASCII letters, digits and hyphens only. -/
def isSlugString (s : String) : Bool :=
  s.data.all handlers.isSlugChar

/-! ## models/blog.go: the reading time -/

/-- Conversion of a Go `int` to `rune` (`int32`): the value wrapped to 32 bits. -/
def wrapInt32 (n : Int) : Int :=
  (n + 2147483648) % 4294967296 - 2147483648

/-- Conversion `string(r)` of a rune: the one-character string of the code point, and
U+FFFD for a value that is no code point. -/
def runeToString (r : Int) : String :=
  if 0 ≤ r ∧ Nat.isValidChar r.toNat then String.singleton (Char.ofNat r.toNat)
  else String.singleton (Char.ofNat 65533)

/-- Function `calculateReadingTime` of package `models`. -/
def models.calculateReadingTime (isSpace : Char → Bool) (content : String) : String :=
  let minutes : Int := (countFields isSpace content / 200 : Nat)
  if minutes < 1 then "1 min read"
  else runeToString (wrapInt32 minutes) ++ " min read"

/-- A content of 1200 words. -/
def exContent1200 : String := String.mk (List.replicate 1200 "word ".data).flatten

/-- Handler `BlogHandler.GetPosts`: `page` and `limit` are what `strconv.Atoi` makes of the
query values (`none` when absent or no number); the status and the response.
The run-time panic of `GetBlogResponse` reaches gin's `Recovery`, which answers 500. -/
def handlers.GetPosts (r : Redis) (now : Nat) (page limit : Option Int) :
    Nat × Option models.BlogResponse :=
  let page1 : Int :=
    match page with
    | some p => if p > 0 then p else 1
    | none => 1
  let limit1 : Int :=
    match limit with
    | some l => if l > 0 then l else 10
    | none => 10
  match models.GetBlogResponse r now page1 limit1 with
  | .error _ => (500, none)
  | .ok none => (500, none)
  | .ok (some response) => (200, some response)

/-- Name made of one to sixty lowercase ASCII letters, digits and hyphens, without two
hyphens in a row and without a hyphen at either end. -/
def CleanName (l : List Char) : Prop :=
  l ≠ [] ∧ l.length ≤ 60 ∧ (∀ c ∈ l, handlers.isSlugChar c = true)
  ∧ l.Chain' (fun a b => ¬ (a = '-' ∧ b = '-'))
  ∧ l.head? ≠ some '-' ∧ l.getLast? ≠ some '-'

/-- Upload directory that holds the image of project `project:404 Squad v2` only. -/
def diskWithSquadV2 : Disk :=
  [⟨"./uploads", "project-404-squad-v2-main.png", "image of v2"⟩]

/-- Helper `BlogHandler.sanitizeBlogSlugForFile` of handlers/blog.go; after the filter the
name is ASCII, so its byte length is its length and `name[:60]` takes sixty
characters. -/
def handlers.sanitizeBlogSlugForFile (lower : Char → Char) (slug : String) : String :=
  let n1 := (stringsToLower lower slug).data.map handlers.turkishReplacement
  let n2 := n1.map (fun c => if c = ' ' then '-' else c)
  let n3 := handlers.trimChar '-' (handlers.collapseRuns '-' (n2.filter handlers.isSlugChar))
  let n4 := if n3 = [] then "unknown".data else n3
  String.mk (if n4.length > 60 then handlers.trimChar '-' (n4.take 60) else n4)

/-- Helper `BlogHandler.deleteBlogImageFile`: every file of `./blog-upload` that matches
`blog-<safeSlug>.*` is removed. -/
def handlers.deleteBlogImageFile (pathMatch : String → String → Bool) (lower : Char → Char)
    (blogSlug : String) (d : Disk) : Disk :=
  (filepathGlob pathMatch d "./blog-upload"
    ("blog-" ++ handlers.sanitizeBlogSlugForFile lower blogSlug ++ ".*")).foldl
    (fun d file => d.remove "./blog-upload" file) d

/-- Request `POST /api/upload/blog?slug=<blogSlug>` with a file part of the given bytes on
a disk; `os.Create` and `io.Copy` succeed.  The result is the status and the disk
afterwards. -/
def uploadBlogImage (pathMatch : String → String → Bool) (lower : Char → Char) (now : Nat)
    (blogSlug : String) (header : FileHeader) (contents : String) (d : Disk) : Nat × Disk :=
  let out := handlers.UploadBlogImage lower now blogSlug (some header) true true
  (out.status, runDiskActions pathMatch lower contents true out.actions d)

/-! # Theorems -/

/-! ## The store -/

theorem lookup_filter_ne (l : List (String × Entry)) (k k1 : String) :
    (l.filter (fun p => p.1 != k)).lookup k1 = if k1 = k then none else l.lookup k1 := by
  induction l with
  | nil => simp
  | cons hd tl ih =>
      obtain ⟨a, e⟩ := hd
      by_cases hak : a = k
      · subst hak
        by_cases h1 : k1 = a
        · subst h1; simp [List.filter_cons, ih]
        · have : (k1 == a) = false := by simpa using h1
          simp [List.filter_cons, ih, h1, List.lookup_cons, this]
      · have hne : (a != k) = true := by simpa using hak
        by_cases h1 : k1 = a
        · subst h1
          simp [List.filter_cons, hne, hak]
        · have : (k1 == a) = false := by simpa using h1
          simp [List.filter_cons, hne, List.lookup_cons, this, ih]

theorem Redis.lookup_put (r : Redis) (k k1 : String) (e : Entry) :
    (r.put k e).entries.lookup k1 = if k1 = k then some e else r.entries.lookup k1 := by
  unfold Redis.put
  by_cases h : k1 = k
  · subst h; simp
  · have : (k1 == k) = false := by simpa using h
    simp [List.lookup_cons, this, lookup_filter_ne, h]

theorem Redis.lookup_erase (r : Redis) (k k1 : String) :
    (r.erase k).entries.lookup k1 = if k1 = k then none else r.entries.lookup k1 := by
  unfold Redis.erase
  exact lookup_filter_ne _ _ _

/-- A string entry alive when an index command runs is still there afterwards. -/
theorem Cmd.run_index_keeps_str (now : Nat) (c : Cmd) (hc : c.isIndex = true) (r r1 : Redis)
    (id : String) (v : StrVal) (ex : Option Nat)
    (hl : r.entries.lookup id = some ⟨.str v, ex⟩) (ha : Redis.live now ⟨.str v, ex⟩ = true)
    (hrun : c.run now r = .ok r1) : r1.entries.lookup id = some ⟨.str v, ex⟩ := by
  have hfind : r.find now id = some ⟨.str v, ex⟩ := by simp [Redis.find, hl, ha]
  cases c with
  | set k v1 ttl => simp [Cmd.isIndex] at hc
  | del k => simp [Cmd.isIndex] at hc
  | sadd k m =>
      by_cases hk : id = k
      · subst hk; simp [Cmd.run, hfind] at hrun
      · simp only [Cmd.run] at hrun
        split at hrun
        · cases hrun; simp [Redis.lookup_put, hk, hl]
        · cases hrun; split <;> simp [Redis.lookup_put, hk, hl]
        · cases hrun
  | srem k m =>
      by_cases hk : id = k
      · subst hk; simp [Cmd.run, hfind] at hrun
      · simp only [Cmd.run] at hrun
        split at hrun
        · cases hrun; exact hl
        · cases hrun; split <;> simp [Redis.lookup_put, Redis.lookup_erase, hk, hl]
        · cases hrun
  | zadd k sc m =>
      by_cases hk : id = k
      · subst hk; simp [Cmd.run, hfind] at hrun
      · simp only [Cmd.run] at hrun
        split at hrun
        · cases hrun; simp [Redis.lookup_put, hk, hl]
        · cases hrun; simp [Redis.lookup_put, hk, hl]
        · cases hrun
  | zrem k m =>
      by_cases hk : id = k
      · subst hk; simp [Cmd.run, hfind] at hrun
      · simp only [Cmd.run] at hrun
        split at hrun
        · cases hrun; exact hl
        · cases hrun; split <;> simp [Redis.lookup_put, Redis.lookup_erase, hk, hl]
        · cases hrun

/-- A pipeline of index commands keeps a string entry, whether or not commands fail. -/
theorem pipelineExec_index_keeps_str (now : Nat) (cs : List Cmd)
    (hcs : ∀ c ∈ cs, c.isIndex = true) (r : Redis)
    (id : String) (v : StrVal) (ex : Option Nat)
    (hl : r.entries.lookup id = some ⟨.str v, ex⟩) (ha : Redis.live now ⟨.str v, ex⟩ = true) :
    (pipelineExec now cs r).2.entries.lookup id = some ⟨.str v, ex⟩ := by
  induction cs generalizing r with
  | nil => simpa [pipelineExec] using hl
  | cons c cs ih =>
      have hc : c.isIndex = true := hcs c (List.mem_cons_self _ _)
      have hrest : ∀ c1 ∈ cs, c1.isIndex = true := fun c1 h1 => hcs c1 (List.mem_cons_of_mem _ h1)
      simp only [pipelineExec]
      cases hrun : c.run now r with
      | ok r1 =>
          simp only
          exact ih hrest r1 (Cmd.run_index_keeps_str now c hc r r1 id v ex hl ha hrun)
      | error e =>
          simp only
          exact ih hrest r hl

/-! ## JSON round trips -/

open models in
theorem skill_fromJSON_toJSON (s : Skill) : Skill.FromJSON s.ToJSON = some s := by
  simp [Skill.FromJSON, Skill.ToJSON, Skill.setField, decStr, decTime, List.foldlM]

theorem decElems_str (l : List String) : decElems decStrElem (l.map Json.str) = some l := by
  induction l with
  | nil => rfl
  | cons a t ih => simp [decElems, decStrElem, ih]

open models in
theorem decElems_tool (l : List ProjectTool) :
    decElems decTool (l.map ProjectTool.json) = some l := by
  induction l with
  | nil => rfl
  | cons a t ih =>
      simp [decElems, decTool, ProjectTool.json, ProjectTool.setField, decStr, List.foldlM, ih]

open models in
theorem project_fromJSON_toJSON (p : Project) (h : isInt64 p.ViewCount) :
    Project.FromJSON p.ToJSON = some p := by
  obtain ⟨id, ti, de, tls, li, im, st, cr, vc, fe, up⟩ := p
  simp only [isInt64] at h
  simp only [Project.ToJSON, Project.FromJSON]
  cases fe <;> by_cases h1 : cr = "" <;> by_cases h2 : vc = 0 <;>
    simp [h1, h2, h, Project.setField, Project.zero, decStr, decTime, decInt, decBool, decTools,
      List.foldlM, decElems_tool]

open models in
theorem blogPost_fromJSON_toJSON (p : BlogPost) (h : isInt64 p.ViewCount) :
    BlogPost.FromJSON p.ToJSON = some p := by
  obtain ⟨id, ti, sl, co, exc, au, pa, ua, ta, rt, vc, fe, pu, fi, md, mk⟩ := p
  simp only [isInt64] at h
  simp only [BlogPost.ToJSON, BlogPost.FromJSON]
  by_cases h1 : md = "" <;> by_cases h2 : mk = "" <;>
    simp [h1, h2, h, BlogPost.setField, BlogPost.zero, decStr, decTime, decInt, decBool,
      decStrList, List.foldlM, decElems_str]

/-! ## Create, then read by ID -/

theorem Redis.setExpiry_recordTTL (now : Nat) :
    Redis.setExpiry now recordTTL = some (now + 31536000) := by
  simp [Redis.setExpiry, recordTTL]

theorem Redis.live_recordTTL (now t : Nat) (v : RVal) (h : t < now + 31536000) :
    Redis.live t ⟨v, Redis.setExpiry now recordTTL⟩ = true := by
  simp [Redis.live, Redis.setExpiry_recordTTL, h]

open models in
theorem getByID_of_lookup {α : Type} (dec : StrVal → Option α) (r : Redis) (t : Nat) (id : String)
    (v : StrVal) (ex : Option Nat) (a : α)
    (hl : r.entries.lookup id = some ⟨.str v, ex⟩) (ha : Redis.live t ⟨.str v, ex⟩ = true)
    (hd : dec v = some a) : getByID dec r t id = .ok a := by
  simp [getByID, Redis.get, Redis.find, hl, ha, hd]

open models in
theorem CreateSkill_stores (now : Nat) (skill : Skill) (r r1 : Redis)
    (h : CreateSkill now skill r = (none, r1)) :
    r1.entries.lookup skill.ID
      = some ⟨.str skill.ToJSON, Redis.setExpiry now recordTTL⟩ := by
  unfold CreateSkill at h
  have hset : (Cmd.set skill.ID skill.ToJSON recordTTL).run now r
      = .ok (r.put skill.ID ⟨.str skill.ToJSON, Redis.setExpiry now recordTTL⟩) := rfl
  rw [hset] at h
  simp only at h
  have hlive := Redis.live_recordTTL now now (.str skill.ToJSON) (by omega)
  split at h
  · simp at h
  · rename_i r2 h2
    split at h
    · simp at h
    · rename_i r3 h3
      simp only [Prod.mk.injEq, true_and] at h
      subst h
      have l2 := Cmd.run_index_keeps_str now (.sadd "skills:categories" skill.Category) rfl _ r2
        skill.ID skill.ToJSON _ (by simp [Redis.lookup_put]) hlive h2
      exact Cmd.run_index_keeps_str now (.sadd ("skills:category:" ++ skill.Category) skill.ID)
        rfl _ r3 skill.ID skill.ToJSON _ l2 hlive h3

open models in
theorem CreateProject_stores (unixOfCreatedAt : String → Int) (now : Nat) (project : Project)
    (r : Redis) :
    (CreateProject unixOfCreatedAt now project r).2.entries.lookup project.ID
      = some ⟨.str project.ToJSON, Redis.setExpiry now recordTTL⟩ := by
  unfold CreateProject
  have hset : (Cmd.set project.ID project.ToJSON recordTTL).run now r
      = .ok (r.put project.ID ⟨.str project.ToJSON, Redis.setExpiry now recordTTL⟩) := rfl
  rw [hset]
  simp only
  have hlive := Redis.live_recordTTL now now (.str project.ToJSON) (by omega)
  have key := pipelineExec_index_keeps_str now (createProjectIndexCmds unixOfCreatedAt project)
    (by intro c hc; simp [createProjectIndexCmds] at hc; rcases hc with h | h | h | h | h <;>
          subst h <;> rfl)
    (r.put project.ID ⟨.str project.ToJSON, Redis.setExpiry now recordTTL⟩) project.ID
    project.ToJSON _ (by simp [Redis.lookup_put]) hlive
  split <;> rename_i heq <;> rw [heq] at key <;> exact key

open models in
theorem createPostCmds_eq (post : BlogPost) :
    ∃ rest, createPostCmds post = .set post.ID post.ToJSON recordTTL :: rest
      ∧ ∀ c ∈ rest, c.isIndex = true := by
  refine ⟨[Cmd.sadd "blog:posts:all" post.ID]
    ++ (if post.Published then [Cmd.sadd "blog:posts:published" post.ID] else [])
    ++ post.Tags.flatMap
        (fun tag => [Cmd.sadd "blog:tags" tag, Cmd.sadd ("blog:tag:" ++ tag) post.ID])
    ++ (if post.Featured then [Cmd.sadd "blog:posts:featured" post.ID] else [])
    ++ [Cmd.zadd "blog:by_date" post.PublishedAt post.ID,
        Cmd.zadd "blog:by_views" post.ViewCount post.ID], by simp [createPostCmds], ?_⟩
  intro c hc
  simp only [List.mem_append, List.mem_cons, List.mem_flatMap, List.mem_singleton,
    List.not_mem_nil, or_false] at hc
  rcases hc with ((((h | h) | h) | h) | h)
  · subst h; rfl
  · split at h
    · simp at h; subst h; rfl
    · simp at h
  · obtain ⟨tag, _, h | h⟩ := h <;> subst h <;> rfl
  · split at h
    · simp at h; subst h; rfl
    · simp at h
  · rcases h with h | h <;> subst h <;> rfl

open models in
theorem CreatePost_stores (now : Nat) (post : BlogPost) (r : Redis) :
    (CreatePost now post r).2.entries.lookup post.ID
      = some ⟨.str post.ToJSON, Redis.setExpiry now recordTTL⟩ := by
  obtain ⟨rest, hcmds, hidx⟩ := createPostCmds_eq post
  unfold CreatePost
  rw [hcmds]
  have hstep : pipelineExec now (.set post.ID post.ToJSON recordTTL :: rest) r
      = pipelineExec now rest (r.put post.ID ⟨.str post.ToJSON, Redis.setExpiry now recordTTL⟩) :=
    rfl
  rw [hstep]
  have hlive := Redis.live_recordTTL now now (.str post.ToJSON) (by omega)
  have key := pipelineExec_index_keeps_str now rest hidx
    (r.put post.ID ⟨.str post.ToJSON, Redis.setExpiry now recordTTL⟩) post.ID
    post.ToJSON _ (by simp [Redis.lookup_put]) hlive
  split <;> rename_i heq <;> rw [heq] at key <;> exact key

open models in
/-- C1. After a successful `CreateSkill`, `CreateProject` or `CreatePost`, reading the
entity by its ID at any time `t` before the one-year expiry of the record (in
particular right after the create) succeeds and returns a record that agrees
with the input in every field other than the ID and the timestamps. -/
theorem create_then_getByID (now t : Nat) (r r1 : Redis) (hexp : t < now + 31536000) :
    (∀ skill : Skill, CreateSkill now skill r = (none, r1) →
      ∃ s, GetSkillByID r1 t skill.ID = .ok s ∧ s.Category = skill.Category
        ∧ s.Name = skill.Name ∧ s.Icon = skill.Icon)
    ∧ (∀ (unixOfCreatedAt : String → Int) (project : Project), isInt64 project.ViewCount →
      CreateProject unixOfCreatedAt now project r = (none, r1) →
      ∃ p, GetProjectByID r1 t project.ID = .ok p ∧ p.Title = project.Title
        ∧ p.Description = project.Description ∧ p.Tools = project.Tools
        ∧ p.Link = project.Link ∧ p.Image = project.Image ∧ p.Status = project.Status
        ∧ p.ViewCount = project.ViewCount ∧ p.Featured = project.Featured)
    ∧ (∀ post : BlogPost, isInt64 post.ViewCount → CreatePost now post r = (none, r1) →
      ∃ p, GetPostByID r1 t post.ID = .ok p ∧ p.Title = post.Title ∧ p.Slug = post.Slug
        ∧ p.Content = post.Content ∧ p.Excerpt = post.Excerpt ∧ p.Author = post.Author
        ∧ p.Tags = post.Tags ∧ p.ReadingTime = post.ReadingTime
        ∧ p.ViewCount = post.ViewCount ∧ p.Featured = post.Featured
        ∧ p.Published = post.Published ∧ p.FeaturedImage = post.FeaturedImage
        ∧ p.MetaDescription = post.MetaDescription ∧ p.MetaKeywords = post.MetaKeywords) := by
  refine ⟨?_, ?_, ?_⟩
  · intro skill h
    refine ⟨skill, ?_, rfl, rfl, rfl⟩
    exact getByID_of_lookup _ _ _ _ _ _ _ (CreateSkill_stores now skill r r1 h)
      (Redis.live_recordTTL now t _ hexp) (skill_fromJSON_toJSON skill)
  · intro u project hv h
    refine ⟨project, ?_, rfl, rfl, rfl, rfl, rfl, rfl, rfl, rfl⟩
    have hl := CreateProject_stores u now project r
    rw [h] at hl
    exact getByID_of_lookup _ _ _ _ _ _ _ hl
      (Redis.live_recordTTL now t _ hexp) (project_fromJSON_toJSON project hv)
  · intro post hv h
    refine ⟨post, ?_, rfl, rfl, rfl, rfl, rfl, rfl, rfl, rfl, rfl, rfl, rfl, rfl, rfl⟩
    have hl := CreatePost_stores now post r
    rw [h] at hl
    exact getByID_of_lookup _ _ _ _ _ _ _ hl
      (Redis.live_recordTTL now t _ hexp) (blogPost_fromJSON_toJSON post hv)
open models in
/-- Witness of C1 on the empty store: one skill, one project, one post. -/
theorem create_then_getByID_witness :
    (∃ s, GetSkillByID (CreateSkill 100 exSkill Redis.empty).2 100 exSkill.ID = .ok s
      ∧ s.Category = exSkill.Category ∧ s.Name = exSkill.Name ∧ s.Icon = exSkill.Icon)
    ∧ (∃ p, GetProjectByID (CreateProject (fun _ => 0) 100 exProject Redis.empty).2 100
          exProject.ID = .ok p ∧ p.Title = exProject.Title)
    ∧ (∃ p, GetPostByID (CreatePost 100 exPost Redis.empty).2 100 exPost.ID = .ok p
          ∧ p.Tags = exPost.Tags) :=
  ⟨(create_then_getByID 100 100 Redis.empty _ (by decide)).1 exSkill rfl,
   (fun ⟨p, h, h1, _⟩ => ⟨p, h, h1⟩)
     ((create_then_getByID 100 100 Redis.empty _ (by decide)).2.1 (fun _ => 0) exProject
       (by decide) rfl),
   (fun ⟨p, h, _, _, _, _, _, h6, _⟩ => ⟨p, h, h6⟩)
     ((create_then_getByID 100 100 Redis.empty _ (by decide)).2.2 exPost (by decide) rfl)⟩

/-! ## Updates -/

open models in
theorem runIgnore_index_keeps_str (now : Nat) (c : Cmd) (hc : c.isIndex = true) (r : Redis)
    (id : String) (v : StrVal) (ex : Option Nat)
    (hl : r.entries.lookup id = some ⟨.str v, ex⟩) (ha : Redis.live now ⟨.str v, ex⟩ = true) :
    (runIgnore now c r).entries.lookup id = some ⟨.str v, ex⟩ := by
  unfold runIgnore
  cases hrun : c.run now r with
  | ok r1 => exact Cmd.run_index_keeps_str now c hc r r1 id v ex hl ha hrun
  | error e => exact hl

open models in
theorem UpdateSkill_stores (now : Nat) (skill old : Skill) (r : Redis)
    (hget : GetSkillByID r now skill.ID = .ok old) :
    (models.UpdateSkill now skill r).1 = none
    ∧ (models.UpdateSkill now skill r).2.entries.lookup skill.ID
      = some ⟨.str ({ skill with UpdatedAt := now } : Skill).ToJSON,
          Redis.setExpiry now recordTTL⟩ := by
  unfold models.UpdateSkill
  rw [hget]
  have hset : (Cmd.set skill.ID ({ skill with UpdatedAt := now } : Skill).ToJSON recordTTL).run
      now r = .ok (r.put skill.ID ⟨.str ({ skill with UpdatedAt := now } : Skill).ToJSON,
        Redis.setExpiry now recordTTL⟩) := rfl
  simp only [hset]
  have hlive := Redis.live_recordTTL now now
    (.str ({ skill with UpdatedAt := now } : Skill).ToJSON) (by omega)
  split
  · refine ⟨rfl, ?_⟩
    refine runIgnore_index_keeps_str _ _ ?_ _ _ _ _ ?_ hlive
    · rfl
    refine runIgnore_index_keeps_str _ _ ?_ _ _ _ _ ?_ hlive
    · rfl
    refine runIgnore_index_keeps_str _ _ ?_ _ _ _ _ ?_ hlive
    · rfl
    simp [Redis.lookup_put]
  · exact ⟨rfl, by simp [Redis.lookup_put]⟩

open models in
theorem updateProjectIndexCmds_index (old p : Project) :
    ∀ c ∈ updateProjectIndexCmds old p, c.isIndex = true := by
  intro c hc
  simp only [updateProjectIndexCmds, List.mem_append] at hc
  rcases hc with h | h
  · split at h
    · simp at h; rcases h with h | h | h <;> subst h <;> rfl
    · simp at h
  · split at h
    · simp at h; subst h; rfl
    · simp at h

open models in
theorem UpdateProject_stores (now : Nat) (project old : Project) (r : Redis)
    (hget : GetProjectByID r now project.ID = .ok old) :
    (models.UpdateProject now project r).2.entries.lookup project.ID
      = some ⟨.str ({ project with UpdatedAt := now } : Project).ToJSON,
          Redis.setExpiry now recordTTL⟩ := by
  unfold models.UpdateProject
  rw [hget]
  have hset : (Cmd.set project.ID ({ project with UpdatedAt := now } : Project).ToJSON
      recordTTL).run now r = .ok (r.put project.ID
        ⟨.str ({ project with UpdatedAt := now } : Project).ToJSON,
          Redis.setExpiry now recordTTL⟩) := rfl
  simp only [hset]
  have hlive := Redis.live_recordTTL now now
    (.str ({ project with UpdatedAt := now } : Project).ToJSON) (by omega)
  have key := pipelineExec_index_keeps_str now
    (updateProjectIndexCmds old { project with UpdatedAt := now })
    (updateProjectIndexCmds_index _ _)
    (r.put project.ID ⟨.str ({ project with UpdatedAt := now } : Project).ToJSON,
      Redis.setExpiry now recordTTL⟩) project.ID _ _ (by simp [Redis.lookup_put]) hlive
  split <;> rename_i heq <;> rw [heq] at key <;> exact key

open models in
theorem updatePostIndexCmds_index (old p : BlogPost) :
    ∀ c ∈ updatePostIndexCmds old p, c.isIndex = true := by
  intro c hc
  simp only [updatePostIndexCmds, List.mem_append] at hc
  rcases hc with (h | h) | h
  · split at h
    · split at h <;> simp at h <;> subst h <;> rfl
    · simp at h
  · split at h
    · split at h <;> simp at h <;> subst h <;> rfl
    · simp at h
  · split at h
    · simp at h; subst h; rfl
    · simp at h

open models in
theorem UpdatePost_stores (now : Nat) (post old : BlogPost) (r : Redis)
    (hget : GetPostByID r now post.ID = .ok old) :
    (models.UpdatePost now post r).2.entries.lookup post.ID
      = some ⟨.str ({ post with UpdatedAt := now } : BlogPost).ToJSON,
          Redis.setExpiry now recordTTL⟩ := by
  unfold models.UpdatePost
  rw [hget]
  have hset : (Cmd.set post.ID ({ post with UpdatedAt := now } : BlogPost).ToJSON
      recordTTL).run now r = .ok (r.put post.ID
        ⟨.str ({ post with UpdatedAt := now } : BlogPost).ToJSON,
          Redis.setExpiry now recordTTL⟩) := rfl
  simp only [hset]
  have hlive := Redis.live_recordTTL now now
    (.str ({ post with UpdatedAt := now } : BlogPost).ToJSON) (by omega)
  have key := pipelineExec_index_keeps_str now
    (updatePostIndexCmds old { post with UpdatedAt := now })
    (updatePostIndexCmds_index _ _)
    (r.put post.ID ⟨.str ({ post with UpdatedAt := now } : BlogPost).ToJSON,
      Redis.setExpiry now recordTTL⟩) post.ID _ _ (by simp [Redis.lookup_put]) hlive
  split <;> rename_i heq <;> rw [heq] at key <;> exact key
theorem foldlM_option_inv {α β : Type} (f : β → α → Option β) (P : β → Prop)
    (hstep : ∀ b a b1, P b → f b a = some b1 → P b1) :
    ∀ (l : List α) (b b1 : β), P b → l.foldlM f b = some b1 → P b1 := by
  intro l
  induction l with
  | nil =>
      intro b b1 hb h
      simp [List.foldlM] at h
      subst h
      exact hb
  | cons a l ih =>
      intro b b1 hb h
      simp only [List.foldlM_cons] at h
      cases hfa : f b a with
      | none => simp [hfa] at h
      | some b2 =>
          simp [hfa] at h
          exact ih b2 b1 (hstep b a b2 hb hfa) h

theorem option_all_ite {β : Type} (P : β → Prop) (c : Prop) [Decidable c] (x y : Option β)
    (hx : ∀ b, x = some b → P b) (hy : ∀ b, y = some b → P b) :
    ∀ b, (if c then x else y) = some b → P b := by
  intro b h
  split at h
  · exact hx b h
  · exact hy b h

theorem decInt_isInt64 (cur n : Int) (j : Json) (hc : isInt64 cur) (h : decInt cur j = some n) :
    isInt64 n := by
  cases j <;> simp [decInt] at h
  · subst h; exact hc
  · obtain ⟨h1, h2⟩ := h
    subst h2
    exact h1

open models in
theorem project_fromJSON_isInt64 (v : StrVal) (p : Project) (h : Project.FromJSON v = some p) :
    isInt64 p.ViewCount := by
  have hzero : isInt64 Project.zero.ViewCount := by decide
  have hstep : ∀ (b : Project) (a : String × Json) (b1 : Project), isInt64 b.ViewCount →
      Project.setField b a = some b1 → isInt64 b1.ViewCount := by
    intro b a b1 hb
    revert b1
    unfold Project.setField
    repeat' (apply option_all_ite (fun p : Project => isInt64 p.ViewCount))
    all_goals intro b1 hf
    all_goals first
      | (cases hf; exact hb)
      | (simp only [Option.map_eq_some'] at hf
         obtain ⟨x, hx, rfl⟩ := hf
         first | exact hb | exact decInt_isInt64 _ _ _ hb hx)
  cases v with
  | text s => simp [Project.FromJSON] at h
  | int n => simp [Project.FromJSON] at h
  | doc j =>
      cases j <;> simp [Project.FromJSON] at h
      · subst h; exact hzero
      · exact foldlM_option_inv _ (fun b => isInt64 b.ViewCount) hstep _ _ _ hzero h

open models in
theorem blogPost_fromJSON_isInt64 (v : StrVal) (p : BlogPost)
    (h : BlogPost.FromJSON v = some p) : isInt64 p.ViewCount := by
  have hzero : isInt64 BlogPost.zero.ViewCount := by decide
  have hstep : ∀ (b : BlogPost) (a : String × Json) (b1 : BlogPost), isInt64 b.ViewCount →
      BlogPost.setField b a = some b1 → isInt64 b1.ViewCount := by
    intro b a b1 hb
    revert b1
    unfold BlogPost.setField
    repeat' (apply option_all_ite (fun p : BlogPost => isInt64 p.ViewCount))
    all_goals intro b1 hf
    all_goals first
      | (cases hf; exact hb)
      | (simp only [Option.map_eq_some'] at hf
         obtain ⟨x, hx, rfl⟩ := hf
         first | exact hb | exact decInt_isInt64 _ _ _ hb hx)
  cases v with
  | text s => simp [BlogPost.FromJSON] at h
  | int n => simp [BlogPost.FromJSON] at h
  | doc j =>
      cases j <;> simp [BlogPost.FromJSON] at h
      · subst h; exact hzero
      · exact foldlM_option_inv _ (fun b => isInt64 b.ViewCount) hstep _ _ _ hzero h

open models in
theorem getByID_decoded {α : Type} (dec : StrVal → Option α) (r : Redis) (now : Nat)
    (id : String) (a : α) (h : getByID dec r now id = .ok a) : ∃ v, dec v = some a := by
  unfold getByID at h
  split at h
  · cases h
  · cases h
  · rename_i v _
    split at h
    · rename_i a1 hd
      cases h
      exact ⟨v, hd⟩
    · cases h

open models in
/-- C4 (amended). For an update request on an entity stored under its own ID, the
skill, project and blog-post update handlers leave every omitted field of the
request at its pre-update value in the stored record, except the blog post's
`featured_image`: the blog post's `Featured`, `Published` and `FeaturedImage`
are overwritten with the values bound from the request (false, false and the
empty string when omitted).  The record is read at any time `t` before its
one-year expiry. -/
theorem update_keeps_omitted_fields (now t : Nat) (r : Redis) (id : String)
    (hexp : t < now + 31536000) :
    (∀ (body : handlers.UpdateSkillBody) (old : Skill),
      GetSkillByID r now id = .ok old → old.ID = id →
      (handlers.UpdateSkill now id (some body) r).1 = 200
      ∧ ∃ s, GetSkillByID (handlers.UpdateSkill now id (some body) r).2 t id = .ok s
        ∧ (body.category = none → s.Category = old.Category)
        ∧ (body.skill = none → s.Name = old.Name)
        ∧ (body.icon = none → s.Icon = old.Icon))
    ∧ (∀ (body : handlers.UpdateProjectBody) (old : Project),
      GetProjectByID r now id = .ok old → old.ID = id →
      ∃ p, GetProjectByID (handlers.UpdateProject now id (some body) r).2 t id = .ok p
        ∧ (body.title = none → p.Title = old.Title)
        ∧ (body.description = none → p.Description = old.Description)
        ∧ (body.image = none → p.Image = old.Image)
        ∧ (body.link = none → p.Link = old.Link)
        ∧ (body.tools = none → p.Tools = old.Tools)
        ∧ (body.status = none → p.Status = old.Status))
    ∧ (∀ (body : handlers.UpdatePostBody) (old : BlogPost),
      GetPostByID r now id = .ok old → old.ID = id →
      ∃ p, GetPostByID (handlers.UpdatePost now id (some body) r).store t id = .ok p
        ∧ (body.title = none → p.Title = old.Title)
        ∧ (body.content = none → p.Content = old.Content)
        ∧ (body.excerpt = none → p.Excerpt = old.Excerpt)
        ∧ (body.tags = none → p.Tags = old.Tags)
        ∧ p.Featured = body.featured.getD false
        ∧ p.Published = body.published.getD false
        ∧ p.FeaturedImage = body.featured_image.getD "") := by
  refine ⟨?_, ?_, ?_⟩
  · intro body old hget hid
    subst hid
    have hget1 : GetSkillByID r now (handlers.applySkillUpdate body old).ID = .ok old := hget
    obtain ⟨h1, h2⟩ := UpdateSkill_stores now (handlers.applySkillUpdate body old) old r hget1
    have hres : handlers.UpdateSkill now old.ID (some body) r
        = (200, (models.UpdateSkill now (handlers.applySkillUpdate body old) r).2) := by
      simp only [handlers.UpdateSkill, hget]
      cases hu : models.UpdateSkill now (handlers.applySkillUpdate body old) r with
      | mk e r1 =>
          rw [hu] at h1
          simp only at h1
          subst h1
          rfl
    rw [hres]
    refine ⟨rfl, { handlers.applySkillUpdate body old with UpdatedAt := now }, ?_, ?_, ?_, ?_⟩
    · exact getByID_of_lookup _ _ _ _ _ _ _ h2 (Redis.live_recordTTL now t _ hexp)
        (skill_fromJSON_toJSON _)
    · intro h; simp [handlers.applySkillUpdate, h]
    · intro h; simp [handlers.applySkillUpdate, h]
    · intro h; simp [handlers.applySkillUpdate, h]
  · intro body old hget hid
    subst hid
    have hget1 : GetProjectByID r now (handlers.applyProjectUpdate body old).ID = .ok old := hget
    have h2 := UpdateProject_stores now (handlers.applyProjectUpdate body old) old r hget1
    have hres : (handlers.UpdateProject now old.ID (some body) r).2
        = (models.UpdateProject now (handlers.applyProjectUpdate body old) r).2 := by
      simp only [handlers.UpdateProject, hget]
      cases hu : models.UpdateProject now (handlers.applyProjectUpdate body old) r with
      | mk e r1 => cases e <;> rfl
    rw [hres]
    obtain ⟨v, hv⟩ := getByID_decoded _ _ _ _ _ hget
    have hint : isInt64 old.ViewCount := project_fromJSON_isInt64 v old hv
    refine ⟨{ handlers.applyProjectUpdate body old with UpdatedAt := now }, ?_, ?_, ?_, ?_, ?_,
      ?_, ?_⟩
    · exact getByID_of_lookup _ _ _ _ _ _ _ h2 (Redis.live_recordTTL now t _ hexp)
        (project_fromJSON_toJSON _ hint)
    all_goals intro h; simp [handlers.applyProjectUpdate, handlers.setIfNonEmpty, h]
  · intro body old hget hid
    subst hid
    have hget1 : GetPostByID r now (handlers.applyPostUpdate body old).ID = .ok old := hget
    have h2 := UpdatePost_stores now (handlers.applyPostUpdate body old) old r hget1
    have hres : (handlers.UpdatePost now old.ID (some body) r).store
        = (models.UpdatePost now (handlers.applyPostUpdate body old) r).2 := by
      simp only [handlers.UpdatePost, hget]
      cases hu : models.UpdatePost now (handlers.applyPostUpdate body old) r with
      | mk e r1 => cases e <;> rfl
    rw [hres]
    obtain ⟨v, hv⟩ := getByID_decoded _ _ _ _ _ hget
    have hint : isInt64 old.ViewCount := blogPost_fromJSON_isInt64 v old hv
    refine ⟨{ handlers.applyPostUpdate body old with UpdatedAt := now }, ?_, ?_, ?_, ?_, ?_,
      rfl, rfl, rfl⟩
    · exact getByID_of_lookup _ _ _ _ _ _ _ h2 (Redis.live_recordTTL now t _ hexp)
        (blogPost_fromJSON_toJSON _ hint)
    all_goals intro h; simp [handlers.applyPostUpdate, h]
open models in
/-- Witness of C4 (amended): an icon-only update of `exSkill` and a title-only update
of `exPost`. -/
theorem update_keeps_omitted_fields_witness :
    (∃ s, GetSkillByID (handlers.UpdateSkill 200 exSkill.ID (some exIconOnlyBody)
          storeWithSkill).2 200 exSkill.ID = .ok s
        ∧ s.Category = "Languages" ∧ s.Name = "Rust")
    ∧ (∃ p, GetPostByID (handlers.UpdatePost 200 exPost.ID (some exTitleOnlyBody)
          storeWithPost).store 200 exPost.ID = .ok p
        ∧ p.Content = exPost.Content ∧ p.Tags = ["go"] ∧ p.Published = false) :=
  ⟨(fun ⟨_, s, h, hc, hn, _⟩ => ⟨s, h, hc rfl, hn rfl⟩)
      ((update_keeps_omitted_fields 200 200 storeWithSkill exSkill.ID (by decide)).1
        exIconOnlyBody exSkill rfl rfl),
   (fun ⟨p, h, _, hc, _, ht, _, hp, _⟩ => ⟨p, h, hc rfl, ht rfl, hp⟩)
      ((update_keeps_omitted_fields 200 200 storeWithPost exPost.ID (by decide)).2.2
        exTitleOnlyBody exPost rfl rfl)⟩

open models in
/-- C4 (counterexample). A blog-post update whose body carries only a title, on a
stored post with a featured image, answers 200 and leaves the stored
`FeaturedImage` empty: the omitted `featured_image` does not keep its value
(and `deleteBlogImageFile` is called for the post's slug). -/
theorem updatePost_clears_omitted_featured_image :
    exTitleOnlyBody.featured_image = none
    ∧ GetPostByID storeWithPost 200 "blog:modern-css" = .ok exPost
    ∧ exPost.FeaturedImage = "/blog-upload/blog-modern-css.png"
    ∧ (handlers.UpdatePost 200 "blog:modern-css" (some exTitleOnlyBody) storeWithPost).status = 200
    ∧ GetPostByID
        (handlers.UpdatePost 200 "blog:modern-css" (some exTitleOnlyBody) storeWithPost).store
        200 "blog:modern-css"
      = .ok { exPost with Title := "New title", UpdatedAt := 200, FeaturedImage := "" }
    ∧ (handlers.UpdatePost 200 "blog:modern-css" (some exTitleOnlyBody)
        storeWithPost).imageDeletedFor = some "modern-css" :=
  ⟨rfl, rfl, rfl, rfl, rfl, rfl⟩

open models in
/-- C2 (failing input). Create `exPost` with tag `go`, update it through the handler
to tag `rust`, delete it: the delete succeeds and the record is gone, but the
post's ID is still a member of the tag set `blog:tag:go` it was added to on
creation. -/
theorem deletePost_leaves_old_tag_entry :
    (CreatePost 100 exPost Redis.empty).1 = none
    ∧ storeWithPost.sismember 100 "blog:tag:go" "blog:modern-css" = true
    ∧ (handlers.UpdatePost 200 "blog:modern-css" (some exRetagBody) storeWithPost).status = 200
    ∧ (DeletePost 300 "blog:modern-css" storeRetagged).1 = none
    ∧ GetPostByID (DeletePost 300 "blog:modern-css" storeRetagged).2 300 "blog:modern-css"
      = .error .notFound
    ∧ (DeletePost 300 "blog:modern-css" storeRetagged).2.sismember 300 "blog:tag:go"
        "blog:modern-css" = true :=
  ⟨rfl, rfl, rfl, rfl, rfl, rfl⟩

open models in
/-- C3 (failing input). After `exPost` (tag `go`) is updated through the handler to tag
`rust`, the stored post has the tag list `rust`, yet `GetPostsByTag` returns
nothing for `rust` and returns that post for `go`. -/
theorem getPostsByTag_after_tag_update :
    GetPostByID storeRetagged 200 "blog:modern-css"
      = .ok { exPost with Tags := ["rust"], UpdatedAt := 200 }
    ∧ GetPostsByTag storeRetagged 200 "rust" = .ok []
    ∧ GetPostsByTag storeRetagged 200 "go"
      = .ok [{ exPost with Tags := ["rust"], UpdatedAt := 200 }] :=
  ⟨rfl, rfl, rfl⟩

/-! ## Rate limiting -/

theorem Redis.find_eq_some (r : Redis) (now : Nat) (k : String) (e : Entry)
    (h : r.find now k = some e) : r.entries.lookup k = some e ∧ Redis.live now e = true := by
  unfold Redis.find at h
  split at h
  · rename_i e1 hl
    split at h
    · rename_i hlive
      cases h
      exact ⟨hl, hlive⟩
    · cases h
  · cases h

theorem Redis.find_of_lookup (r : Redis) (now : Nat) (k : String) (e : Entry)
    (hl : r.entries.lookup k = some e) (ha : Redis.live now e = true) :
    r.find now k = some e := by
  simp [Redis.find, hl, ha]

theorem recordFailedAttempt_counter (lib : AuthLib) (cfg : AuthConfig) (C : Nat)
    (hC : lib.parseDuration cfg.LoginCooldown = some (C : Int)) (hCpos : 0 < C)
    (now : Nat) (ip : String) (r : Redis) :
    (r.find now (attemptsKey ip) = none →
      (handlers.recordFailedAttempt lib cfg now ip r).entries.lookup (attemptsKey ip)
        = some ⟨.str (.int 1), some (now + C)⟩)
    ∧ (∀ n ex, r.find now (attemptsKey ip) = some ⟨.str (.int n), ex⟩ → n ≠ Redis.maxInt64 →
      (handlers.recordFailedAttempt lib cfg now ip r).entries.lookup (attemptsKey ip)
        = some ⟨.str (.int (n + 1)), some (now + C)⟩) := by
  have hCi : ¬ ((C : Int) ≤ 0) := by omega
  constructor
  · intro hf
    have hf1 : r.find now ("login_attempts:" ++ ip) = none := hf
    simp only [handlers.recordFailedAttempt, Redis.incr, hf1, hC, Option.getD_some]
    have : (r.put ("login_attempts:" ++ ip) ⟨.str (.int 1), none⟩).find now
        ("login_attempts:" ++ ip) = some ⟨.str (.int 1), none⟩ :=
      Redis.find_of_lookup _ _ _ _ (by simp [Redis.lookup_put]) rfl
    simp [Redis.expire, this, hCi, Redis.lookup_put, attemptsKey]
  · intro n ex hf hn
    have hf1 : r.find now ("login_attempts:" ++ ip) = some ⟨.str (.int n), ex⟩ := hf
    obtain ⟨_, hlive⟩ := Redis.find_eq_some _ _ _ _ hf1
    simp only [handlers.recordFailedAttempt, Redis.incr, hf1, hC, Option.getD_some, hn,
      if_false]
    have : (r.put ("login_attempts:" ++ ip) ⟨.str (.int (n + 1)), ex⟩).find now
        ("login_attempts:" ++ ip) = some ⟨.str (.int (n + 1)), ex⟩ :=
      Redis.find_of_lookup _ _ _ _ (by simp [Redis.lookup_put]) hlive
    simp [Redis.expire, this, hCi, Redis.lookup_put, attemptsKey]

theorem Login_status_401 (lib : AuthLib) (cfg : AuthConfig) (now : Nat) (ip : String)
    (req : handlers.LoginRequest) (r : Redis)
    (h : (handlers.Login lib cfg now ip (some req) r).status = 401) :
    handlers.isRateLimited cfg r now ip = false
    ∧ (handlers.Login lib cfg now ip (some req) r).store
      = handlers.recordFailedAttempt lib cfg now ip r := by
  unfold handlers.Login at h ⊢
  simp only at h ⊢
  split_ifs at h ⊢ with h1 h2 h3
  · simp at h
  · simp at h
  · split at h <;> simp at h
  · exact ⟨by simpa using h2, rfl⟩
theorem isRateLimited_false_lt (cfg : AuthConfig) (r : Redis) (now : Nat) (ip : String) (n : Int)
    (ex : Option Nat) (hf : r.find now (attemptsKey ip) = some ⟨.str (.int n), ex⟩)
    (h : handlers.isRateLimited cfg r now ip = false) : n < cfg.MaxLoginAttempts := by
  have hf1 : r.find now ("login_attempts:" ++ ip) = some ⟨.str (.int n), ex⟩ := hf
  simp [handlers.isRateLimited, Redis.get, hf1, atoiOrZero] at h
  exact h

theorem failedLogin_step (lib : AuthLib) (cfg : AuthConfig) (C : Nat)
    (hC : lib.parseDuration cfg.LoginCooldown = some (C : Int)) (hCpos : 0 < C)
    (hM : cfg.MaxLoginAttempts ≤ Redis.maxInt64) (ip : String) (k : Nat) (last : Option Nat)
    (r : Redis) (now : Nat) (req : handlers.LoginRequest)
    (hinv : counterAtLeast ip C k last r)
    (hwin : inCooldownWindow C last now = true)
    (hst : (handlers.Login lib cfg now ip (some req) r).status = 401) :
    counterAtLeast ip C (k + 1) (some now)
      (handlers.Login lib cfg now ip (some req) r).store := by
  obtain ⟨hlim, hstore⟩ := Login_status_401 lib cfg now ip req r hst
  rw [hstore]
  obtain ⟨hnone, hsome⟩ := recordFailedAttempt_counter lib cfg C hC hCpos now ip r
  have hcases : (r.find now (attemptsKey ip) = none ∧ k = 0)
      ∨ ∃ n ex, r.find now (attemptsKey ip) = some ⟨.str (.int n), ex⟩ ∧ (k : Int) ≤ n := by
    cases last with
    | none =>
        obtain ⟨hk, hok⟩ := hinv
        unfold counterOk at hok
        split at hok
        · rename_i hl
          exact Or.inl ⟨by simp [Redis.find, hl], hk⟩
        · rename_i n ex hl
          by_cases hlive : Redis.live now ⟨.str (.int n), ex⟩ = true
          · refine Or.inr ⟨n, ex, Redis.find_of_lookup _ _ _ _ hl hlive, ?_⟩
            have : 0 ≤ n := by simpa using hok
            omega
          · exact Or.inl ⟨by simp [Redis.find, hl, hlive], hk⟩
        · cases hok
    | some t =>
        obtain ⟨n, hl, hn⟩ := hinv
        have hw : t ≤ now ∧ now < t + C := by simpa [inCooldownWindow] using hwin
        exact Or.inr ⟨n, some (t + C),
          Redis.find_of_lookup _ _ _ _ hl (by simp [Redis.live, hw.2]), hn⟩
  rcases hcases with ⟨hf, hk⟩ | ⟨n, ex, hf, hn⟩
  · exact ⟨1, hnone hf, by omega⟩
  · have hlt := isRateLimited_false_lt cfg r now ip n ex hf hlim
    have hne : n ≠ Redis.maxInt64 := by omega
    exact ⟨n + 1, hsome n ex hf hne, by push_cast; omega⟩

theorem failedLogins_counter (lib : AuthLib) (cfg : AuthConfig) (C : Nat)
    (hC : lib.parseDuration cfg.LoginCooldown = some (C : Int)) (hCpos : 0 < C)
    (hM : cfg.MaxLoginAttempts ≤ Redis.maxInt64) (ip : String) :
    ∀ (attempts : List (Nat × handlers.LoginRequest)) (k : Nat) (last last1 : Option Nat)
      (r r1 : Redis), counterAtLeast ip C k last r →
      failedLogins lib cfg ip C last r attempts = some (r1, last1) →
      counterAtLeast ip C (k + attempts.length) last1 r1 := by
  intro attempts
  induction attempts with
  | nil =>
      intro k last last1 r r1 hinv hrun
      simp only [failedLogins, Option.some.injEq, Prod.mk.injEq] at hrun
      obtain ⟨h1, h2⟩ := hrun
      subst h1 h2
      simpa using hinv
  | cons a rest ih =>
      intro k last last1 r r1 hinv hrun
      obtain ⟨now, req⟩ := a
      simp only [failedLogins] at hrun
      split at hrun
      · rename_i hcond
        have hstep := failedLogin_step lib cfg C hC hCpos hM ip k last r now req hinv
          hcond.1 hcond.2
        have := ih (k + 1) (some now) last1 _ r1 hstep hrun
        simpa [Nat.add_assoc, Nat.add_comm 1] using this
      · cases hrun
/-- C5. Let the cooldown parse to `C > 0` seconds and let the counter key of the
client be unused or a non-negative integer.  After `MaxLoginAttempts` login
attempts of that client that were each answered 401, each before the counter
written by the one before it expired, every login attempt (a request with a
username and a password, right or wrong) made before the counter expires is
answered 429, issues no token and leaves the store as it is. -/
theorem rate_limited_after_max_failures (lib : AuthLib) (cfg : AuthConfig) (C : Nat)
    (ip : String) (r0 r : Redis) (attempts : List (Nat × handlers.LoginRequest)) (tlast : Nat)
    (hC : lib.parseDuration cfg.LoginCooldown = some (C : Int)) (hCpos : 0 < C)
    (hM : cfg.MaxLoginAttempts ≤ Redis.maxInt64)
    (hr0 : counterOk r0 ip = true)
    (hlen : (attempts.length : Int) = cfg.MaxLoginAttempts)
    (hrun : failedLogins lib cfg ip C none r0 attempts = some (r, some tlast))
    (now : Nat) (_h1 : tlast ≤ now) (h2 : now < tlast + C)
    (req : handlers.LoginRequest) (hu : req.Username ≠ "") (hp : req.Password ≠ "") :
    handlers.Login lib cfg now ip (some req) r = ⟨429, none, r⟩ := by
  have hinv := failedLogins_counter lib cfg C hC hCpos hM ip attempts 0 none (some tlast) r0 r
    ⟨rfl, hr0⟩ hrun
  obtain ⟨n, hl, hn⟩ := hinv
  have hfind : r.find now ("login_attempts:" ++ ip)
      = some ⟨.str (.int n), some (tlast + C)⟩ :=
    Redis.find_of_lookup _ _ _ _ hl (by simp [Redis.live, h2])
  have hlim : handlers.isRateLimited cfg r now ip = true := by
    simp only [handlers.isRateLimited, Redis.get, hfind, atoiOrZero, decide_eq_true_eq]
    simp only [Nat.zero_add] at hn
    omega
  simp [handlers.Login, hu, hp, hlim]

/-- Witness of C5: three failed logins of `10.0.0.1` at times 1000, 1010, 1020 under
a limit of three and a cooldown of 900 seconds; a login with the right
password at time 1030 is answered 429. -/
theorem rate_limited_after_max_failures_witness :
    handlers.validateCredentials exAuthLib exAuthConfig "admin" "hunter2" = true
    ∧ handlers.Login exAuthLib exAuthConfig 1030 "10.0.0.1" (some exGoodLogin) exLockedStore
      = ⟨429, none, exLockedStore⟩ :=
  ⟨by decide,
   rate_limited_after_max_failures exAuthLib exAuthConfig 900 "10.0.0.1" Redis.empty
    exLockedStore [(1000, exBadLogin), (1010, exBadLogin), (1020, exBadLogin)] 1020
    rfl (by decide) (by decide) rfl rfl rfl 1030 (by decide) (by decide) exGoodLogin
    (by decide) (by decide)⟩

/-! ## Successful login -/

theorem attemptsKey_injective (a b : String) (h : attemptsKey a = attemptsKey b) : a = b := by
  unfold attemptsKey at h
  have hd := congrArg String.data h
  simp only [String.data_append, List.append_cancel_left_eq] at hd
  exact String.ext hd

/-- C6. A login request with a username and a password that pass
`validateCredentials`, from a client that `isRateLimited` does not block, for
which signing succeeds, is answered 200 with the token; afterwards the
client's own counter key is gone, and the counter key of every other client
reads as before at every time. -/
theorem login_success_clears_own_counter (lib : AuthLib) (cfg : AuthConfig) (now : Nat)
    (ip : String) (req : handlers.LoginRequest) (r : Redis) (tok : String × Int)
    (hu : req.Username ≠ "") (hp : req.Password ≠ "")
    (hlim : handlers.isRateLimited cfg r now ip = false)
    (hcred : handlers.validateCredentials lib cfg req.Username req.Password = true)
    (hsign : handlers.generateJWT lib cfg now req.Username = some tok) :
    (handlers.Login lib cfg now ip (some req) r).status = 200
    ∧ (handlers.Login lib cfg now ip (some req) r).token = some tok
    ∧ (∀ t, (handlers.Login lib cfg now ip (some req) r).store.find t (attemptsKey ip) = none)
    ∧ (∀ ip1 t, ip1 ≠ ip →
        (handlers.Login lib cfg now ip (some req) r).store.find t (attemptsKey ip1)
          = r.find t (attemptsKey ip1)) := by
  have hres : handlers.Login lib cfg now ip (some req) r
      = ⟨200, some tok, r.erase (attemptsKey ip)⟩ := by
    simp [handlers.Login, hu, hp, hlim, hcred, hsign, handlers.clearFailedAttempts,
      models.runIgnore, Cmd.run, attemptsKey]
  rw [hres]
  refine ⟨rfl, rfl, ?_, ?_⟩
  · intro t
    simp [Redis.find, Redis.lookup_erase]
  · intro ip1 t hne
    have hk : attemptsKey ip1 ≠ attemptsKey ip := fun h => hne (attemptsKey_injective _ _ h)
    simp [Redis.find, Redis.lookup_erase, hk]

/-- Witness of C6: after one failed login of `10.0.0.1` and one of `10.0.0.2`, a login
of `10.0.0.1` with the right password succeeds. -/
theorem login_success_clears_own_counter_witness :
    (handlers.Login exAuthLib exAuthConfig 1030 "10.0.0.1" (some exGoodLogin)
        exTwoClientsStore).token = some ("jwt.other", 2830)
    ∧ (handlers.Login exAuthLib exAuthConfig 1030 "10.0.0.1" (some exGoodLogin)
        exTwoClientsStore).store.find 1030 (attemptsKey "10.0.0.1") = none :=
  (fun ⟨_, h2, h3, _⟩ => ⟨h2, h3 1030⟩)
    (login_success_clears_own_counter exAuthLib exAuthConfig 1030 "10.0.0.1" exGoodLogin
      exTwoClientsStore ("jwt.other", 2830) (by decide) (by decide) rfl rfl rfl)

/-! ## Logout and the revocation list -/

/-- C8 (failing input). Under a token lifetime of `30m`, the token issued at time 0
expires at 1800; a logout with it at time 600 stores the revocation entry with
expiry 600 + 1800 = 2400, a time-to-live of the full 1800 seconds and not of
the remaining 1200: the entry is still there at time 2399. -/
theorem logout_ttl_is_configured_lifetime :
    handlers.generateJWT exAuthLib exAuthConfig 0 "admin" = some ("jwt.admin.1800", 1800)
    ∧ (exLoggedOutStore "jwt.admin.1800").entries.lookup "blacklist:jwt.admin.1800"
      = some ⟨.str (.int 1), some (600 + 1800)⟩
    ∧ handlers.isTokenBlacklisted (exLoggedOutStore "jwt.admin.1800") 2399 "jwt.admin.1800"
      = true :=
  ⟨rfl, rfl, rfl⟩

/-- C7 (failing input). A token signed with the configured secret whose expiry (86400)
lies more than the configured lifetime (`30m`) after the logout: it was issued
at time 0 while the lifetime was `24h`.  After the logout at time 600 it is
rejected at time 700, but at time 3000, long before its expiry, `validateJWT`
of the handler and of the middleware accept it again, as does `Verify`. -/
theorem logged_out_token_accepted_again :
    handlers.generateJWT exAuthLib { exAuthConfig with JWTExpiration := "24h" } 0 "admin"
      = some ("jwt.admin.86400", 86400)
    ∧ handlers.validateJWT exAuthLib exAuthConfig (exLoggedOutStore "jwt.admin.86400") 700
        "jwt.admin.86400" = none
    ∧ handlers.validateJWT exAuthLib exAuthConfig (exLoggedOutStore "jwt.admin.86400") 3000
        "jwt.admin.86400" = some (exClaims 86400)
    ∧ middleware.validateJWT exAuthLib exAuthConfig (exLoggedOutStore "jwt.admin.86400") 3000
        "jwt.admin.86400" = some (exClaims 86400)
    ∧ handlers.Verify exAuthLib exAuthConfig 3000 ⟨"Bearer jwt.admin.86400", none⟩
        (exLoggedOutStore "jwt.admin.86400") = (200, some (exClaims 86400)) :=
  ⟨rfl, rfl, rfl, rfl, rfl⟩
/-- The revocation entry written by `blacklistToken` expires the configured lifetime
after the call, whatever the token is. -/
theorem blacklistToken_expiry (lib : AuthLib) (cfg : AuthConfig) (now : Nat) (token : String)
    (r : Redis) (d : Int) (hd : lib.parseDuration cfg.JWTExpiration = some d) (hpos : 0 < d) :
    (handlers.blacklistToken lib cfg now token r).entries.lookup ("blacklist:" ++ token)
      = some ⟨.str (.int 1), some (now + d.toNat)⟩ := by
  simp [handlers.blacklistToken, models.runIgnore, Cmd.run, hd, Redis.lookup_put,
    Redis.setExpiry, hpos]

/-- While the revocation entry is alive (for the configured lifetime after the logout,
or for ever when the lifetime does not parse or is not positive), both copies
of `validateJWT` reject the logged-out token. -/
theorem logged_out_token_rejected_while_listed (lib : AuthLib) (cfg : AuthConfig)
    (t1 now : Nat) (req : AuthRequest) (r : Redis) (htok : extractToken req ≠ "")
    (hnow : ∀ d, lib.parseDuration cfg.JWTExpiration = some d → 0 < d → now < t1 + d.toNat) :
    handlers.validateJWT lib cfg (handlers.Logout lib cfg t1 req r).2 now (extractToken req)
      = none
    ∧ middleware.validateJWT lib cfg (handlers.Logout lib cfg t1 req r).2 now (extractToken req)
      = none := by
  have hstore : (handlers.Logout lib cfg t1 req r).2
      = handlers.blacklistToken lib cfg t1 (extractToken req) r := by
    simp [handlers.Logout, htok]
  have hfind : ∃ ex, (handlers.blacklistToken lib cfg t1 (extractToken req) r).find now
      ("blacklist:" ++ extractToken req) = some ⟨.str (.int 1), ex⟩ := by
    cases hd : lib.parseDuration cfg.JWTExpiration with
    | none =>
        exact ⟨none, by simp [handlers.blacklistToken, models.runIgnore, Cmd.run, hd,
          Redis.find, Redis.lookup_put, Redis.setExpiry, Redis.live]⟩
    | some d =>
        by_cases hpos : 0 < d
        · exact ⟨some (t1 + d.toNat), by
            simp [handlers.blacklistToken, models.runIgnore, Cmd.run, hd,
              Redis.find, Redis.lookup_put, Redis.setExpiry, Redis.live, hpos, hnow d hd hpos]⟩
        · exact ⟨none, by simp [handlers.blacklistToken, models.runIgnore, Cmd.run, hd,
            Redis.find, Redis.lookup_put, Redis.setExpiry, Redis.live, hpos]⟩
  obtain ⟨ex, hf⟩ := hfind
  rw [hstore]
  constructor
  · simp [handlers.validateJWT, handlers.isTokenBlacklisted, Redis.get, hf]
  · simp [middleware.validateJWT, middleware.isTokenBlacklisted, Redis.get, hf]

/-! ## The authentication middleware -/

theorem utf8ByteSize_eq (s : String) : s.utf8ByteSize = String.utf8Len s.data := by
  cases s
  rfl

theorem extractToken_bearer (tok : String) (cookie : Option String) (htok : tok ≠ "") :
    extractToken ⟨"Bearer " ++ tok, cookie⟩ = tok := by
  have hdata : tok.data ≠ [] := fun h => htok (String.ext h)
  have hlen : 0 < String.utf8Len tok.data := by
    rcases Nat.eq_zero_or_pos (String.utf8Len tok.data) with h | h
    · exact absurd (String.utf8Len_eq_zero.mp h) hdata
    · exact h
  have hne : "Bearer " ++ tok ≠ "" := by
    intro h
    have := congrArg String.data h
    simp [String.data_append] at this
  have hsize : ("Bearer " ++ tok).utf8ByteSize > 7 := by
    rw [utf8ByteSize_eq, String.data_append, String.utf8Len_append]
    have : String.utf8Len "Bearer ".data = 7 := by decide
    omega
  have htake : ("Bearer " ++ tok).data.take 7 = "Bearer ".data := by
    rw [String.data_append]
    exact List.take_left' (by decide)
  have hdrop : ("Bearer " ++ tok).data.drop 7 = tok.data := by
    rw [String.data_append]
    exact List.drop_left' (by decide)
  simp only [extractToken, hne, hsize, htake, hdrop, ne_eq, not_false_eq_true, and_self,
    if_true]

theorem extractToken_empty (req : AuthRequest)
    (hhdr : ¬ ∃ tok : String, tok ≠ "" ∧ req.authorization = "Bearer " ++ tok)
    (hcookie : req.adminToken = none) : extractToken req = "" := by
  unfold extractToken
  split
  · rename_i hcond
    obtain ⟨_, hsize, htake⟩ := hcond
    exfalso
    apply hhdr
    have hsplit : req.authorization.data = "Bearer ".data ++ req.authorization.data.drop 7 := by
      conv_lhs => rw [← List.take_append_drop 7 req.authorization.data]
      rw [htake]
    refine ⟨String.mk (req.authorization.data.drop 7), ?_, ?_⟩
    · intro h
      have hnil : req.authorization.data.drop 7 = [] := congrArg String.data h
      have h7 : String.utf8Len "Bearer ".data = 7 := by decide
      rw [utf8ByteSize_eq, hsplit, String.utf8Len_append, hnil, h7] at hsize
      simp at hsize
    · apply String.ext
      rw [String.data_append]
      exact hsplit
  · simp [hcookie]

/-- C9. `RequireAuth` answers 401 and aborts, so that the handler of a protected route
does not run, (1) for every request without an `Authorization` header of the
form `Bearer ` followed by a non-empty token and without an `admin_token`
cookie, and (2) for every request whose extracted token fails `validateJWT`;
(3) a non-empty bearer token in the header is the extracted token whatever the
cookie holds. -/
theorem requireAuth_rejects_unauthenticated (lib : AuthLib) (cfg : AuthConfig) (r : Redis)
    (now : Nat) (req : AuthRequest) (handler : String → Nat) :
    ((¬ ∃ tok : String, tok ≠ "" ∧ req.authorization = "Bearer " ++ tok) →
      req.adminToken = none →
      middleware.RequireAuth lib cfg r now req = .abort 401
      ∧ middleware.protectedRoute lib cfg r now req handler = (401, false))
    ∧ (middleware.validateJWT lib cfg r now (extractToken req) = none →
      middleware.RequireAuth lib cfg r now req = .abort 401
      ∧ middleware.protectedRoute lib cfg r now req handler = (401, false))
    ∧ (∀ (tok : String) (cookie : Option String), tok ≠ "" →
      extractToken ⟨"Bearer " ++ tok, cookie⟩ = tok) := by
  refine ⟨?_, ?_, ?_⟩
  · intro hhdr hcookie
    have h := extractToken_empty req hhdr hcookie
    simp [middleware.protectedRoute, middleware.RequireAuth, h]
  · intro hval
    by_cases h : extractToken req = ""
    · simp [middleware.protectedRoute, middleware.RequireAuth, h]
    · simp [middleware.protectedRoute, middleware.RequireAuth, h, hval]
  · intro tok cookie htok
    exact extractToken_bearer tok cookie htok

/-- Witness of C9: a request with only a malformed header, a request with a
revoked token, and a header token next to a cookie. -/
theorem requireAuth_rejects_unauthenticated_witness :
    middleware.protectedRoute exAuthLib exAuthConfig Redis.empty 700 ⟨"Token abc", none⟩
        (fun _ => 200) = (401, false)
    ∧ middleware.protectedRoute exAuthLib exAuthConfig (exLoggedOutStore "jwt.admin.1800") 700
        ⟨"", some "jwt.admin.1800"⟩ (fun _ => 200) = (401, false)
    ∧ extractToken ⟨"Bearer " ++ "jwt.admin.1800", some "cookie-token"⟩ = "jwt.admin.1800" :=
  ⟨((requireAuth_rejects_unauthenticated exAuthLib exAuthConfig Redis.empty 700
        ⟨"Token abc", none⟩ (fun _ => 200)).1
      (by
        rintro ⟨tok, _, h⟩
        have hd := congrArg String.data h
        have e1 : "Bearer ".data = ['B', 'e', 'a', 'r', 'e', 'r', ' '] := rfl
        have e2 : ("Token abc" : String).data
            = ['T', 'o', 'k', 'e', 'n', ' ', 'a', 'b', 'c'] := rfl
        rw [String.data_append, e1] at hd
        simp only [e2] at hd
        simp at hd)
      rfl).2,
   ((requireAuth_rejects_unauthenticated exAuthLib exAuthConfig
        (exLoggedOutStore "jwt.admin.1800") 700 ⟨"", some "jwt.admin.1800"⟩ (fun _ => 200)).2.1
      rfl).2,
   (requireAuth_rejects_unauthenticated exAuthLib exAuthConfig Redis.empty 700
      ⟨"", none⟩ (fun _ => 200)).2.2 "jwt.admin.1800" (some "cookie-token") (by decide)⟩

/-! ## Upload validation -/

theorem saveUpload_status (dir filename : String) (before : List DiskAction)
    (createOk copyOk : Bool) :
    (handlers.saveUpload dir filename before createOk copyOk).status ≠ 400
    ∧ DiskAction.create dir filename
      ∈ (handlers.saveUpload dir filename before createOk copyOk).actions := by
  unfold handlers.saveUpload
  split_ifs <;> simp

/-- C10 (amended). With a file in the request (and a non-empty route parameter), each
single-file upload handler goes on to create the file, answering 200 or 500,
exactly when the size is at most the ceiling of its category and the
lower-cased extension is in the allow-list of its category: 10 MiB and
`.jpg .jpeg .png .gif .svg .webp` for `UploadFile` and `UploadProjectImage`,
5 MiB and `.svg .png .jpg .jpeg .webp` for `UploadSkillIcon`, 5 MiB and
`.jpg .jpeg .png .gif .webp` for `UploadBlogImage`; every other file is
answered 400 with no disk operation performed (and, for a project image, the
store untouched).  The multi-file handler `UploadMultiple` applies the 10 MiB
ceiling and the general allow-list to each file: a file that fails them is
reported as an error with no disk operation for it, any other file is opened
and stored, and the answer is 200 whenever the request has a file. -/
theorem upload_validation (lower : Char → Char) (now : Nat)
    (header : FileHeader) (createOk copyOk : Bool) (projectID skillName blogSlug : String)
    (r : Redis) (hpid : projectID ≠ "") (hskill : skillName ≠ "") :
    (if header.Size ≤ 10485760 ∧ stringsToLower lower (filepathExt header.Filename)
          ∈ [".jpg", ".jpeg", ".png", ".gif", ".svg", ".webp"] then
        (handlers.UploadFile lower now (some header) createOk copyOk).status ≠ 400
        ∧ (∃ name, DiskAction.create "./uploads" name
            ∈ (handlers.UploadFile lower now (some header) createOk copyOk).actions)
        ∧ (handlers.UploadProjectImage lower now projectID (some header) createOk copyOk r).1.status
            ≠ 400
        ∧ (∃ name, DiskAction.create "./uploads" name
            ∈ (handlers.UploadProjectImage lower now projectID (some header) createOk copyOk
                r).1.actions)
      else
        handlers.UploadFile lower now (some header) createOk copyOk = ⟨400, []⟩
        ∧ handlers.UploadProjectImage lower now projectID (some header) createOk copyOk r
            = (⟨400, []⟩, r))
    ∧ (if header.Size ≤ 5242880 ∧ stringsToLower lower (filepathExt header.Filename)
          ∈ [".svg", ".png", ".jpg", ".jpeg", ".webp"] then
        (handlers.UploadSkillIcon lower skillName (some header) createOk copyOk).status ≠ 400
        ∧ (∃ name, DiskAction.create "./skills-upload" name
            ∈ (handlers.UploadSkillIcon lower skillName (some header) createOk copyOk).actions)
      else handlers.UploadSkillIcon lower skillName (some header) createOk copyOk = ⟨400, []⟩)
    ∧ (if header.Size ≤ 5242880 ∧ stringsToLower lower (filepathExt header.Filename)
          ∈ [".jpg", ".jpeg", ".png", ".gif", ".webp"] then
        (handlers.UploadBlogImage lower now blogSlug (some header) createOk copyOk).status ≠ 400
        ∧ (∃ name, DiskAction.create "./blog-upload" name
            ∈ (handlers.UploadBlogImage lower now blogSlug (some header) createOk copyOk).actions)
      else
        handlers.UploadBlogImage lower now blogSlug (some header) createOk copyOk = ⟨400, []⟩)
    ∧ (∀ (f : handlers.MultiFile) (fs : List handlers.MultiFile),
        (handlers.UploadMultiple lower (some (f :: fs))).1 = 200
        ∧ (handlers.UploadMultiple lower (some (f :: fs))).2.1
          = (f :: fs).map (fun g => (handlers.uploadMultipleFile lower g).1)
        ∧ (if f.header.Size ≤ 10485760 ∧ stringsToLower lower (filepathExt f.header.Filename)
              ∈ [".jpg", ".jpeg", ".png", ".gif", ".svg", ".webp"] then
            (handlers.uploadMultipleFile lower f).1 ≠ .tooLarge
            ∧ (handlers.uploadMultipleFile lower f).1 ≠ .invalidType
            ∧ (f.openOk = true → ∃ name, DiskAction.create "./uploads" name
                ∈ (handlers.uploadMultipleFile lower f).2)
          else
            ((handlers.uploadMultipleFile lower f).1 = .tooLarge
              ∨ (handlers.uploadMultipleFile lower f).1 = .invalidType)
            ∧ (handlers.uploadMultipleFile lower f).2 = [])) := by
  refine ⟨?_, ?_, ?_, ?_⟩
  · split
    · rename_i h
      obtain ⟨hs, he⟩ := h
      have hs1 : ¬ header.Size > 10 * 1024 * 1024 := by omega
      have he1 : handlers.generalAllowedExts.contains
          (stringsToLower lower (filepathExt header.Filename)) = true := by
        simpa [handlers.generalAllowedExts] using he
      refine ⟨?_, ?_, ?_, ?_⟩
      · simp only [handlers.UploadFile, if_neg hs1, if_neg (not_not.mpr he1)]
        exact (saveUpload_status _ _ _ _ _).1
      · simp only [handlers.UploadFile, if_neg hs1, if_neg (not_not.mpr he1)]
        exact ⟨_, (saveUpload_status _ _ _ _ _).2⟩
      · simp only [handlers.UploadProjectImage, if_neg hpid, if_neg hs1,
          if_neg (not_not.mpr he1)]
        split <;> exact (saveUpload_status _ _ _ _ _).1
      · simp only [handlers.UploadProjectImage, if_neg hpid, if_neg hs1,
          if_neg (not_not.mpr he1)]
        split <;> exact ⟨_, (saveUpload_status _ _ _ _ _).2⟩
    · rename_i h
      by_cases hs : header.Size ≤ 10485760
      · have he : ¬ handlers.generalAllowedExts.contains
            (stringsToLower lower (filepathExt header.Filename)) = true := by
          intro hc
          exact h ⟨hs, by simpa [handlers.generalAllowedExts] using hc⟩
        have hs1 : ¬ header.Size > 10 * 1024 * 1024 := by omega
        simp only [handlers.UploadFile, handlers.UploadProjectImage, if_neg hpid, if_neg hs1,
          if_pos he, and_self]
      · have hs1 : header.Size > 10 * 1024 * 1024 := by omega
        simp only [handlers.UploadFile, handlers.UploadProjectImage, if_neg hpid, if_pos hs1,
          and_self]
  · split
    · rename_i h
      obtain ⟨hs, he⟩ := h
      have hs1 : ¬ header.Size > 5 * 1024 * 1024 := by omega
      have he1 : handlers.skillAllowedExts.contains
          (stringsToLower lower (filepathExt header.Filename)) = true := by
        simpa [handlers.skillAllowedExts] using he
      refine ⟨?_, ?_⟩
      · simp only [handlers.UploadSkillIcon, if_neg hskill, if_neg hs1,
          if_neg (not_not.mpr he1)]
        exact (saveUpload_status _ _ _ _ _).1
      · simp only [handlers.UploadSkillIcon, if_neg hskill, if_neg hs1,
          if_neg (not_not.mpr he1)]
        exact ⟨_, (saveUpload_status _ _ _ _ _).2⟩
    · rename_i h
      by_cases hs : header.Size ≤ 5242880
      · have he : ¬ handlers.skillAllowedExts.contains
            (stringsToLower lower (filepathExt header.Filename)) = true := by
          intro hc
          exact h ⟨hs, by simpa [handlers.skillAllowedExts] using hc⟩
        have hs1 : ¬ header.Size > 5 * 1024 * 1024 := by omega
        simp only [handlers.UploadSkillIcon, if_neg hskill, if_neg hs1, if_pos he]
      · have hs1 : header.Size > 5 * 1024 * 1024 := by omega
        simp only [handlers.UploadSkillIcon, if_neg hskill, if_pos hs1]
  · split
    · rename_i h
      obtain ⟨hs, he⟩ := h
      have hs1 : ¬ header.Size > 5 * 1024 * 1024 := by omega
      have he1 : handlers.blogAllowedExts.contains
          (stringsToLower lower (filepathExt header.Filename)) = true := by
        simpa [handlers.blogAllowedExts] using he
      refine ⟨?_, ?_⟩
      · simp only [handlers.UploadBlogImage, if_neg hs1, if_neg (not_not.mpr he1)]
        exact (saveUpload_status _ _ _ _ _).1
      · simp only [handlers.UploadBlogImage, if_neg hs1, if_neg (not_not.mpr he1)]
        exact ⟨_, (saveUpload_status _ _ _ _ _).2⟩
    · rename_i h
      by_cases hs : header.Size ≤ 5242880
      · have he : ¬ handlers.blogAllowedExts.contains
            (stringsToLower lower (filepathExt header.Filename)) = true := by
          intro hc
          exact h ⟨hs, by simpa [handlers.blogAllowedExts] using hc⟩
        have hs1 : ¬ header.Size > 5 * 1024 * 1024 := by omega
        simp only [handlers.UploadBlogImage, if_neg hs1, if_pos he]
      · have hs1 : header.Size > 5 * 1024 * 1024 := by omega
        simp only [handlers.UploadBlogImage, if_pos hs1]
  · intro f fs
    refine ⟨by simp [handlers.UploadMultiple], by simp [handlers.UploadMultiple], ?_⟩
    split
    · rename_i h
      obtain ⟨hs, he⟩ := h
      have hs1 : ¬ f.header.Size > 10 * 1024 * 1024 := by omega
      have he1 : handlers.generalAllowedExts.contains
          (stringsToLower lower (filepathExt f.header.Filename)) = true := by
        simpa [handlers.generalAllowedExts] using he
      simp only [handlers.uploadMultipleFile, if_neg hs1, if_neg (not_not.mpr he1)]
      refine ⟨?_, ?_, ?_⟩
      · split_ifs <;> simp
      · split_ifs <;> simp
      · intro ho
        simp only [ho, not_true_eq_false, if_false]
        split_ifs <;> exact ⟨_, List.mem_cons_self _ _⟩
    · rename_i h
      by_cases hs : f.header.Size ≤ 10485760
      · have he : ¬ handlers.generalAllowedExts.contains
            (stringsToLower lower (filepathExt f.header.Filename)) = true := by
          intro hc
          exact h ⟨hs, by simpa [handlers.generalAllowedExts] using hc⟩
        have hs1 : ¬ f.header.Size > 10 * 1024 * 1024 := by omega
        simp only [handlers.uploadMultipleFile, if_neg hs1, if_pos he, or_true, and_self]
      · have hs1 : f.header.Size > 10 * 1024 * 1024 := by omega
        simp only [handlers.uploadMultipleFile, if_pos hs1, true_or, and_self]
/-- Witness of C10 (amended) with ASCII lower-casing: `Photo.PNG` of 2048 bytes is taken as a blog
image and as a project image; `anim.gif` is refused as a skill icon and a
6 MiB `big.png` is refused as a blog image. -/
theorem upload_validation_witness :
    (handlers.UploadBlogImage Char.toLower 100 "my-post" (some ⟨"Photo.PNG", 2048⟩) true
        true).status ≠ 400
    ∧ (handlers.UploadProjectImage Char.toLower 100 "abc123" (some ⟨"Photo.PNG", 2048⟩) true
        true Redis.empty).1.status ≠ 400
    ∧ handlers.UploadSkillIcon Char.toLower "Rust" (some ⟨"anim.gif", 2048⟩) true true
        = ⟨400, []⟩
    ∧ handlers.UploadBlogImage Char.toLower 100 "my-post" (some ⟨"big.png", 6291456⟩) true true
        = ⟨400, []⟩ := by
  have h1 := upload_validation Char.toLower 100 ⟨"Photo.PNG", 2048⟩ true true
    "abc123" "Rust" "my-post" Redis.empty (by decide) (by decide)
  have h2 := upload_validation Char.toLower 100 ⟨"anim.gif", 2048⟩ true true
    "abc123" "Rust" "my-post" Redis.empty (by decide) (by decide)
  have h3 := upload_validation Char.toLower 100 ⟨"big.png", 6291456⟩ true
    true "abc123" "Rust" "my-post" Redis.empty (by decide) (by decide)
  obtain ⟨h1a, _, h1c, _⟩ := h1
  obtain ⟨_, h2b, _, _⟩ := h2
  obtain ⟨_, _, h3c, _⟩ := h3
  rw [if_pos (by decide)] at h1a h1c
  rw [if_neg (by decide)] at h2b h3c
  exact ⟨h1c.1, h1a.2.2.1, h2b, h3c⟩

/-- C10 (counterexample). `UploadMultiple` with a valid image followed by a text file:
the text file is refused, but the answer is 200, not 400, and the first file
has been written to disk. -/
theorem uploadMultiple_rejects_without_400 :
    handlers.UploadMultiple Char.toLower
        (some [⟨⟨"a.png", 2048⟩, true, true, true, 1700000000⟩,
               ⟨⟨"notes.txt", 10⟩, true, true, true, 1700000001⟩])
      = (200, [.uploaded "1700000000_a.png", .invalidType],
          [.create "./uploads" "1700000000_a.png", .copy "./uploads" "1700000000_a.png"]) := by
  decide

/-! ## Project images on disk -/

theorem Disk.remove_eq_self (d : Disk) (dir name : String)
    (h : ∀ f ∈ d, f.dir = dir → f.name ≠ name) : Disk.remove d dir name = d := by
  unfold Disk.remove
  rw [List.filter_eq_self]
  intro f hf
  have := h f hf
  simp only [decide_eq_true_eq, not_and]
  exact this

theorem Disk.remove_remove (d : Disk) (dir name : String) :
    Disk.remove (Disk.remove d dir name) dir name = Disk.remove d dir name := by
  simp [Disk.remove, List.filter_filter]

theorem Disk.write_write (d : Disk) (dir name c1 c2 : String) :
    Disk.write (Disk.write d dir name c1) dir name c2 = Disk.write d dir name c2 := by
  simp [Disk.write, Disk.remove, List.filter_filter]

theorem safeID_abc123 (lower : Char → Char) (hlower : ∀ c : Char, c.toNat < 128 → lower c = c.toLower) :
    stringsToLower lower (replaceAllChar ' ' '-' (replaceAllChar ':' '-' "abc123")) = "abc123" := by
  have ha := hlower 'a' (by decide)
  have hb := hlower 'b' (by decide)
  have hc := hlower 'c' (by decide)
  have h1 := hlower '1' (by decide)
  have h2 := hlower '2' (by decide)
  have h3 := hlower '3' (by decide)
  have e : replaceAllChar ' ' '-' (replaceAllChar ':' '-' "abc123") = "abc123" := by decide
  rw [e]
  show String.mk (List.map lower ['a', 'b', 'c', '1', '2', '3']) = _
  simp only [List.map, ha, hb, hc, h1, h2, h3]
  decide

theorem uploadProjectImage_eq (pathMatch : String → String → Bool) (lower : Char → Char)
    (now : Nat) (projectID : String) (header : FileHeader) (contents : String) (w : World)
    (hid : projectID ≠ "") (hs : header.Size ≤ 10485760)
    (he : handlers.generalAllowedExts.contains (stringsToLower lower (filepathExt header.Filename))
      = true) :
    uploadProjectImage pathMatch lower now projectID header contents w
      = (200, ⟨(handlers.updateProjectImageInRedis now projectID
            ("/uploads/" ++ handlers.generateProjectImageName lower projectID
              (stringsToLower lower (filepathExt header.Filename))) w.store).2,
          Disk.write (handlers.cleanupOldProjectImages pathMatch lower projectID w.disk)
            "./uploads" (handlers.generateProjectImageName lower projectID
              (stringsToLower lower (filepathExt header.Filename))) contents⟩) := by
  have hs1 : ¬ header.Size > 10 * 1024 * 1024 := by omega
  simp only [uploadProjectImage, handlers.UploadProjectImage, if_neg hid, if_neg hs1, he,
    not_true_eq_false, if_false, handlers.saveUpload, if_true, List.singleton_append,
    runDiskActions, List.foldl, DiskAction.run, Bool.not_true, Bool.false_eq_true,
    Disk.write_write]


theorem Disk.remove_of_no_prefix (d : Disk) (name : String)
    (hd : ∀ f ∈ d, f.dir = "./uploads" → hasPrefix f.name "abc123-" = false)
    (hn : hasPrefix name "abc123-" = true) : Disk.remove d "./uploads" name = d := by
  apply Disk.remove_eq_self
  intro f hf hdir hname
  have := hd f hf hdir
  rw [hname, hn] at this
  exact absurd this (by decide)

theorem cleanup_abc123_none (pathMatch : String → String → Bool) (lower : Char → Char)
    (hlower : ∀ c : Char, c.toNat < 128 → lower c = c.toLower)
    (hmatch : ∀ name, pathMatch "abc123-*" name
      = (hasPrefix name "abc123-" && !name.data.contains '/'))
    (d : Disk) (hd : ∀ f ∈ d, f.dir = "./uploads" → hasPrefix f.name "abc123-" = false) :
    handlers.cleanupOldProjectImages pathMatch lower "abc123" d = d := by
  have hpat : ("abc123" : String) ++ "-*" = "abc123-*" := by decide
  have hnil : (Disk.names d "./uploads").filter (pathMatch "abc123-*") = [] := by
    rw [List.filter_eq_nil_iff]
    intro a ha
    simp only [Disk.names, List.mem_map, List.mem_filter, decide_eq_true_eq] at ha
    obtain ⟨f, ⟨hf, hdir⟩, rfl⟩ := ha
    rw [hmatch, hd f hf hdir]
    simp
  simp only [handlers.cleanupOldProjectImages, safeID_abc123 lower hlower, hpat, filepathGlob, hnil,
    List.insertionSort, List.foldl]

theorem cleanup_abc123_main (pathMatch : String → String → Bool) (lower : Char → Char)
    (hlower : ∀ c : Char, c.toNat < 128 → lower c = c.toLower)
    (hmatch : ∀ name, pathMatch "abc123-*" name
      = (hasPrefix name "abc123-" && !name.data.contains '/'))
    (d : Disk) (hd : ∀ f ∈ d, f.dir = "./uploads" → hasPrefix f.name "abc123-" = false)
    (e c : String) (he : handlers.generalAllowedExts.contains e = true) :
    handlers.cleanupOldProjectImages pathMatch lower "abc123"
        (⟨"./uploads", "abc123-main" ++ e, c⟩ :: d)
      = ⟨"./uploads", "abc123-backup" ++ e, c⟩ :: d := by
  have hpat : ("abc123" : String) ++ "-*" = "abc123-*" := by decide
  have hnil : (Disk.names d "./uploads").filter (pathMatch "abc123-*") = [] := by
    rw [List.filter_eq_nil_iff]
    intro a ha
    simp only [Disk.names, List.mem_map, List.mem_filter, decide_eq_true_eq] at ha
    obtain ⟨f, ⟨hf, hdir⟩, rfl⟩ := ha
    rw [hmatch, hd f hf hdir]
    simp
  have hfacts : pathMatch "abc123-*" ("abc123-main" ++ e) = true
      ∧ hasPrefix ("abc123-main" ++ e) "abc123-" = true
      ∧ hasPrefix ("abc123-backup" ++ e) "abc123-" = true
      ∧ "abc123-main" ++ e ≠ "abc123-backup" ++ e
      ∧ ∀ d1 : Disk, handlers.cleanupProjectFile d1 ("abc123-main" ++ e)
          = Disk.rename d1 "./uploads" ("abc123-main" ++ e) ("abc123-backup" ++ e) := by
    rw [hmatch]
    simp only [handlers.generalAllowedExts, List.contains_cons, List.contains_nil, Bool.or_false,
      Bool.or_eq_true, beq_iff_eq] at he
    rcases he with rfl | rfl | rfl | rfl | rfl | rfl <;>
      exact ⟨by decide, by decide, by decide, by decide, fun d1 => by
        unfold handlers.cleanupProjectFile
        rw [if_neg (by decide), if_pos (by decide)]
        rfl⟩
  obtain ⟨hm, hp1, hp2, hne, hstep⟩ := hfacts
  have hnames : Disk.names (⟨"./uploads", "abc123-main" ++ e, c⟩ :: d) "./uploads"
      = ("abc123-main" ++ e) :: Disk.names d "./uploads" := by
    simp [Disk.names]
  have hread : Disk.read (⟨"./uploads", "abc123-main" ++ e, c⟩ :: d) "./uploads"
      ("abc123-main" ++ e) = some c := by
    simp [Disk.read]
  have hrem : Disk.remove (⟨"./uploads", "abc123-main" ++ e, c⟩ :: d) "./uploads"
      ("abc123-main" ++ e) = d := by
    have := Disk.remove_of_no_prefix d _ hd hp1
    simpa [Disk.remove] using this
  simp only [handlers.cleanupOldProjectImages, safeID_abc123 lower hlower, hpat, filepathGlob,
    hnames, List.filter_cons, hm, if_true, hnil, List.insertionSort, List.orderedInsert,
    List.foldl, hstep, Disk.rename, hread, if_neg hne, hrem, Disk.write,
    Disk.remove_of_no_prefix d _ hd hp2]

theorem generateProjectImageName_abc123 (lower : Char → Char)
    (hlower : ∀ c : Char, c.toNat < 128 → lower c = c.toLower) (e : String) :
    handlers.generateProjectImageName lower "abc123" e = "abc123-main" ++ e := by
  have h : ("abc123" : String) ++ "-main" = "abc123-main" := by decide
  rw [handlers.generateProjectImageName, safeID_abc123 lower hlower, h]

open models in
theorem updateProjectImageInRedis_stores (now t : Nat) (projectID imageURL : String) (r : Redis)
    (p : Project) (hget : GetProjectByID r now projectID = .ok p) (hid : p.ID = projectID)
    (hexp : t < now + 31536000) :
    GetProjectByID (handlers.updateProjectImageInRedis now projectID imageURL r).2 t projectID
      = .ok { p with Image := imageURL, UpdatedAt := now } := by
  subst hid
  have hget1 : GetProjectByID r now ({ p with Image := imageURL } : Project).ID = .ok p := hget
  have h2 := UpdateProject_stores now { p with Image := imageURL } p r hget1
  obtain ⟨v, hv⟩ := getByID_decoded _ _ _ _ _ hget
  have hint := project_fromJSON_isInt64 v p hv
  simp only [handlers.updateProjectImageInRedis, hget]
  exact getByID_of_lookup _ _ _ _ _ _ _ h2 (Redis.live_recordTTL now t _ hexp)
    (project_fromJSON_toJSON _ hint)

open models in
/-- C11 (amended). Project `abc123` is stored under its ID and the upload directory
holds no file whose name starts with `abc123-`.  After two successful image
uploads for `abc123` the directory holds two files for the project, not one:
`abc123-main<ext2>` with the second upload's bytes and `abc123-backup<ext1>`
with the first upload's bytes (the cleanup renames the previous main file to a
backup); the other files are untouched, and the project's stored image is the
URL of the second upload. -/
theorem second_project_upload_keeps_backup (pathMatch : String → String → Bool)
    (lower : Char → Char) (hlower : ∀ c : Char, c.toNat < 128 → lower c = c.toLower)
    (hmatch : ∀ name, pathMatch "abc123-*" name
      = (hasPrefix name "abc123-" && !name.data.contains '/'))
    (now1 now2 t : Nat) (h1 h2 : FileHeader) (c1 c2 : String) (w0 : World) (p : Project)
    (hs1 : h1.Size ≤ 10485760) (hs2 : h2.Size ≤ 10485760)
    (he1 : handlers.generalAllowedExts.contains (stringsToLower lower (filepathExt h1.Filename))
      = true)
    (he2 : handlers.generalAllowedExts.contains (stringsToLower lower (filepathExt h2.Filename))
      = true)
    (hd0 : ∀ f ∈ w0.disk, f.dir = "./uploads" → hasPrefix f.name "abc123-" = false)
    (hp : GetProjectByID w0.store now1 "abc123" = .ok p) (hid : p.ID = "abc123")
    (h12 : now2 < now1 + 31536000) (ht : t < now2 + 31536000) :
    (uploadProjectImage pathMatch lower now1 "abc123" h1 c1 w0).1 = 200
    ∧ (uploadProjectImage pathMatch lower now2 "abc123" h2 c2
        (uploadProjectImage pathMatch lower now1 "abc123" h1 c1 w0).2).1 = 200
    ∧ (uploadProjectImage pathMatch lower now2 "abc123" h2 c2
        (uploadProjectImage pathMatch lower now1 "abc123" h1 c1 w0).2).2.disk
      = ⟨"./uploads", "abc123-main" ++ stringsToLower lower (filepathExt h2.Filename), c2⟩
        :: ⟨"./uploads", "abc123-backup" ++ stringsToLower lower (filepathExt h1.Filename), c1⟩
        :: w0.disk
    ∧ ∃ q, GetProjectByID (uploadProjectImage pathMatch lower now2 "abc123" h2 c2
          (uploadProjectImage pathMatch lower now1 "abc123" h1 c1 w0).2).2.store t "abc123" = .ok q
        ∧ q.Image
          = "/uploads/" ++ ("abc123-main" ++ stringsToLower lower (filepathExt h2.Filename)) := by
  have hne : ("abc123" : String) ≠ "" := by decide
  rw [uploadProjectImage_eq pathMatch lower now1 "abc123" h1 c1 w0 hne hs1 he1]
  simp only []
  rw [uploadProjectImage_eq pathMatch lower now2 "abc123" h2 c2 _ hne hs2 he2]
  simp only [generateProjectImageName_abc123 lower hlower]
  have hpre : ∀ e, handlers.generalAllowedExts.contains e = true →
      hasPrefix ("abc123-main" ++ e) "abc123-" = true
      ∧ "abc123-backup" ++ e ≠ "abc123-main" ++
          stringsToLower lower (filepathExt h2.Filename) := by
    intro e he
    have he2c := he2
    simp only [handlers.generalAllowedExts, List.contains_cons, List.contains_nil, Bool.or_false,
      Bool.or_eq_true, beq_iff_eq] at he he2c
    rcases he with rfl | rfl | rfl | rfl | rfl | rfl <;>
      rcases he2c with h | h | h | h | h | h <;> rw [h] <;> exact ⟨by decide, by decide⟩
  have hd1 : Disk.write (handlers.cleanupOldProjectImages pathMatch lower "abc123" w0.disk)
      "./uploads" ("abc123-main" ++ stringsToLower lower (filepathExt h1.Filename)) c1
      = ⟨"./uploads", "abc123-main" ++ stringsToLower lower (filepathExt h1.Filename), c1⟩
        :: w0.disk := by
    rw [cleanup_abc123_none pathMatch lower hlower hmatch _ hd0, Disk.write,
      Disk.remove_of_no_prefix _ _ hd0 (hpre _ he1).1]
  have hd2 : Disk.write (handlers.cleanupOldProjectImages pathMatch lower "abc123"
        (⟨"./uploads", "abc123-main" ++ stringsToLower lower (filepathExt h1.Filename), c1⟩
          :: w0.disk))
      "./uploads" ("abc123-main" ++ stringsToLower lower (filepathExt h2.Filename)) c2
      = ⟨"./uploads", "abc123-main" ++ stringsToLower lower (filepathExt h2.Filename), c2⟩
        :: ⟨"./uploads", "abc123-backup" ++ stringsToLower lower (filepathExt h1.Filename), c1⟩
        :: w0.disk := by
    rw [cleanup_abc123_main pathMatch lower hlower hmatch _ hd0 _ _ he1, Disk.write]
    have hrem := Disk.remove_of_no_prefix _ _ hd0 (hpre _ he2).1
    have hne2 := (hpre _ he1).2
    have hcons : ∀ (f : DiskFile) (d : Disk) (n : String), f.name ≠ n →
        Disk.remove (f :: d) "./uploads" n = f :: Disk.remove d "./uploads" n := by
      intro f d n hfn
      simp [Disk.remove, hfn]
    rw [hcons _ _ _ hne2, hrem]
  rw [hd1, hd2]
  refine ⟨trivial, trivial, rfl, ?_⟩
  have hq1 := updateProjectImageInRedis_stores now1 now2 "abc123"
    ("/uploads/" ++ ("abc123-main" ++ stringsToLower lower (filepathExt h1.Filename)))
    w0.store p hp hid h12
  have hq2 := updateProjectImageInRedis_stores now2 t "abc123"
    ("/uploads/" ++ ("abc123-main" ++ stringsToLower lower (filepathExt h2.Filename)))
    _ _ hq1 hid ht
  exact ⟨_, hq2, rfl⟩

theorem second_project_upload_keeps_backup_witness :
    (uploadProjectImage prefixStarMatch Char.toLower 200 "abc123" ⟨"b.jpg", 3⟩ "two"
        (uploadProjectImage prefixStarMatch Char.toLower 100 "abc123" ⟨"a.PNG", 3⟩ "one"
          worldWithProjectAbc).2).2.disk
      = [⟨"./uploads", "abc123-main.jpg", "two"⟩, ⟨"./uploads", "abc123-backup.png", "one"⟩] :=
  (second_project_upload_keeps_backup prefixStarMatch Char.toLower (fun _ _ => rfl)
    (fun _ => rfl) 100 200 200 ⟨"a.PNG", 3⟩ ⟨"b.jpg", 3⟩ "one" "two" worldWithProjectAbc
    exProjectAbc (by decide) (by decide) (by decide) (by decide)
    (by simp [worldWithProjectAbc]) rfl rfl (by decide) (by decide)).2.2.1

open models in
/-- C11 (counterexample). The store holds project `abc123`, the upload directory is
empty.  Two uploads for `abc123` (`a.png` with bytes `one`, then `b.png`
with bytes `two`) both answer 200 and leave two files for the project:
`abc123-main.png` with the second upload's bytes and `abc123-backup.png` with
the first upload's bytes. -/
theorem second_upload_leaves_two_project_files :
    worldWithProjectAbc.disk = []
    ∧ GetProjectByID worldWithProjectAbc.store 100 "abc123" = .ok exProjectAbc
    ∧ (uploadProjectImage prefixStarMatch Char.toLower 100 "abc123" ⟨"a.png", 3⟩ "one"
        worldWithProjectAbc).1 = 200
    ∧ (uploadProjectImage prefixStarMatch Char.toLower 200 "abc123" ⟨"b.png", 3⟩ "two"
        (uploadProjectImage prefixStarMatch Char.toLower 100 "abc123" ⟨"a.png", 3⟩ "one"
          worldWithProjectAbc).2).1 = 200
    ∧ (uploadProjectImage prefixStarMatch Char.toLower 200 "abc123" ⟨"b.png", 3⟩ "two"
        (uploadProjectImage prefixStarMatch Char.toLower 100 "abc123" ⟨"a.png", 3⟩ "one"
          worldWithProjectAbc).2).2.disk
      = [⟨"./uploads", "abc123-main.png", "two"⟩, ⟨"./uploads", "abc123-backup.png", "one"⟩]
    ∧ ((uploadProjectImage prefixStarMatch Char.toLower 200 "abc123" ⟨"b.png", 3⟩ "two"
        (uploadProjectImage prefixStarMatch Char.toLower 100 "abc123" ⟨"a.png", 3⟩ "one"
          worldWithProjectAbc).2).2.disk.filter
        (fun f => f.dir = "./uploads" ∧ hasPrefix f.name "abc123-")).length = 2 :=
  ⟨rfl, rfl, rfl, rfl, by decide, by decide⟩

/-! ## Uploads and the stored entity -/

open models in
/-- C12 (amended). A successful `UploadProjectImage` for a project stored under its ID
leaves the project's stored image equal to the public URL of the uploaded file,
`/uploads/<generated name>`.  `UploadSkillIcon` only writes the file: whatever
the skill name and the file, the store afterwards is the store before, so no
skill's icon field changes. -/
theorem upload_updates_project_image_only (pathMatch : String → String → Bool)
    (lower : Char → Char) (now t : Nat) (projectID : String) (header : FileHeader)
    (contents : String) (w : World) (p : Project)
    (hid : projectID ≠ "") (hs : header.Size ≤ 10485760)
    (he : handlers.generalAllowedExts.contains (stringsToLower lower (filepathExt header.Filename))
      = true)
    (hp : GetProjectByID w.store now projectID = .ok p) (hpid : p.ID = projectID)
    (ht : t < now + 31536000) :
    (uploadProjectImage pathMatch lower now projectID header contents w).1 = 200
    ∧ GetProjectByID (uploadProjectImage pathMatch lower now projectID header contents w).2.store
        t projectID
      = .ok { p with
          Image := "/uploads/" ++ handlers.generateProjectImageName lower projectID
            (stringsToLower lower (filepathExt header.Filename)),
          UpdatedAt := now }
    ∧ ∀ (skillName : String) (icon : FileHeader) (bytes : String),
        (uploadSkillIcon pathMatch lower skillName icon bytes w).2.store = w.store := by
  rw [uploadProjectImage_eq pathMatch lower now projectID header contents w hid hs he]
  exact ⟨rfl, updateProjectImageInRedis_stores now t projectID _ w.store p hp hpid ht,
    fun _ _ _ => rfl⟩

open models in
theorem upload_updates_project_image_only_witness :
    GetProjectByID (uploadProjectImage prefixStarMatch Char.toLower 200 "abc123" ⟨"shot.webp", 9⟩
        "bytes" worldWithProjectAbc).2.store 300 "abc123"
      = .ok { exProjectAbc with Image := "/uploads/abc123-main.webp", UpdatedAt := 200 } :=
  (upload_updates_project_image_only prefixStarMatch Char.toLower 200 300 "abc123"
    ⟨"shot.webp", 9⟩ "bytes" worldWithProjectAbc exProjectAbc (by decide) (by decide) (by decide)
    rfl rfl (by decide)).2.1

open models in
/-- C12 (counterexample). The store holds the skill Rust with icon `/rust.svg`.  The
upload of `rust.png` as the icon of `Rust` answers 200, writes
`./skills-upload/rust.png` and reports the URL `/skills-upload/rust.png`; the
stored skill still has the icon `/rust.svg`. -/
theorem uploadSkillIcon_keeps_stored_icon :
    GetSkillByID storeWithSkill 200 "skill:Languages:Rust" = .ok exSkill
    ∧ (uploadSkillIcon prefixStarMatch Char.toLower "Rust" ⟨"rust.png", 9⟩ "bytes"
        ⟨storeWithSkill, []⟩).1 = 200
    ∧ (uploadSkillIcon prefixStarMatch Char.toLower "Rust" ⟨"rust.png", 9⟩ "bytes"
        ⟨storeWithSkill, []⟩).2.disk = [⟨"./skills-upload", "rust.png", "bytes"⟩]
    ∧ handlers.skillIconURL Char.toLower "Rust" ".png" = "/skills-upload/rust.png"
    ∧ (∃ s, GetSkillByID (uploadSkillIcon prefixStarMatch Char.toLower "Rust" ⟨"rust.png", 9⟩
          "bytes" ⟨storeWithSkill, []⟩).2.store 200 "skill:Languages:Rust" = .ok s
        ∧ s.Icon = "/rust.svg") :=
  ⟨rfl, rfl, by decide, by decide, ⟨exSkill, rfl, rfl⟩⟩

/-! ## Bulk reads -/

theorem Redis.mget_eq_map (r : Redis) (now : Nat) (ks : List String) :
    r.mget now ks = ks.map (r.slot now) := rfl

theorem Redis.find_congr (r r1 : Redis) (now : Nat) (k : String)
    (h : r1.entries.lookup k = r.entries.lookup k) : r1.find now k = r.find now k := by
  simp [Redis.find, h]

theorem Redis.slot_congr (r r1 : Redis) (now : Nat) (k : String)
    (h : r1.entries.lookup k = r.entries.lookup k) : r1.slot now k = r.slot now k := by
  simp [Redis.slot, Redis.find_congr r r1 now k h]

open models in
theorem decodeSlots_of_all {α : Type} (dec : StrVal → Option α) (slots : List (Option StrVal))
    (h : ∀ v, some v ∈ slots → dec v ≠ none) :
    decodeSlots dec slots = .ok (slots.filterMap (fun o => o.bind dec)) := by
  induction slots with
  | nil => rfl
  | cons o rest ih =>
      have ih1 := ih (fun v hv => h v (List.mem_cons_of_mem _ hv))
      cases o with
      | none => simpa [decodeSlots] using ih1
      | some v =>
          have hv := h v (List.mem_cons_self _ _)
          cases hd : dec v with
          | none => exact absurd hd hv
          | some a => simp [decodeSlots, hd, ih1]

open models in
theorem decodeSlots_ok {α : Type} (dec : StrVal → Option α) (slots : List (Option StrVal))
    (l : List α) (h : decodeSlots dec slots = .ok l) :
    (∀ v, some v ∈ slots → dec v ≠ none) ∧ l = slots.filterMap (fun o => o.bind dec) := by
  induction slots generalizing l with
  | nil =>
      simp only [decodeSlots, Except.ok.injEq] at h
      subst h
      simp
  | cons o rest ih =>
      cases o with
      | none =>
          simp only [decodeSlots] at h
          obtain ⟨h1, h2⟩ := ih l h
          refine ⟨?_, by simpa using h2⟩
          intro v hv
          simp only [List.mem_cons] at hv
          rcases hv with hv | hv
          · cases hv
          · exact h1 v hv
      | some v =>
          simp only [decodeSlots] at h
          cases hd : dec v with
          | none => simp [hd] at h
          | some a =>
              simp only [hd] at h
              cases hr : decodeSlots dec rest with
              | error e => simp [hr] at h
              | ok as =>
                  simp only [hr, Except.ok.injEq] at h
                  obtain ⟨h1, h2⟩ := ih as hr
                  subst h
                  refine ⟨?_, by simp [hd, h2]⟩
                  intro w hw
                  simp only [List.mem_cons, Option.some.injEq] at hw
                  rcases hw with hw | hw
                  · subst hw; simp [hd]
                  · exact h1 w hw

/-- What a successful `SADD k m` leaves: the set under `k` holds `m`, every other
member was a member before, and the other keys are as before. -/
theorem Cmd.sadd_run_ok (now : Nat) (k m : String) (r r1 : Redis)
    (h : (Cmd.sadd k m).run now r = .ok r1) :
    (∃ ms ex, r1.find now k = some ⟨.set ms, ex⟩ ∧ m ∈ ms
      ∧ ∀ x ∈ ms, x ≠ m → ∃ ms0 ex0, r.find now k = some ⟨.set ms0, ex0⟩ ∧ x ∈ ms0)
    ∧ ∀ k1, k1 ≠ k → r1.entries.lookup k1 = r.entries.lookup k1 := by
  simp only [Cmd.run] at h
  split at h
  · rename_i hf
    simp only [Except.ok.injEq] at h
    subst h
    refine ⟨⟨[m], none, ?_, by simp, ?_⟩, ?_⟩
    · exact Redis.find_of_lookup _ _ _ _ (by simp [Redis.lookup_put]) rfl
    · intro x hx hxm
      simp at hx
      exact absurd hx hxm
    · intro k1 hk1
      simp [Redis.lookup_put, hk1]
  · rename_i ms ex hf
    simp only [Except.ok.injEq] at h
    obtain ⟨hl, hlive⟩ := Redis.find_eq_some _ _ _ _ hf
    by_cases hc : ms.contains m = true
    · rw [if_pos hc] at h
      subst h
      refine ⟨⟨ms, ex, hf, by simpa using hc, ?_⟩, fun _ _ => rfl⟩
      intro x hx _
      exact ⟨ms, ex, hf, hx⟩
    · rw [if_neg hc] at h
      subst h
      refine ⟨⟨ms ++ [m], ex, ?_, by simp, ?_⟩, ?_⟩
      · exact Redis.find_of_lookup _ _ _ _ (by simp [Redis.lookup_put]) hlive
      · intro x hx hxm
        simp only [List.mem_append, List.mem_singleton] at hx
        rcases hx with hx | hx
        · exact ⟨ms, ex, hf, hx⟩
        · exact absurd hx hxm
      · intro k1 hk1
        simp [Redis.lookup_put, hk1]
  · cases h

theorem skills_categories_ne_category (c : String) :
    "skills:categories" ≠ "skills:category:" ++ c := by
  intro h
  have hd := congrArg String.data h
  rw [String.data_append] at hd
  have h15 := congrArg (List.take 15) hd
  rw [List.take_append_of_le_length (by decide)] at h15
  exact absurd h15 (by decide)

open models in
/-- C13 (amended). On the empty store, after creating the skill Languages/Rust with icon
`/rust.svg`, `GetSkillsByCategory("Languages")` returns that skill and
`GetSkillsByCategory("Frameworks")` returns the empty list.  For every skill
`s` and every store on which `GetSkillsByCategory(s.Category)` does not fail,
after `CreateSkill(s)` succeeds `GetSkillsByCategory(s.Category)` returns a list
that contains `s`. -/
theorem created_skill_in_its_category :
    ((CreateSkill 100 exSkill Redis.empty).1 = none
      ∧ GetSkillsByCategory (CreateSkill 100 exSkill Redis.empty).2 100 "Languages" = .ok [exSkill]
      ∧ GetSkillsByCategory (CreateSkill 100 exSkill Redis.empty).2 100 "Frameworks" = .ok [])
    ∧ ∀ (now : Nat) (s : Skill) (r r1 : Redis) (l0 : List Skill),
        CreateSkill now s r = (none, r1) →
        GetSkillsByCategory r now s.Category = .ok l0 →
        ∃ l, GetSkillsByCategory r1 now s.Category = .ok l ∧ s ∈ l := by
  refine ⟨⟨rfl, rfl, rfl⟩, ?_⟩
  intro now s r r1 l0 h hread
  have hstore := CreateSkill_stores now s r r1 h
  have hlive := Redis.live_recordTTL now now (.str s.ToJSON) (by omega)
  have hslot : r1.slot now s.ID = some s.ToJSON := by
    simp [Redis.slot, Redis.find_of_lookup _ _ _ _ hstore hlive]
  unfold CreateSkill at h
  have hset : (Cmd.set s.ID s.ToJSON recordTTL).run now r
      = .ok (r.put s.ID ⟨.str s.ToJSON, Redis.setExpiry now recordTTL⟩) := rfl
  rw [hset] at h
  simp only at h
  split at h
  · simp at h
  · rename_i rb hb
    split at h
    · simp at h
    · rename_i rc hc
      simp only [Prod.mk.injEq, true_and] at h
      subst h
      obtain ⟨⟨cs, cex, hcats, -, -⟩, hbne⟩ := Cmd.sadd_run_ok now _ _ _ _ hb
      obtain ⟨⟨ms, ex, hfind, hmem, hold⟩, hcne⟩ := Cmd.sadd_run_ok now _ _ _ _ hc
      have hK : "skills:category:" ++ s.Category ≠ s.ID := by
        intro hk
        have h1 := (Redis.find_eq_some _ _ _ _ hfind).1
        rw [hk, hstore] at h1
        cases h1
      have hKc : "skills:category:" ++ s.Category ≠ "skills:categories" :=
        fun hk => skills_categories_ne_category _ hk.symm
      have hcats1 : rc.find now "skills:categories" = some ⟨.set cs, cex⟩ := by
        rw [Redis.find_congr _ _ now _ (hcne _ hKc.symm)]
        exact hcats
      have hslots : ∀ x ∈ ms, ∀ v, rc.slot now x = some v → Skill.FromJSON v ≠ none := by
        intro x hx v hv
        by_cases hxs : x = s.ID
        · subst hxs
          rw [hslot] at hv
          cases hv
          rw [skill_fromJSON_toJSON]
          simp
        · obtain ⟨ms0, ex0, hf0, hx0⟩ := hold x hx hxs
          have hf1 : r.find now ("skills:category:" ++ s.Category) = some ⟨.set ms0, ex0⟩ := by
            rw [← hf0]
            apply Eq.symm
            apply Redis.find_congr
            rw [hbne _ hKc, Redis.lookup_put, if_neg hK]
          have hne0 : ¬ ms0.length = 0 := by
            intro hl
            rw [List.length_eq_zero] at hl
            subst hl
            cases hx0
          simp only [GetSkillsByCategory, Redis.smembers, hf1, if_neg hne0] at hread
          obtain ⟨hall, -⟩ := decodeSlots_ok _ _ _ hread
          by_cases hxK : x = "skills:category:" ++ s.Category
          · subst hxK
            simp [Redis.slot, hfind] at hv
          · by_cases hxc : x = "skills:categories"
            · subst hxc
              simp [Redis.slot, hcats1] at hv
            · have hsame : rc.slot now x = r.slot now x := by
                apply Redis.slot_congr
                rw [hcne _ hxK, hbne _ hxc, Redis.lookup_put, if_neg hxs]
              rw [hsame] at hv
              apply hall v
              rw [Redis.mget_eq_map, List.mem_map]
              exact ⟨x, hx0, hv⟩
      have hne : ¬ ms.length = 0 := by
        intro hl
        rw [List.length_eq_zero] at hl
        subst hl
        cases hmem
      have hdec := decodeSlots_of_all Skill.FromJSON (rc.mget now ms) (by
        intro v hv
        rw [Redis.mget_eq_map, List.mem_map] at hv
        obtain ⟨x, hx, hxv⟩ := hv
        exact hslots x hx v hxv)
      refine ⟨List.filterMap (fun o => o.bind Skill.FromJSON) (rc.mget now ms), ?_, ?_⟩
      · simp only [GetSkillsByCategory, Redis.smembers, hfind, if_neg hne]
        exact hdec
      · rw [List.mem_filterMap]
        refine ⟨some s.ToJSON, ?_, by simp [skill_fromJSON_toJSON]⟩
        rw [Redis.mget_eq_map, List.mem_map]
        exact ⟨s.ID, hmem, hslot⟩

open models in
theorem created_skill_in_its_category_witness :
    ∃ l, GetSkillsByCategory storeWithSkill 100 "Languages" = .ok l ∧ exSkill ∈ l :=
  created_skill_in_its_category.2 100 exSkill Redis.empty storeWithSkill [] rfl rfl

open models in
/-- C13 (counterexample). In `storeWithNote` the category set of `Languages` lists the
key `note`, whose string is no JSON document.  `CreateSkill` of the skill
Languages/Rust succeeds there, and `GetSkillsByCategory("Languages")` then
fails with an unmarshal error instead of returning a list with the skill. -/
theorem getSkillsByCategory_fails_on_undecodable_member :
    (CreateSkill 100 exSkill storeWithNote).1 = none
    ∧ GetSkillByID (CreateSkill 100 exSkill storeWithNote).2 100 "skill:Languages:Rust"
      = .ok exSkill
    ∧ GetSkillsByCategory (CreateSkill 100 exSkill storeWithNote).2 100 "Languages"
      = .error .unmarshal :=
  ⟨rfl, rfl, rfl⟩

/-! ## The published index -/

open models in
/-- C14 (failing input). `CreatePost` of a published post and then `CreatePost` of a draft
with the same ID both succeed; the stored post is the draft, its ID is still in
`blog:posts:published`, and `GetPublishedPosts` and `GetBlogResponse` return
it with `Published = false`. -/
theorem recreated_draft_stays_in_published_index :
    (CreatePost 100 exPublishedPost Redis.empty).1 = none
    ∧ (CreatePost 200 exPost (CreatePost 100 exPublishedPost Redis.empty).2).1 = none
    ∧ exPublishedPost.ID = exPost.ID
    ∧ GetPostByID storeRecreatedDraft 200 "blog:modern-css" = .ok exPost
    ∧ exPost.Published = false
    ∧ storeRecreatedDraft.sismember 200 "blog:posts:published" "blog:modern-css" = true
    ∧ GetPublishedPosts storeRecreatedDraft 200 = .ok [exPost]
    ∧ GetBlogResponse storeRecreatedDraft 200 1 10
      = .ok (some ⟨[exPost.ToSummary], 1, 1, 10⟩)
    ∧ exPost.ToSummary.Published = false :=
  ⟨rfl, rfl, rfl, rfl, rfl, rfl, rfl, rfl, rfl⟩

/-! ## The category list of the skills -/

/-- What a successful `SADD` or `SREM` on key `k` does to the keyspace: the other keys
are as before, and `k` is as before, missing, or a set. -/
theorem Cmd.set_cmd_effect (now : Nat) (c : Cmd) (k m : String)
    (hc : c = .sadd k m ∨ c = .srem k m) (r r1 : Redis) (h : c.run now r = .ok r1) :
    (∀ k1, k1 ≠ k → r1.entries.lookup k1 = r.entries.lookup k1)
    ∧ (r1.entries.lookup k = r.entries.lookup k ∨ r1.entries.lookup k = none
      ∨ ∃ ms ex, r1.entries.lookup k = some ⟨.set ms, ex⟩) := by
  rcases hc with rfl | rfl
  · obtain ⟨⟨ms, ex, hf, -, -⟩, hne⟩ := Cmd.sadd_run_ok now k m r r1 h
    exact ⟨hne, Or.inr (Or.inr ⟨ms, ex, (Redis.find_eq_some _ _ _ _ hf).1⟩)⟩
  · simp only [Cmd.run] at h
    split at h
    · simp only [Except.ok.injEq] at h
      subst h
      exact ⟨fun _ _ => rfl, Or.inl rfl⟩
    · rename_i ms ex hf
      simp only [Except.ok.injEq] at h
      by_cases he : (ms.filter (fun x => x != m)).isEmpty = true
      · rw [if_pos he] at h
        subst h
        refine ⟨fun k1 hk1 => by simp [Redis.lookup_erase, hk1], Or.inr (Or.inl ?_)⟩
        simp [Redis.lookup_erase]
      · rw [if_neg he] at h
        subst h
        exact ⟨fun k1 hk1 => by simp [Redis.lookup_put, hk1],
          Or.inr (Or.inr ⟨ms.filter (fun x => x != m), ex, by simp [Redis.lookup_put]⟩)⟩
    · cases h

/-- A set command on a key other than `skills:categories` keeps `categoriesCover`. -/
theorem categoriesCover_set_cmd (now : Nat) (c : Cmd) (k m : String)
    (hc : c = .sadd k m ∨ c = .srem k m) (hk : k ≠ "skills:categories") (r r1 : Redis)
    (cs p : List String) (h : c.run now r = .ok r1) (hinv : categoriesCover r cs p) :
    categoriesCover r1 cs p := by
  obtain ⟨hne, hk1⟩ := Cmd.set_cmd_effect now c k m hc r r1 h
  obtain ⟨hcats, hstr⟩ := hinv
  refine ⟨?_, ?_⟩
  · rw [hne _ (Ne.symm hk)]
    exact hcats
  · intro id v ex hl
    by_cases hid : id = k
    · subst hid
      rcases hk1 with h1 | h1 | ⟨ms, ex1, h1⟩
      · rw [h1] at hl
        exact hstr _ _ _ hl
      · rw [h1] at hl
        cases hl
      · rw [h1] at hl
        cases hl
    · rw [hne _ hid] at hl
      exact hstr _ _ _ hl

theorem categoriesCover_runIgnore (now : Nat) (c : Cmd) (k m : String)
    (hc : c = .sadd k m ∨ c = .srem k m) (hk : k ≠ "skills:categories") (r : Redis)
    (cs p : List String) (hinv : categoriesCover r cs p) :
    categoriesCover (models.runIgnore now c r) cs p := by
  unfold models.runIgnore
  split
  · rename_i r1 h
    exact categoriesCover_set_cmd now c k m hc hk r r1 cs p h hinv
  · exact hinv

/-- Writing the record of `s` leaves its category pending. -/
theorem categoriesCover_put (s : models.Skill) (id : String) (ex : Option Nat)
    (hid : id ≠ "skills:categories") (r : Redis) (cs : List String)
    (hinv : categoriesCover r cs []) :
    categoriesCover (r.put id ⟨.str s.ToJSON, ex⟩) cs [s.Category] := by
  obtain ⟨hcats, hstr⟩ := hinv
  refine ⟨?_, ?_⟩
  · rw [Redis.lookup_put, if_neg (Ne.symm hid)]
    exact hcats
  · intro k v e hk
    rw [Redis.lookup_put] at hk
    by_cases hki : k = id
    · rw [if_pos hki] at hk
      cases hk
      exact ⟨s, skill_fromJSON_toJSON s, Or.inr (by simp)⟩
    · rw [if_neg hki] at hk
      obtain ⟨s1, h1, h2⟩ := hstr _ _ _ hk
      exact ⟨s1, h1, Or.inl (by simpa using h2)⟩

theorem categoriesCover_erase (id : String) (r : Redis) (cs : List String)
    (hid : id ≠ "skills:categories") (hinv : categoriesCover r cs []) :
    categoriesCover (r.erase id) cs [] := by
  obtain ⟨hcats, hstr⟩ := hinv
  refine ⟨?_, ?_⟩
  · rw [Redis.lookup_erase, if_neg (Ne.symm hid)]
    exact hcats
  · intro k v e hk
    rw [Redis.lookup_erase] at hk
    by_cases hki : k = id
    · rw [if_pos hki] at hk
      cases hk
    · rw [if_neg hki] at hk
      exact hstr _ _ _ hk

/-- With the category `c` pending, `SADD skills:categories c` succeeds and nothing is
pending afterwards. -/
theorem categoriesCover_sadd (now : Nat) (c : String) (ra : Redis) (cs : List String)
    (hinv : categoriesCover ra cs [c]) :
    ∃ r1 cs1, (Cmd.sadd "skills:categories" c).run now ra = .ok r1
      ∧ categoriesCover r1 cs1 [] := by
  obtain ⟨hcats, hstr⟩ := hinv
  have hstr1 : ∀ cs1 : List String, c ∈ cs1 → (∀ x ∈ cs, x ∈ cs1) →
      ∀ (r1 : Redis),
      (∀ k1, k1 ≠ "skills:categories" → r1.entries.lookup k1 = ra.entries.lookup k1) →
      (∀ v e, r1.entries.lookup "skills:categories" ≠ some ⟨.str v, e⟩) →
      ∀ k v e, r1.entries.lookup k = some ⟨.str v, e⟩ →
        ∃ s1, models.Skill.FromJSON v = some s1 ∧ (s1.Category ∈ cs1 ∨ s1.Category ∈ []) := by
    intro cs1 hs hsub r1 hne hnstr k v e hk
    by_cases hkc : k = "skills:categories"
    · subst hkc
      exact absurd hk (hnstr v e)
    · rw [hne k hkc] at hk
      obtain ⟨s1, h1, h2⟩ := hstr _ _ _ hk
      refine ⟨s1, h1, Or.inl ?_⟩
      rcases h2 with h2 | h2
      · exact hsub _ h2
      · simp only [List.mem_singleton] at h2
        rw [h2]
        exact hs
  rcases hcats with ⟨hnone, rfl⟩ | hsome
  · have hf : ra.find now "skills:categories" = none := by
      simp [Redis.find, hnone]
    refine ⟨ra.put "skills:categories" ⟨.set [c], none⟩, [c],
      by simp only [Cmd.run, hf], ?_, ?_⟩
    · right
      simp [Redis.lookup_put]
    · apply hstr1 [c] (by simp) (by simp)
      · intro k1 hk1
        simp [Redis.lookup_put, hk1]
      · intro v e
        simp [Redis.lookup_put]
  · have hf : ra.find now "skills:categories" = some ⟨.set cs, none⟩ :=
      Redis.find_of_lookup _ _ _ _ hsome rfl
    by_cases hc : cs.contains c = true
    · refine ⟨ra, cs, by simp only [Cmd.run, hf, if_pos hc], Or.inr hsome, ?_⟩
      apply hstr1 cs (by simpa using hc) (fun _ h => h)
      · intro _ _
        rfl
      · intro v e
        rw [hsome]
        simp
    · refine ⟨ra.put "skills:categories" ⟨.set (cs ++ [c]), none⟩, cs ++ [c],
        by simp only [Cmd.run, hf, if_neg hc], ?_, ?_⟩
      · right
        simp [Redis.lookup_put]
      · apply hstr1 (cs ++ [c]) (by simp) (fun x h => by simp [h])
        · intro k1 hk1
          simp [Redis.lookup_put, hk1]
        · intro v e
          simp [Redis.lookup_put]

open models in
/-- A stored skill is under a key other than `skills:categories`, and its category is
listed. -/
theorem categoriesCover_stored (r : Redis) (cs : List String) (now : Nat) (id : String)
    (s : Skill) (hinv : categoriesCover r cs []) (hget : GetSkillByID r now id = .ok s) :
    id ≠ "skills:categories" ∧ s.Category ∈ cs := by
  obtain ⟨hcats, hstr⟩ := hinv
  simp only [GetSkillByID, getByID, Redis.get] at hget
  cases hf : r.find now id with
  | none => simp [hf] at hget
  | some e =>
      obtain ⟨val, ex⟩ := e
      cases val with
      | set ms => simp [hf] at hget
      | zset ms => simp [hf] at hget
      | str v =>
          have hl := (Redis.find_eq_some _ _ _ _ hf).1
          obtain ⟨s1, h1, h2⟩ := hstr _ _ _ hl
          simp only [hf, h1, Except.ok.injEq] at hget
          subst hget
          refine ⟨?_, by simpa using h2⟩
          intro hid
          subst hid
          rcases hcats with ⟨hn, -⟩ | hs
          · rw [hn] at hl
            cases hl
          · rw [hs] at hl
            cases hl
theorem runIgnore_ok (now : Nat) (c : Cmd) (r r1 : Redis) (h : c.run now r = .ok r1) :
    models.runIgnore now c r = r1 := by
  simp [models.runIgnore, h]

open models in
theorem categoriesCover_op (now : Nat) (op : SkillOp) (r : Redis) (cs : List String)
    (hk : op.recordKey ≠ some "skills:categories") (hinv : categoriesCover r cs []) :
    ∃ cs1, categoriesCover (op.run now r) cs1 [] := by
  have hKc : ∀ c : String, "skills:category:" ++ c ≠ "skills:categories" :=
    fun c h => skills_categories_ne_category c h.symm
  cases op with
  | create s =>
      have hid : s.ID ≠ "skills:categories" := fun h => hk (by simp [SkillOp.recordKey, h])
      have hput := categoriesCover_put s s.ID (Redis.setExpiry now recordTTL) hid r cs hinv
      obtain ⟨rb, cs1, hb, hinvb⟩ := categoriesCover_sadd now s.Category _ cs hput
      refine ⟨cs1, ?_⟩
      have hset : (Cmd.set s.ID s.ToJSON recordTTL).run now r
          = .ok (r.put s.ID ⟨.str s.ToJSON, Redis.setExpiry now recordTTL⟩) := rfl
      simp only [SkillOp.run, CreateSkill, hset, hb]
      cases hc : (Cmd.sadd ("skills:category:" ++ s.Category) s.ID).run now rb with
      | error e => exact hinvb
      | ok rc =>
          exact categoriesCover_set_cmd now _ _ _ (Or.inl rfl) (hKc _) rb rc cs1 [] hc hinvb
  | update s =>
      simp only [SkillOp.run, UpdateSkill]
      cases hget : GetSkillByID r now s.ID with
      | error e => exact ⟨cs, hinv⟩
      | ok old =>
          obtain ⟨hid, hold⟩ := categoriesCover_stored r cs now s.ID old hinv hget
          have hset : (Cmd.set s.ID ({ s with UpdatedAt := now } : Skill).ToJSON recordTTL).run
              now r = .ok (r.put s.ID ⟨.str ({ s with UpdatedAt := now } : Skill).ToJSON,
                Redis.setExpiry now recordTTL⟩) := rfl
          have hput := categoriesCover_put { s with UpdatedAt := now } s.ID
            (Redis.setExpiry now recordTTL) hid r cs hinv
          simp only [hset]
          by_cases hcat : old.Category ≠ s.Category
          · rw [if_pos hcat]
            have h2 := categoriesCover_runIgnore now
              (.srem ("skills:category:" ++ old.Category) s.ID) _ _ (Or.inr rfl) (hKc _) _ cs
              [s.Category] hput
            obtain ⟨r3, cs1, h3, hinv3⟩ := categoriesCover_sadd now s.Category _ cs h2
            refine ⟨cs1, ?_⟩
            have hr3 : runIgnore now (.sadd "skills:categories" s.Category)
                (runIgnore now (.srem ("skills:category:" ++ old.Category) s.ID)
                  (r.put s.ID ⟨.str ({ s with UpdatedAt := now } : Skill).ToJSON,
                    Redis.setExpiry now recordTTL⟩)) = r3 := by
              exact runIgnore_ok now _ _ _ h3
            simp only [hr3]
            exact categoriesCover_runIgnore now _ _ _ (Or.inl rfl) (hKc _) r3 cs1 [] hinv3
          · rw [if_neg hcat]
            refine ⟨cs, hput.1, ?_⟩
            intro id v ex hl
            obtain ⟨s1, h1, h2⟩ := hput.2 id v ex hl
            refine ⟨s1, h1, Or.inl ?_⟩
            rcases h2 with h2 | h2
            · exact h2
            · simp only [List.mem_singleton] at h2
              rw [h2]
              have : old.Category = s.Category := by
                by_contra hne
                exact hcat hne
              rw [← this]
              exact hold
  | delete id =>
      simp only [SkillOp.run, DeleteSkill]
      cases hget : GetSkillByID r now id with
      | error e => exact ⟨cs, hinv⟩
      | ok old =>
          obtain ⟨hid, -⟩ := categoriesCover_stored r cs now id old hinv hget
          have hdel : (Cmd.del id).run now r = .ok (r.erase id) := rfl
          have herase := categoriesCover_erase id r cs hid hinv
          simp only [hdel]
          cases hc : (Cmd.srem ("skills:category:" ++ old.Category) id).run now (r.erase id) with
          | error e => exact ⟨cs, herase⟩
          | ok rc =>
              exact ⟨cs, categoriesCover_set_cmd now _ _ _ (Or.inr rfl) (hKc _) _ rc cs [] hc
                herase⟩

theorem categoriesCover_runSkillOps (ops : List (Nat × SkillOp))
    (hk : ∀ p ∈ ops, p.2.recordKey ≠ some "skills:categories") (r : Redis) (cs : List String)
    (hinv : categoriesCover r cs []) : ∃ cs1, categoriesCover (runSkillOps ops r) cs1 [] := by
  induction ops generalizing r cs with
  | nil => exact ⟨cs, hinv⟩
  | cons p rest ih =>
      obtain ⟨now, op⟩ := p
      obtain ⟨cs1, h1⟩ := categoriesCover_op now op r cs (hk _ (List.mem_cons_self _ _)) hinv
      exact ih (fun q hq => hk q (List.mem_cons_of_mem _ hq)) _ cs1 h1

open models in
/-- C15 (amended). Start from the empty store and run any sequence of `CreateSkill`,
`UpdateSkill` and `DeleteSkill`, each at its own time, none of them on a skill
whose ID is the key `skills:categories` itself.  Then, at every time,
`GetCategories` succeeds, `GetSkillsResponse` succeeds with the same
categories, and the category of every stored skill (every skill of the
response, every skill that `GetSkillByID` returns) is listed.  Categories are
only ever added: a listed category need not have a stored skill. -/
theorem categories_cover_stored_skills (ops : List (Nat × SkillOp))
    (hk : ∀ p ∈ ops, p.2.recordKey ≠ some "skills:categories") (t : Nat) :
    ∃ cs skills, GetCategories (runSkillOps ops Redis.empty) t = .ok cs
      ∧ GetSkillsResponse (runSkillOps ops Redis.empty) t = .ok ⟨cs, skills⟩
      ∧ (∀ s ∈ skills, s.Category ∈ cs)
      ∧ ∀ id s, GetSkillByID (runSkillOps ops Redis.empty) t id = .ok s → s.Category ∈ cs := by
  obtain ⟨cs, hinv⟩ := categoriesCover_runSkillOps ops hk Redis.empty []
    ⟨Or.inl ⟨rfl, rfl⟩, fun id v ex h => by simp [Redis.empty] at h⟩
  obtain ⟨r, hr⟩ : ∃ r, r = runSkillOps ops Redis.empty := ⟨_, rfl⟩
  rw [← hr] at hinv ⊢
  have hcats : GetCategories r t = .ok cs := by
    rcases hinv.1 with ⟨hn, rfl⟩ | hs
    · simp [GetCategories, Redis.smembers, Redis.find, hn]
    · simp [GetCategories, Redis.smembers, Redis.find, hs, Redis.live]
  have hslots : ∀ ids : List String, ∀ v, some v ∈ r.mget t ids →
      ∃ s, Skill.FromJSON v = some s ∧ s.Category ∈ cs := by
    intro ids v hv
    rw [Redis.mget_eq_map, List.mem_map] at hv
    obtain ⟨id, -, hslot⟩ := hv
    unfold Redis.slot at hslot
    split at hslot
    · rename_i v1 ex hf
      cases hslot
      obtain ⟨s, h1, h2⟩ := hinv.2 _ _ _ (Redis.find_eq_some _ _ _ _ hf).1
      exact ⟨s, h1, by simpa using h2⟩
    · cases hslot
  have hall : ∃ skills, GetAllSkills r t = .ok skills ∧ ∀ s ∈ skills, s.Category ∈ cs := by
    unfold GetAllSkills
    simp only []
    by_cases hlen : (getAllSkillIDs r t).length = 0
    · rw [if_pos hlen]
      exact ⟨[], rfl, by simp⟩
    · rw [if_neg hlen]
      refine ⟨_, decodeSlots_of_all Skill.FromJSON _ ?_, ?_⟩
      · intro v hv
        obtain ⟨s, h1, -⟩ := hslots _ v hv
        simp [h1]
      · intro s hs
        rw [List.mem_filterMap] at hs
        obtain ⟨o, ho, hos⟩ := hs
        cases o with
        | none => simp at hos
        | some v =>
            obtain ⟨s1, h1, h2⟩ := hslots _ v ho
            have hos1 : s1 = s := by simpa [h1] using hos
            rw [← hos1]
            exact h2
  obtain ⟨skills, hskills, hmem⟩ := hall
  refine ⟨cs, skills, hcats, by simp [GetSkillsResponse, hskills, hcats], hmem, ?_⟩
  intro id s hget
  exact (categoriesCover_stored r cs t id s hinv hget).2

open models in
theorem categories_cover_stored_skills_witness :
    ∃ cs skills,
      GetCategories (runSkillOps [(100, .create exSkill),
          (200, .update { exSkill with Category := "Systems" })] Redis.empty) 300 = .ok cs
      ∧ GetSkillsResponse (runSkillOps [(100, .create exSkill),
          (200, .update { exSkill with Category := "Systems" })] Redis.empty) 300
        = .ok ⟨cs, skills⟩
      ∧ (∀ s ∈ skills, s.Category ∈ cs)
      ∧ ∀ id s, GetSkillByID (runSkillOps [(100, .create exSkill),
          (200, .update { exSkill with Category := "Systems" })] Redis.empty) 300 id = .ok s →
        s.Category ∈ cs :=
  categories_cover_stored_skills
    [(100, .create exSkill), (200, .update { exSkill with Category := "Systems" })]
    (by decide) 300

open models in
/-- C15 (counterexample). On the empty store, `CreateSkill` of Languages/Rust followed by
`DeleteSkill` of it: both succeed, no key is left but `skills:categories`, no
skill is stored, and `GetCategories` and `GetSkillsResponse` still list
`Languages`. -/
theorem deleted_skill_category_stays_listed :
    (CreateSkill 100 exSkill Redis.empty).1 = none
    ∧ (DeleteSkill 200 "skill:Languages:Rust" (CreateSkill 100 exSkill Redis.empty).2).1 = none
    ∧ (runSkillOps [(100, .create exSkill), (200, .delete "skill:Languages:Rust")]
        Redis.empty).entries.map (fun p => p.1) = ["skills:categories"]
    ∧ GetAllSkills (runSkillOps [(100, .create exSkill), (200, .delete "skill:Languages:Rust")]
        Redis.empty) 200 = .ok []
    ∧ GetCategories (runSkillOps [(100, .create exSkill), (200, .delete "skill:Languages:Rust")]
        Redis.empty) 200 = .ok ["Languages"]
    ∧ GetSkillsResponse (runSkillOps [(100, .create exSkill),
        (200, .delete "skill:Languages:Rust")] Redis.empty) 200 = .ok ⟨["Languages"], []⟩ :=
  ⟨rfl, rfl, by decide, rfl, rfl, rfl⟩

/-! ## Skill IDs -/

theorem append_colon_cancel (l1 l2 m1 m2 : List Char) (h1 : ':' ∉ l1) (h2 : ':' ∉ l2)
    (h : l1 ++ ':' :: m1 = l2 ++ ':' :: m2) : l1 = l2 ∧ m1 = m2 := by
  induction l1 generalizing l2 with
  | nil =>
      cases l2 with
      | nil => simpa using h
      | cons b l2 =>
          simp only [List.nil_append, List.cons_append, List.cons.injEq] at h
          exact absurd (by simp [← h.1]) h2
  | cons a l1 ih =>
      cases l2 with
      | nil =>
          simp only [List.nil_append, List.cons_append, List.cons.injEq] at h
          exact absurd (by simp [h.1]) h1
      | cons b l2 =>
          simp only [List.cons_append, List.cons.injEq] at h
          obtain ⟨hab, ht⟩ := h
          obtain ⟨e1, e2⟩ := ih l2 (fun hm => h1 (List.mem_cons_of_mem _ hm))
            (fun hm => h2 (List.mem_cons_of_mem _ hm)) ht
          exact ⟨by rw [hab, e1], e2⟩

open models in
/-- Two pairs whose categories hold no colon and that differ get different skill IDs. -/
theorem generateSkillID_injective_of_no_colon (c1 n1 c2 n2 : String)
    (h1 : ':' ∉ c1.data) (h2 : ':' ∉ c2.data)
    (h : generateSkillID c1 n1 = generateSkillID c2 n2) : c1 = c2 ∧ n1 = n2 := by
  unfold generateSkillID at h
  have hd := congrArg String.data h
  simp only [String.data_append, List.append_assoc, List.append_cancel_left_eq] at hd
  obtain ⟨e1, e2⟩ := append_colon_cancel _ _ _ _ h1 h2 hd
  exact ⟨String.ext e1, String.ext e2⟩

open models in
/-- C16 (failing input). The pairs (`a:b`, `c`) and (`a`, `b:c`) differ and get the same
skill ID `skill:a:b:c`; creating the second skill replaces the record of the
first. -/
theorem generateSkillID_collision :
    ("a:b", "c") ≠ ("a", "b:c")
    ∧ generateSkillID "a:b" "c" = "skill:a:b:c"
    ∧ generateSkillID "a" "b:c" = "skill:a:b:c"
    ∧ (CreateSkill 100 (NewSkill 100 "a:b" "c" "/1.svg") Redis.empty).1 = none
    ∧ (CreateSkill 100 (NewSkill 100 "a" "b:c" "/2.svg")
        (CreateSkill 100 (NewSkill 100 "a:b" "c" "/1.svg") Redis.empty).2).1 = none
    ∧ GetSkillByID (CreateSkill 100 (NewSkill 100 "a" "b:c" "/2.svg")
        (CreateSkill 100 (NewSkill 100 "a:b" "c" "/1.svg") Redis.empty).2).2 100 "skill:a:b:c"
      = .ok (NewSkill 100 "a" "b:c" "/2.svg") :=
  ⟨by decide, by decide, by decide, rfl, rfl, rfl⟩

/-! ## Bulk readers and missing IDs -/

open models in
theorem decodeSlots_guard {α : Type} (dec : StrVal → Option α) (r : Redis) (now : Nat)
    (ids : List String) :
    (if ids.length = 0 then (.ok [] : Except RepoErr (List α))
      else decodeSlots dec (r.mget now ids)) = decodeSlots dec (r.mget now ids) := by
  cases ids with
  | nil => rfl
  | cons a l => simp

open models in
/-- The decoded slot of an ID is what the read by ID returns. -/
theorem slot_bind_eq_getByID {α : Type} (dec : StrVal → Option α) (r : Redis) (now : Nat)
    (id : String) : (r.slot now id).bind dec = (getByID dec r now id).toOption := by
  unfold Redis.slot getByID Redis.get
  cases hf : r.find now id with
  | none => rfl
  | some e =>
      obtain ⟨val, ex⟩ := e
      cases val with
      | set ms => rfl
      | zset ms => rfl
      | str v =>
          simp only [Option.some_bind]
          cases hd : dec v <;> rfl

open models in
theorem decodeSlots_filter_isSome {α : Type} (dec : StrVal → Option α)
    (slots : List (Option StrVal)) :
    decodeSlots dec (slots.filter (fun o => o.isSome)) = decodeSlots dec slots := by
  induction slots with
  | nil => rfl
  | cons o rest ih =>
      cases o with
      | none => simpa [decodeSlots] using ih
      | some v => simp [decodeSlots, ih]

open models in
theorem decodeSlots_of_undecodable {α : Type} (dec : StrVal → Option α)
    (slots : List (Option StrVal)) (v : StrVal) (hv : some v ∈ slots) (hd : dec v = none) :
    decodeSlots dec slots = .error .unmarshal := by
  induction slots with
  | nil => cases hv
  | cons o rest ih =>
      cases o with
      | none =>
          simp only [List.mem_cons] at hv
          rcases hv with hv | hv
          · cases hv
          · simpa [decodeSlots] using ih hv
      | some w =>
          simp only [List.mem_cons, Option.some.injEq] at hv
          cases hw : dec w with
          | none => simp [decodeSlots, hw]
          | some a =>
              rcases hv with hv | hv
              · rw [← hv, hd] at hw
                cases hw
              · simp [decodeSlots, hw, ih hv]

open models in
/-- What the loop shared by the bulk readers returns for a list of IDs: IDs without a
string value play no role, the result is the list of the records that the read
by ID returns, in the order of the IDs, unless a stored string does not decode,
and then the error is the unmarshal error. -/
theorem decodeSlots_mget {α : Type} (dec : StrVal → Option α) (r : Redis) (now : Nat)
    (ids : List String) :
    decodeSlots dec (r.mget now ids)
        = decodeSlots dec (r.mget now (ids.filter (fun id => (r.slot now id).isSome)))
    ∧ ((∀ id ∈ ids, ∀ v, r.slot now id = some v → dec v ≠ none) →
        decodeSlots dec (r.mget now ids)
          = .ok (ids.filterMap (fun id => (getByID dec r now id).toOption)))
    ∧ ((∃ id ∈ ids, ∃ v, r.slot now id = some v ∧ dec v = none) →
        decodeSlots dec (r.mget now ids) = .error .unmarshal) := by
  refine ⟨?_, ?_, ?_⟩
  · rw [Redis.mget_eq_map, Redis.mget_eq_map, ← decodeSlots_filter_isSome dec (ids.map _),
      List.filter_map]
    rfl
  · intro hall
    rw [decodeSlots_of_all dec _ (by
      intro v hv
      rw [Redis.mget_eq_map, List.mem_map] at hv
      obtain ⟨id, hid, hs⟩ := hv
      exact hall id hid v hs)]
    rw [Redis.mget_eq_map, List.filterMap_map]
    congr 1
    apply List.filterMap_congr
    intro id _
    exact slot_bind_eq_getByID dec r now id
  · rintro ⟨id, hid, v, hs, hd⟩
    apply decodeSlots_of_undecodable dec _ v _ hd
    rw [Redis.mget_eq_map, List.mem_map]
    exact ⟨id, hid, hs⟩
open models in
/-- C17 (amended). For every store, time and list of IDs, `getProjectsByIDs` and `getPostsByIDs`
return the same as for the list without the IDs that hold no string (a missing
ID never makes them fail); when every string stored under a requested ID
decodes they return the records that the read by ID returns for the requested
IDs, in the order of the list; the only failure is the unmarshal error of a
stored string that does not decode.  The same holds for `GetSkillsByCategory`
with the members of the category set as the list of IDs. -/
theorem bulk_readers_skip_missing (r : Redis) (now : Nat) (ids : List String) :
    (getProjectsByIDs r now ids
        = getProjectsByIDs r now (ids.filter (fun id => (r.slot now id).isSome))
      ∧ ((∀ id ∈ ids, ∀ v, r.slot now id = some v → Project.FromJSON v ≠ none) →
          getProjectsByIDs r now ids
            = .ok (ids.filterMap (fun id => (GetProjectByID r now id).toOption)))
      ∧ ((∃ id ∈ ids, ∃ v, r.slot now id = some v ∧ Project.FromJSON v = none) →
          getProjectsByIDs r now ids = .error .unmarshal))
    ∧ (getPostsByIDs r now ids
        = getPostsByIDs r now (ids.filter (fun id => (r.slot now id).isSome))
      ∧ ((∀ id ∈ ids, ∀ v, r.slot now id = some v → BlogPost.FromJSON v ≠ none) →
          getPostsByIDs r now ids
            = .ok (ids.filterMap (fun id => (GetPostByID r now id).toOption)))
      ∧ ((∃ id ∈ ids, ∃ v, r.slot now id = some v ∧ BlogPost.FromJSON v = none) →
          getPostsByIDs r now ids = .error .unmarshal))
    ∧ ∀ category, r.smembers now ("skills:category:" ++ category) = .ok ids →
        GetSkillsByCategory r now category
          = decodeSlots Skill.FromJSON
              (r.mget now (ids.filter (fun id => (r.slot now id).isSome)))
        ∧ ((∀ id ∈ ids, ∀ v, r.slot now id = some v → Skill.FromJSON v ≠ none) →
            GetSkillsByCategory r now category
              = .ok (ids.filterMap (fun id => (GetSkillByID r now id).toOption)))
        ∧ ((∃ id ∈ ids, ∃ v, r.slot now id = some v ∧ Skill.FromJSON v = none) →
            GetSkillsByCategory r now category = .error .unmarshal) := by
  refine ⟨?_, ?_, ?_⟩
  · unfold getProjectsByIDs
    rw [decodeSlots_guard, decodeSlots_guard]
    exact decodeSlots_mget Project.FromJSON r now ids
  · unfold getPostsByIDs
    rw [decodeSlots_guard, decodeSlots_guard]
    exact decodeSlots_mget BlogPost.FromJSON r now ids
  · intro category hm
    have h : GetSkillsByCategory r now category
        = decodeSlots Skill.FromJSON (r.mget now ids) := by
      unfold GetSkillsByCategory
      rw [hm]
      exact decodeSlots_guard Skill.FromJSON r now ids
    rw [h]
    exact decodeSlots_mget Skill.FromJSON r now ids

open models in
theorem bulk_readers_skip_missing_witness :
    getPostsByIDs storeWithPost 200 ["missing", "blog:modern-css", "gone"] = .ok [exPost] :=
  (bulk_readers_skip_missing storeWithPost 200 ["missing", "blog:modern-css", "gone"]).2.1.2.1
    (fun id hid v hs => by
      simp only [List.mem_cons, List.mem_singleton, List.not_mem_nil, or_false] at hid
      rcases hid with rfl | rfl | rfl
      · exact absurd hs (by
          rw [show Redis.slot storeWithPost 200 "missing" = none from rfl]
          simp)
      · have hv : some exPost.ToJSON = some v := hs
        cases hv
        rw [blogPost_fromJSON_toJSON exPost (by decide)]
        simp
      · exact absurd hs (by
          rw [show Redis.slot storeWithPost 200 "gone" = none from rfl]
          simp))

/-! ## Latest entities -/

theorem zrevBefore_isTotal : IsTotal (String × Int) zrevBefore :=
  ⟨fun a b => by
    unfold zrevBefore
    rcases lt_trichotomy a.2 b.2 with h | h | h
    · exact Or.inr (Or.inl h)
    · rcases le_total a.1 b.1 with h1 | h1
      · exact Or.inr (Or.inr ⟨h, h1⟩)
      · exact Or.inl (Or.inr ⟨h.symm, h1⟩)
    · exact Or.inl (Or.inl h)⟩

theorem zrevBefore_isTrans : IsTrans (String × Int) zrevBefore :=
  ⟨fun a b c hab hbc => by
    unfold zrevBefore at *
    rcases hab with h1 | ⟨h1, h2⟩ <;> rcases hbc with h3 | ⟨h3, h4⟩
    · exact Or.inl (lt_trans h3 h1)
    · exact Or.inl (by omega)
    · exact Or.inl (by omega)
    · exact Or.inr ⟨by omega, le_trans h4 h2⟩⟩

/-- The order of `ZREVRANGE` lists the members of the set, each once, by descending
score. -/
theorem zsetDescending_spec (ms : List (String × Int)) :
    (zsetDescending ms).Perm ms
    ∧ (zsetDescending ms).Pairwise (fun a b => b.2 ≤ a.2) := by
  refine ⟨List.perm_insertionSort _ _, ?_⟩
  haveI := zrevBefore_isTotal
  haveI := zrevBefore_isTrans
  have h := List.sorted_insertionSort zrevBefore ms
  refine List.Pairwise.imp ?_ h
  intro a b hab
  unfold zrevBefore at hab
  rcases hab with h1 | ⟨h1, -⟩ <;> omega

/-- Every member among the first `n` has a score at least that of every later member. -/
theorem zsetDescending_take_drop (ms : List (String × Int)) (n : Nat) :
    ∀ a ∈ (zsetDescending ms).take n, ∀ b ∈ (zsetDescending ms).drop n, b.2 ≤ a.2 := by
  have h := (zsetDescending_spec ms).2
  rw [← List.take_append_drop n (zsetDescending ms), List.pairwise_append] at h
  exact h.2.2

theorem wrapInt64_of_isInt64 (n : Int) (h : isInt64 n) : models.wrapInt64 n = n := by
  unfold isInt64 at h
  unfold models.wrapInt64
  omega

/-- For a count of at least one, `ZREVRANGE k 0 (count-1)` is `topIDs`. -/
theorem zrevrange_top (r : Redis) (now : Nat) (k : String) (count : Int) (h1 : 1 ≤ count)
    (hw : r.find now k = none ∨ ∃ ms ex, r.find now k = some ⟨.zset ms, ex⟩) :
    r.zrevrange now k 0 (count - 1) = .ok (topIDs r now k count) := by
  rcases hw with hn | ⟨ms, ex, hz⟩
  · simp [Redis.zrevrange, topIDs, hn]
  · have hlen : (zsetDescending ms).length = ms.length := (zsetDescending_spec ms).1.length_eq
    simp only [Redis.zrevrange, topIDs, hz]
    have hs : ¬ (count - 1 < 0) := by omega
    simp only [lt_self_iff_false, if_false, if_neg hs]
    by_cases hempty : (0 : Int) > min (count - 1) ((ms.length : Int) - 1) ∨ (0 : Int) ≥ ms.length
    · rw [if_pos hempty]
      have h0 : ms.length = 0 := by omega
      have : zsetDescending ms = [] := List.eq_nil_of_length_eq_zero (by omega)
      simp [this]
    · rw [if_neg hempty]
      simp only [Int.toNat_zero, List.drop_zero, sub_zero]
      congr 2
      by_cases hc : count - 1 ≤ (ms.length : Int) - 1
      · rw [min_eq_left hc]
        congr 1
        omega
      · rw [min_eq_right (by omega)]
        rw [List.take_of_length_le (by omega), List.take_of_length_le (by omega)]

theorem topIDs_length (r : Redis) (now : Nat) (k : String) (count : Int) (h0 : 0 ≤ count) :
    ((topIDs r now k count).length : Int) ≤ count := by
  unfold topIDs
  split
  · simp only [List.length_map, List.length_take]
    omega
  · simpa using h0

open models in
theorem decodeSlots_length {α : Type} (dec : StrVal → Option α) (slots : List (Option StrVal))
    (l : List α) (h : decodeSlots dec slots = .ok l) : l.length ≤ slots.length := by
  rw [(decodeSlots_ok dec slots l h).2]
  exact List.length_filterMap_le _ _

open models in
/-- C18 (amended). Let the count be a Go `int` of at least one and let the date-ordered
sorted set be missing or a sorted set.  `GetLatestProjects` and `GetLatestPosts`
read the IDs of `topIDs` (the first `count` members in descending score order:
`zsetDescending_spec`, `zsetDescending_take_drop`) and return what the bulk
reader returns for them: at most `count` records and, when every string stored
under these IDs decodes, the stored records of these IDs in that order. -/
theorem latest_reads_top_count (r : Redis) (now : Nat) (count : Int) (h1 : 1 ≤ count)
    (hmax : count ≤ 9223372036854775807) :
    ((r.find now "projects:by_date" = none
        ∨ ∃ ms ex, r.find now "projects:by_date" = some ⟨.zset ms, ex⟩) →
      GetLatestProjects r now count
          = getProjectsByIDs r now (topIDs r now "projects:by_date" count)
      ∧ (∀ l, GetLatestProjects r now count = .ok l → (l.length : Int) ≤ count)
      ∧ ((∀ id ∈ topIDs r now "projects:by_date" count, ∀ v, r.slot now id = some v →
            Project.FromJSON v ≠ none) →
          GetLatestProjects r now count
            = .ok ((topIDs r now "projects:by_date" count).filterMap
                (fun id => (GetProjectByID r now id).toOption))))
    ∧ ((r.find now "blog:by_date" = none
        ∨ ∃ ms ex, r.find now "blog:by_date" = some ⟨.zset ms, ex⟩) →
      GetLatestPosts r now count = getPostsByIDs r now (topIDs r now "blog:by_date" count)
      ∧ (∀ l, GetLatestPosts r now count = .ok l → (l.length : Int) ≤ count)
      ∧ ((∀ id ∈ topIDs r now "blog:by_date" count, ∀ v, r.slot now id = some v →
            BlogPost.FromJSON v ≠ none) →
          GetLatestPosts r now count
            = .ok ((topIDs r now "blog:by_date" count).filterMap
                (fun id => (GetPostByID r now id).toOption)))) := by
  have hw : wrapInt64 (count - 1) = count - 1 :=
    wrapInt64_of_isInt64 _ (by unfold isInt64; omega)
  have hbound : ∀ {α : Type} (dec : StrVal → Option α) (k : String) (l : List α),
      decodeSlots dec (r.mget now (topIDs r now k count)) = .ok l → (l.length : Int) ≤ count := by
    intro α dec k l hl
    have h2 := decodeSlots_length dec _ l hl
    have h3 := topIDs_length r now k count (by omega)
    rw [Redis.mget_eq_map, List.length_map] at h2
    omega
  refine ⟨?_, ?_⟩
  · intro hk
    have he : GetLatestProjects r now count
        = decodeSlots Project.FromJSON (r.mget now (topIDs r now "projects:by_date" count)) := by
      simp only [GetLatestProjects, hw, zrevrange_top r now _ count h1 hk, getProjectsByIDs,
        decodeSlots_guard]
    refine ⟨?_, ?_, ?_⟩
    · rw [he, getProjectsByIDs, decodeSlots_guard]
    · intro l hl
      rw [he] at hl
      exact hbound _ _ l hl
    · intro hall
      rw [he]
      exact (decodeSlots_mget Project.FromJSON r now _).2.1 hall
  · intro hk
    have he : GetLatestPosts r now count
        = decodeSlots BlogPost.FromJSON (r.mget now (topIDs r now "blog:by_date" count)) := by
      simp only [GetLatestPosts, hw, zrevrange_top r now _ count h1 hk, getPostsByIDs,
        decodeSlots_guard]
    refine ⟨?_, ?_, ?_⟩
    · rw [he, getPostsByIDs, decodeSlots_guard]
    · intro l hl
      rw [he] at hl
      exact hbound _ _ l hl
    · intro hall
      rw [he]
      exact (decodeSlots_mget BlogPost.FromJSON r now _).2.1 hall

open models in
theorem latest_reads_top_count_witness :
    GetLatestPosts storeWithPost 200 1 = .ok [exPost] :=
  ((latest_reads_top_count storeWithPost 200 1 (by decide) (by decide)).2
    (Or.inr ⟨[("blog:modern-css", 100)], none, rfl⟩)).2.2
    (fun id hid v hs => by
      have hid1 : id ∈ ["blog:modern-css"] := hid
      simp only [List.mem_singleton] at hid1
      subst hid1
      have hv : some exPost.ToJSON = some v := hs
      cases hv
      rw [blogPost_fromJSON_toJSON exPost (by decide)]
      simp)

open models in
/-- C18 (counterexample). With count 0 the stop index of `ZREVRANGE` is -1, the last
member: on the store that holds `exPost`, `GetLatestPosts(0)` returns the post,
one entity for the count zero. -/
theorem getLatestPosts_zero_returns_all :
    storeWithPost.zrevrange 200 "blog:by_date" 0 (wrapInt64 (0 - 1)) = .ok ["blog:modern-css"]
    ∧ GetLatestPosts storeWithPost 200 0 = .ok [exPost]
    ∧ ¬ (([exPost].length : Int) ≤ 0) :=
  ⟨rfl, rfl, by decide⟩

/-! ## Popular posts -/

open models in
/-- C19 (failing input). The store holds two published posts: `blog:old` (time 100, 50
views) and `blog:new` (time 200, 3 views); the view-ordered set `blog:by_views`
has both scores.  `GetPopularPosts` with count 1 answers 200 with `blog:new`,
the latest post, not the post with the most views; with count 2 the order is
the order by date. -/
theorem getPopularPosts_returns_latest :
    (CreatePost 100 exOldPopularPost Redis.empty).1 = none
    ∧ (CreatePost 200 exNewQuietPost (CreatePost 100 exOldPopularPost Redis.empty).2).1 = none
    ∧ storeWithTwoPosts.zscore 300 "blog:by_views" "blog:old" = some 50
    ∧ storeWithTwoPosts.zscore 300 "blog:by_views" "blog:new" = some 3
    ∧ handlers.GetPopularPosts storeWithTwoPosts 300 (some 1) = (200, [exNewQuietPost])
    ∧ handlers.GetPopularPosts storeWithTwoPosts 300 (some 2)
      = (200, [exNewQuietPost, exOldPopularPost])
    ∧ exNewQuietPost.ViewCount < exOldPopularPost.ViewCount :=
  ⟨rfl, rfl, rfl, rfl, rfl, rfl, by decide⟩

/-! ## Order of the commands of an update -/

theorem pipelineExec_snd (now : Nat) (cs : List Cmd) (r : Redis) :
    (pipelineExec now cs r).2 = runCmds now cs r := by
  induction cs generalizing r with
  | nil => rfl
  | cons c cs ih =>
      have hstep : runCmds now (c :: cs) r = runCmds now cs (models.runIgnore now c r) := rfl
      rw [hstep, ← ih]
      cases hc : c.run now r with
      | ok r1 =>
          have h1 : pipelineExec now (c :: cs) r = pipelineExec now cs r1 := by
            simp only [pipelineExec, hc]
          have h2 : models.runIgnore now c r = r1 := by simp [models.runIgnore, hc]
          rw [h1, h2]
      | error e =>
          have h1 : pipelineExec now (c :: cs) r = (some e, (pipelineExec now cs r).2) := by
            simp only [pipelineExec, hc]
          have h2 : models.runIgnore now c r = r := by simp [models.runIgnore, hc]
          rw [h1, h2]

open models in
/-- C20 (amended). Once the existing record is read, the store after `UpdateSkill`,
`UpdateProject` or `UpdatePost` is the store after the commands of
`updateSkillCmds`, `updateProjectCmds` or `updatePostCmds` in order, and each of
these lists starts with the `Set` of the primary key and continues with index
commands only: the write of the primary record precedes every index command. -/
theorem update_writes_record_first (now : Nat) (r : Redis) :
    (∀ skill old, GetSkillByID r now skill.ID = .ok old →
      (UpdateSkill now skill r).2 = runCmds now (updateSkillCmds now old skill) r
      ∧ ∃ v rest, updateSkillCmds now old skill = .set skill.ID v recordTTL :: rest
          ∧ ∀ c ∈ rest, c.isIndex = true)
    ∧ (∀ project old, GetProjectByID r now project.ID = .ok old →
      (UpdateProject now project r).2 = runCmds now (updateProjectCmds now old project) r
      ∧ ∃ v rest, updateProjectCmds now old project = .set project.ID v recordTTL :: rest
          ∧ ∀ c ∈ rest, c.isIndex = true)
    ∧ (∀ post old, GetPostByID r now post.ID = .ok old →
      (UpdatePost now post r).2 = runCmds now (updatePostCmds now old post) r
      ∧ ∃ v rest, updatePostCmds now old post = .set post.ID v recordTTL :: rest
          ∧ ∀ c ∈ rest, c.isIndex = true) := by
  refine ⟨?_, ?_, ?_⟩
  · intro skill old hget
    refine ⟨?_, _, _, rfl, ?_⟩
    · have hset : ∀ (v : StrVal), (Cmd.set skill.ID v recordTTL).run now r
          = .ok (r.put skill.ID ⟨.str v, Redis.setExpiry now recordTTL⟩) := fun _ => rfl
      simp only [UpdateSkill, hget, updateSkillCmds, runCmds, List.foldl_cons, runIgnore, hset]
      split_ifs <;> rfl
    · intro c hc
      split_ifs at hc
      · simp only [List.mem_cons, List.mem_singleton, List.not_mem_nil, or_false] at hc
        rcases hc with rfl | rfl | rfl <;> rfl
      · cases hc
  · intro project old hget
    refine ⟨?_, _, _, rfl, ?_⟩
    · have hset : ∀ (v : StrVal), (Cmd.set project.ID v recordTTL).run now r
          = .ok (r.put project.ID ⟨.str v, Redis.setExpiry now recordTTL⟩) := fun _ => rfl
      have hrun : runCmds now (updateProjectCmds now old project) r
          = runCmds now (updateProjectIndexCmds old { project with UpdatedAt := now })
              (r.put project.ID ⟨.str ({ project with UpdatedAt := now } : Project).ToJSON,
                Redis.setExpiry now recordTTL⟩) := by
        simp only [updateProjectCmds, runCmds, List.foldl_cons, runIgnore, hset]
      rw [hrun, ← pipelineExec_snd]
      simp only [UpdateProject, hget, hset]
      cases hp : pipelineExec now (updateProjectIndexCmds old { project with UpdatedAt := now })
          (r.put project.ID ⟨.str ({ project with UpdatedAt := now } : Project).ToJSON,
            Redis.setExpiry now recordTTL⟩) with
      | mk e r2 => cases e <;> rfl
    · intro c hc
      exact updateProjectIndexCmds_index old _ c hc
  · intro post old hget
    refine ⟨?_, _, _, rfl, ?_⟩
    · have hset : ∀ (v : StrVal), (Cmd.set post.ID v recordTTL).run now r
          = .ok (r.put post.ID ⟨.str v, Redis.setExpiry now recordTTL⟩) := fun _ => rfl
      have hrun : runCmds now (updatePostCmds now old post) r
          = runCmds now (updatePostIndexCmds old { post with UpdatedAt := now })
              (r.put post.ID ⟨.str ({ post with UpdatedAt := now } : BlogPost).ToJSON,
                Redis.setExpiry now recordTTL⟩) := by
        simp only [updatePostCmds, runCmds, List.foldl_cons, runIgnore, hset]
      rw [hrun, ← pipelineExec_snd]
      simp only [UpdatePost, hget, hset]
      cases hp : pipelineExec now (updatePostIndexCmds old { post with UpdatedAt := now })
          (r.put post.ID ⟨.str ({ post with UpdatedAt := now } : BlogPost).ToJSON,
            Redis.setExpiry now recordTTL⟩) with
      | mk e r2 => cases e <;> rfl
    · intro c hc
      exact updatePostIndexCmds_index old _ c hc

open models in
theorem update_writes_record_first_witness :
    (UpdateSkill 200 { exSkill with Category := "Systems" } storeWithSkill).2
      = runCmds 200 (updateSkillCmds 200 exSkill { exSkill with Category := "Systems" })
          storeWithSkill :=
  ((update_writes_record_first 200 storeWithSkill).1 { exSkill with Category := "Systems" }
    exSkill rfl).1

open models in
/-- C20 (counterexample). Moving the skill Rust from Languages to Systems sends four
commands: first the `SET` of the key `skill:Languages:Rust`, then the three
index commands.  Publishing the draft `exPost` sends the `SET` of
`blog:modern-css` and then the `SADD` to the published index.  No index
command precedes the write of the primary key. -/
theorem update_index_commands_follow_set :
    (updateSkillCmds 200 exSkill { exSkill with Category := "Systems" }).map Cmd.setKey
      = [some "skill:Languages:Rust", none, none, none]
    ∧ (updateSkillCmds 200 exSkill { exSkill with Category := "Systems" }).map Cmd.isIndex
      = [false, true, true, true]
    ∧ (updatePostCmds 200 exPost exPublishedPost).map Cmd.setKey = [some "blog:modern-css", none]
    ∧ (updatePostCmds 200 exPost exPublishedPost).map Cmd.isIndex = [false, true]
    ∧ (UpdateSkill 200 { exSkill with Category := "Systems" } storeWithSkill).1 = none
    ∧ (UpdatePost 200 exPublishedPost storeWithPost).1 = none :=
  ⟨by decide, by decide, by decide, by decide, rfl, rfl⟩

open models in
/-- C17 (counterexample). In `storeWithNote` the key `note` is present and holds a string
that is no JSON document: each bulk reader asked for it fails with the unmarshal
error instead of returning records. -/
theorem bulk_reader_fails_on_undecodable_record :
    storeWithNote.mget 100 ["note"] = [some (.text "hello")]
    ∧ getProjectsByIDs storeWithNote 100 ["note"] = .error .unmarshal
    ∧ getPostsByIDs storeWithNote 100 ["note"] = .error .unmarshal
    ∧ storeWithNote.smembers 100 "skills:category:Languages" = .ok ["note"]
    ∧ GetSkillsByCategory storeWithNote 100 "Languages" = .error .unmarshal :=
  ⟨rfl, rfl, rfl, rfl, rfl⟩

/-! ## Create calls that report an error -/

theorem Cmd.runTrip_set (fault : Option RedisErr) (now : Nat) (r r1 : Redis) (k : String)
    (v : StrVal) (ttl : Int) (h : Cmd.runTrip fault now r (.set k v ttl) = .ok r1) :
    r1 = r.put k ⟨.str v, Redis.setExpiry now ttl⟩ := by
  cases fault with
  | some e => simp [Cmd.runTrip] at h
  | none =>
      simp only [Cmd.runTrip, Cmd.run, Except.ok.injEq] at h
      exact h.symm

theorem Cmd.runTrip_index_keeps_str (fault : Option RedisErr) (now : Nat) (c : Cmd)
    (hc : c.isIndex = true) (r r1 : Redis) (id : String) (v : StrVal) (ex : Option Nat)
    (hl : r.entries.lookup id = some ⟨.str v, ex⟩) (ha : Redis.live now ⟨.str v, ex⟩ = true)
    (hrun : Cmd.runTrip fault now r c = .ok r1) :
    r1.entries.lookup id = some ⟨.str v, ex⟩ := by
  cases fault with
  | some e => simp [Cmd.runTrip] at hrun
  | none => exact Cmd.run_index_keeps_str now c hc r r1 id v ex hl ha hrun

open models in
/-- On a store that answers every round trip, for a skill that marshals, the call with
all error returns leaves the store that `CreateSkill` leaves, and one reports
an error exactly when the other does. -/
theorem CreateSkillWith_noFaults (now : Nat) (skill : Skill) (r : Redis) :
    (CreateSkillWith noFaults now skill r).2 = (CreateSkill now skill r).2
    ∧ ((CreateSkillWith noFaults now skill r).1 = none ↔ (CreateSkill now skill r).1 = none) := by
  simp only [CreateSkillWith, CreateSkill, noFaults, Cmd.runTrip, Bool.false_eq_true, if_false]
  have hset : (Cmd.set skill.ID skill.ToJSON recordTTL).run now r
      = .ok (r.put skill.ID ⟨.str skill.ToJSON, Redis.setExpiry now recordTTL⟩) := rfl
  simp only [hset]
  cases hb : (Cmd.sadd "skills:categories" skill.Category).run now
      (r.put skill.ID ⟨.str skill.ToJSON, Redis.setExpiry now recordTTL⟩) with
  | error e => simp
  | ok rb =>
      simp only []
      cases hc : (Cmd.sadd ("skills:category:" ++ skill.Category) skill.ID).run now rb with
      | error e => simp
      | ok rc => simp

open models in
/-- On a store that answers every round trip, for a project that marshals, the call
with all error returns leaves the store that `CreateProject` leaves, and one
reports an error exactly when the other does. -/
theorem CreateProjectWith_noFaults (u : String → Int) (now : Nat) (project : Project)
    (r : Redis) :
    (CreateProjectWith noFaults u now project r).2 = (CreateProject u now project r).2
    ∧ ((CreateProjectWith noFaults u now project r).1 = none
        ↔ (CreateProject u now project r).1 = none) := by
  simp only [CreateProjectWith, CreateProject, noFaults, Cmd.runTrip, Bool.false_eq_true,
    if_false]
  have hset : (Cmd.set project.ID project.ToJSON recordTTL).run now r
      = .ok (r.put project.ID ⟨.str project.ToJSON, Redis.setExpiry now recordTTL⟩) := rfl
  simp only [hset]
  cases hp : pipelineExec now (createProjectIndexCmds u project)
      (r.put project.ID ⟨.str project.ToJSON, Redis.setExpiry now recordTTL⟩) with
  | mk e1 r2 => cases e1 <;> simp

open models in
/-- A create call whose marshal step or whose `Set` fails returns that error and has
written nothing. -/
theorem create_fails_before_write (f : Faults) (u : String → Int) (now : Nat) (skill : Skill)
    (project : Project) (r : Redis) :
    (f.marshal = true →
      CreateSkillWith f now skill r = (some .marshal, r)
      ∧ CreateProjectWith f u now project r = (some .marshal, r))
    ∧ (∀ x, f.marshal = false → f.trip 0 = some x →
      CreateSkillWith f now skill r = (some (.save x), r)
      ∧ CreateProjectWith f u now project r = (some (.save x), r)) := by
  refine ⟨?_, ?_⟩
  · intro hm
    simp [CreateSkillWith, CreateProjectWith, hm]
  · intro x hm h0
    simp [CreateSkillWith, CreateProjectWith, hm, h0, Cmd.runTrip]

open models in
/-- C21 (amended). `CreateSkill` and `CreateProject` do not send the record write and the
index updates as one batch: the record is written first, by a `Set` of its
own, the index updates follow, and nothing is undone.  Whenever one of them
returns an error, either the error is the one of the marshal step or of the
`Set` and the store is unchanged, or the error is one of an index update and
the primary record has been written: it is read back under the entity's ID at
any time before its expiry. -/
theorem create_error_unchanged_or_record_written (f : Faults) (now t : Nat) (r r1 : Redis)
    (e : CreateErr) (hexp : t < now + 31536000) :
    (∀ skill : Skill, CreateSkillWith f now skill r = (some e, r1) →
      ((e = .marshal ∨ ∃ x, e = .save x) ∧ r1 = r)
      ∨ ((∃ x, e = .index x) ∧ GetSkillByID r1 t skill.ID = .ok skill))
    ∧ (∀ (unixOfCreatedAt : String → Int) (project : Project), isInt64 project.ViewCount →
      CreateProjectWith f unixOfCreatedAt now project r = (some e, r1) →
      ((e = .marshal ∨ ∃ x, e = .save x) ∧ r1 = r)
      ∨ ((∃ x, e = .index x) ∧ GetProjectByID r1 t project.ID = .ok project)) := by
  refine ⟨?_, ?_⟩
  · intro skill h
    unfold CreateSkillWith at h
    by_cases hm : f.marshal = true
    · simp only [hm, if_true, Prod.mk.injEq, Option.some.injEq] at h
      exact Or.inl ⟨Or.inl h.1.symm, h.2.symm⟩
    · simp only [hm, Bool.false_eq_true, if_false] at h
      cases ha : Cmd.runTrip (f.trip 0) now r (.set skill.ID skill.ToJSON recordTTL) with
      | error x =>
          simp only [ha, Prod.mk.injEq, Option.some.injEq] at h
          exact Or.inl ⟨Or.inr ⟨x, h.1.symm⟩, h.2.symm⟩
      | ok ra =>
          have hra := Cmd.runTrip_set _ _ _ _ _ _ _ ha
          have hlive := Redis.live_recordTTL now now (.str skill.ToJSON) (by omega)
          have h1 : ra.entries.lookup skill.ID
              = some ⟨.str skill.ToJSON, Redis.setExpiry now recordTTL⟩ := by
            rw [hra]
            simp [Redis.lookup_put]
          simp only [ha] at h
          cases hb : Cmd.runTrip (f.trip 1) now ra (.sadd "skills:categories" skill.Category) with
          | error x =>
              simp only [hb, Prod.mk.injEq, Option.some.injEq] at h
              refine Or.inr ⟨⟨x, h.1.symm⟩, ?_⟩
              rw [← h.2]
              exact getByID_of_lookup _ _ _ _ _ _ _ h1 (Redis.live_recordTTL now t _ hexp)
                (skill_fromJSON_toJSON _)
          | ok rb =>
              have h2 := Cmd.runTrip_index_keeps_str _ now
                (.sadd "skills:categories" skill.Category) rfl _ rb skill.ID skill.ToJSON _ h1
                hlive hb
              simp only [hb] at h
              cases hc : Cmd.runTrip (f.trip 2) now rb
                  (.sadd ("skills:category:" ++ skill.Category) skill.ID) with
              | error x =>
                  simp only [hc, Prod.mk.injEq, Option.some.injEq] at h
                  refine Or.inr ⟨⟨x, h.1.symm⟩, ?_⟩
                  rw [← h.2]
                  exact getByID_of_lookup _ _ _ _ _ _ _ h2 (Redis.live_recordTTL now t _ hexp)
                    (skill_fromJSON_toJSON _)
              | ok rc =>
                  simp [hc] at h
  · intro u project hv h
    unfold CreateProjectWith at h
    by_cases hm : f.marshal = true
    · simp only [hm, if_true, Prod.mk.injEq, Option.some.injEq] at h
      exact Or.inl ⟨Or.inl h.1.symm, h.2.symm⟩
    · simp only [hm, Bool.false_eq_true, if_false] at h
      cases ha : Cmd.runTrip (f.trip 0) now r (.set project.ID project.ToJSON recordTTL) with
      | error x =>
          simp only [ha, Prod.mk.injEq, Option.some.injEq] at h
          exact Or.inl ⟨Or.inr ⟨x, h.1.symm⟩, h.2.symm⟩
      | ok ra =>
          have hra := Cmd.runTrip_set _ _ _ _ _ _ _ ha
          have hlive := Redis.live_recordTTL now now (.str project.ToJSON) (by omega)
          have h1 : ra.entries.lookup project.ID
              = some ⟨.str project.ToJSON, Redis.setExpiry now recordTTL⟩ := by
            rw [hra]
            simp [Redis.lookup_put]
          simp only [ha] at h
          cases hb : f.trip 1 with
          | some x =>
              simp only [hb, Prod.mk.injEq, Option.some.injEq] at h
              refine Or.inr ⟨⟨x, h.1.symm⟩, ?_⟩
              rw [← h.2]
              exact getByID_of_lookup _ _ _ _ _ _ _ h1 (Redis.live_recordTTL now t _ hexp)
                (project_fromJSON_toJSON _ hv)
          | none =>
              simp only [hb] at h
              have key := pipelineExec_index_keeps_str now (createProjectIndexCmds u project)
                (by intro c hc; simp [createProjectIndexCmds] at hc
                    rcases hc with h | h | h | h | h <;> subst h <;> rfl)
                ra project.ID project.ToJSON _ h1 hlive
              cases hp : pipelineExec now (createProjectIndexCmds u project) ra with
              | mk e1 r2 =>
                  rw [hp] at key h
                  cases e1 with
                  | none => simp at h
                  | some x =>
                      simp only [Prod.mk.injEq, Option.some.injEq] at h
                      refine Or.inr ⟨⟨x, h.1.symm⟩, ?_⟩
                      rw [← h.2]
                      exact getByID_of_lookup _ _ _ _ _ _ _ key
                        (Redis.live_recordTTL now t _ hexp) (project_fromJSON_toJSON _ hv)

open models in
theorem create_error_unchanged_or_record_written_witness :
    ((CreateErr.index .wrongType = .marshal ∨ ∃ x, CreateErr.index .wrongType = .save x)
        ∧ (CreateSkillWith noFaults 100 exSkill storeBadCategories).2 = storeBadCategories)
    ∨ ((∃ x, CreateErr.index .wrongType = .index x)
        ∧ GetSkillByID (CreateSkillWith noFaults 100 exSkill storeBadCategories).2 100 exSkill.ID
          = .ok exSkill) :=
  (create_error_unchanged_or_record_written noFaults 100 100 storeBadCategories
    (CreateSkillWith noFaults 100 exSkill storeBadCategories).2 (.index .wrongType)
    (by decide)).1 exSkill rfl

open models in
/-- C21 (counterexample). In `storeBadCategories` no skill is stored and `skills:categories`
holds a string: `CreateSkill` of Languages/Rust returns the WRONGTYPE error of
its first index command, and the skill is stored afterwards.  In
`storeBadProjectsAll` no project is stored and `projects:all` holds a string:
`CreateProject` returns the error of the pipeline, the project is stored
afterwards and its ID is in the status set and in both sorted sets. -/
theorem create_error_changes_store :
    GetSkillByID storeBadCategories 100 exSkill.ID = .error .notFound
    ∧ (CreateSkill 100 exSkill storeBadCategories).1 = some (.store .wrongType)
    ∧ GetSkillByID (CreateSkill 100 exSkill storeBadCategories).2 100 exSkill.ID = .ok exSkill
    ∧ GetProjectByID storeBadProjectsAll 100 exProject.ID = .error .notFound
    ∧ (CreateProject (fun _ => 100) 100 exProject storeBadProjectsAll).1
      = some (.store .wrongType)
    ∧ GetProjectByID (CreateProject (fun _ => 100) 100 exProject storeBadProjectsAll).2 100
        exProject.ID = .ok exProject
    ∧ (CreateProject (fun _ => 100) 100 exProject storeBadProjectsAll).2.sismember 100
        "projects:status:Live" exProject.ID = true
    ∧ (CreateProject (fun _ => 100) 100 exProject storeBadProjectsAll).2.zscore 100
        "projects:by_date" exProject.ID = some 100 :=
  ⟨rfl, rfl, rfl, rfl, rfl, rfl, rfl, rfl⟩

/-! ## Status codes of the project handlers -/

/-- C22 (amended). The handlers `GetProjectByID` and `IncrementProjectViews` answer 404
exactly when the repository call returns an error, whatever the error (not
found, a store error such as WRONGTYPE, a record that does not decode, a failed
index pipeline), and 200 otherwise; they never answer 500. -/
theorem project_handlers_404_on_any_error (r : Redis) (now : Nat) (today projectID : String) :
    ((handlers.GetProjectByID r now projectID).1 = 404
        ↔ ∃ e, models.GetProjectByID r now projectID = .error e)
    ∧ ((handlers.GetProjectByID r now projectID).1 = 200
        ↔ ∃ p, models.GetProjectByID r now projectID = .ok p)
    ∧ ((handlers.IncrementProjectViews now today projectID r).1 = 404
        ↔ ∃ e, (models.IncrementProjectViews now projectID r).1 = some e)
    ∧ ((handlers.IncrementProjectViews now today projectID r).1 = 200
        ↔ (models.IncrementProjectViews now projectID r).1 = none)
    ∧ (handlers.GetProjectByID r now projectID).1 ≠ 500
    ∧ (handlers.IncrementProjectViews now today projectID r).1 ≠ 500 := by
  unfold handlers.GetProjectByID handlers.IncrementProjectViews
  cases hg : models.GetProjectByID r now projectID with
  | error e =>
      cases hi : models.IncrementProjectViews now projectID r with
      | mk e1 r1 => cases e1 <;> simp
  | ok p =>
      cases hi : models.IncrementProjectViews now projectID r with
      | mk e1 r1 => cases e1 <;> simp

/-- C22 (counterexample). The store holds one project, so `projects:all` is a set.  A
request for the project ID `projects:all` makes the repository fail with the
store error WRONGTYPE, not with not-found; both handlers answer 404. -/
theorem project_handlers_404_on_store_error :
    models.GetProjectByID storeWithProject 200 "projects:all" = .error (.store .wrongType)
    ∧ (handlers.GetProjectByID storeWithProject 200 "projects:all").1 = 404
    ∧ (models.IncrementProjectViews 200 "projects:all" storeWithProject).1
      = some (.store .wrongType)
    ∧ (handlers.IncrementProjectViews 200 "2024-01-02" "projects:all" storeWithProject).1 = 404 :=
  ⟨rfl, rfl, rfl, rfl⟩

/-! ## Import of a document whose slug is taken -/

theorem importBulkFiles_append (lib : MDLib) (lower : Char → Char) (isSpace : Char → Bool)
    (now : Nat) (a b : List MDImportRequest) (r : Redis) :
    handlers.importBulkFiles lib lower isSpace now (a ++ b) r
      = ((handlers.importBulkFiles lib lower isSpace now a r).1
          ++ (handlers.importBulkFiles lib lower isSpace now b
              (handlers.importBulkFiles lib lower isSpace now a r).2).1,
         (handlers.importBulkFiles lib lower isSpace now b
              (handlers.importBulkFiles lib lower isSpace now a r).2).2) := by
  induction a generalizing r with
  | nil => rfl
  | cons f rest ih =>
      have h1 : handlers.importBulkFiles lib lower isSpace now (f :: (rest ++ b)) r
          = ((handlers.importBulkFile lib lower isSpace now f r).1
              :: (handlers.importBulkFiles lib lower isSpace now (rest ++ b)
                  (handlers.importBulkFile lib lower isSpace now f r).2).1,
             (handlers.importBulkFiles lib lower isSpace now (rest ++ b)
                  (handlers.importBulkFile lib lower isSpace now f r).2).2) := rfl
      have h2 : handlers.importBulkFiles lib lower isSpace now (f :: rest) r
          = ((handlers.importBulkFile lib lower isSpace now f r).1
              :: (handlers.importBulkFiles lib lower isSpace now rest
                  (handlers.importBulkFile lib lower isSpace now f r).2).1,
             (handlers.importBulkFiles lib lower isSpace now rest
                  (handlers.importBulkFile lib lower isSpace now f r).2).2) := rfl
      rw [List.cons_append, h1, h2, ih]
      rfl

theorem importBulkFiles_length (lib : MDLib) (lower : Char → Char) (isSpace : Char → Bool)
    (now : Nat) (files : List MDImportRequest) (r : Redis) :
    (handlers.importBulkFiles lib lower isSpace now files r).1.length = files.length := by
  induction files generalizing r with
  | nil => rfl
  | cons f rest ih => simp [handlers.importBulkFiles, ih]

/-- C23. Let the document of a request parse to a post whose slug is the slug of a stored
post (`GetPostBySlug` finds it).  `ImportMD` answers 409 and the store is the
store before.  In `ImportBulkMD`, wherever the file stands in the batch, if the
slug is stored when its turn comes the file is reported as failed (`slugExists`,
`Success = false`), the store is not changed by it, the files after it are
processed on that store, and the answer is 200 with one result per file. -/
theorem import_of_stored_slug_conflicts (lib : MDLib) (lower : Char → Char)
    (isSpace : Char → Bool) (now : Nat) (request : MDImportRequest)
    (post existing : models.BlogPost) (r : Redis)
    (hparse : handlers.parseMDContent lib lower isSpace now request.Content = some post) :
    (models.GetPostBySlug r now post.Slug = .ok existing →
      handlers.ImportMD lib lower isSpace now (some request) r = (409, r))
    ∧ ∀ before after : List MDImportRequest,
        models.GetPostBySlug (handlers.importBulkFiles lib lower isSpace now before r).2 now
          post.Slug = .ok existing →
        handlers.ImportBulkMD lib lower isSpace now (some (before ++ request :: after)) r
          = (200,
              (handlers.importBulkFiles lib lower isSpace now before r).1
                ++ handlers.MDImportResult.slugExists request.Filename post.Slug
                  :: (handlers.importBulkFiles lib lower isSpace now after
                      (handlers.importBulkFiles lib lower isSpace now before r).2).1,
              (handlers.importBulkFiles lib lower isSpace now after
                (handlers.importBulkFiles lib lower isSpace now before r).2).2)
        ∧ (handlers.MDImportResult.slugExists request.Filename post.Slug).Success = false
        ∧ (handlers.ImportBulkMD lib lower isSpace now (some (before ++ request :: after))
            r).2.1.length = (before ++ request :: after).length := by
  refine ⟨?_, ?_⟩
  · intro hstored
    simp only [handlers.ImportMD, hparse, hstored]
  · intro before after hstored
    refine ⟨?_, rfl, ?_⟩
    · simp only [handlers.ImportBulkMD, importBulkFiles_append, handlers.importBulkFiles,
        handlers.importBulkFile, hparse, hstored]
    · simp only [handlers.ImportBulkMD, importBulkFiles_length]

theorem import_of_stored_slug_conflicts_witness :
    handlers.ImportMD exMDLib Char.toLower Char.isWhitespace 200
        (some ⟨"Modern CSS", "modern.md"⟩) storeWithPost = (409, storeWithPost) :=
  (import_of_stored_slug_conflicts exMDLib Char.toLower Char.isWhitespace 200
    ⟨"Modern CSS", "modern.md"⟩
    { ID := "blog:modern-css", Title := "Modern CSS", Slug := "modern-css",
      Content := "Some text of the post.", Excerpt := "Some text of the post.",
      Author := "Serkan Ursavaş", PublishedAt := 200, UpdatedAt := 200, Tags := [],
      ReadingTime := "1 min read", ViewCount := 0, Featured := false, Published := true,
      FeaturedImage := "", MetaDescription := "Some text of the post.", MetaKeywords := "" }
    exPost storeWithPost (by decide)).1 rfl

/-! ## Sanitizers: what trimming and collapsing keep -/

theorem trimChar_within (c : Char) (l : List Char) : handlers.trimChar c l <:+: l := by
  unfold handlers.trimChar
  have h1 : l.dropWhile (fun x => x = c) <:+ l := List.dropWhile_suffix _
  have h2 : ((l.dropWhile (fun x => x = c)).reverse.dropWhile (fun x => x = c))
      <:+ (l.dropWhile (fun x => x = c)).reverse := List.dropWhile_suffix _
  have h3 : ((l.dropWhile (fun x => x = c)).reverse.dropWhile (fun x => x = c)).reverse
      <+: l.dropWhile (fun x => x = c) := by
    rw [← List.reverse_suffix, List.reverse_reverse]
    exact h2
  exact h3.isInfix.trans h1.isInfix

theorem chain_of_within (R : Char → Char → Prop) (l1 l2 : List Char) (h : l1 <:+: l2)
    (hc : l2.Chain' R) : l1.Chain' R := by
  obtain ⟨s, t, rfl⟩ := h
  exact hc.left_of_append.right_of_append

theorem chain_take (R : Char → Char → Prop) (n : Nat) (l : List Char) (hc : l.Chain' R) :
    (l.take n).Chain' R := by
  have h : (l.take n ++ l.drop n).Chain' R := by
    rw [List.take_append_drop]
    exact hc
  exact h.left_of_append

theorem trimChar_mem (c : Char) (l : List Char) (x : Char) (h : x ∈ handlers.trimChar c l) :
    x ∈ l :=
  (trimChar_within c l).subset h

theorem trimChar_length (c : Char) (l : List Char) : (handlers.trimChar c l).length ≤ l.length :=
  (trimChar_within c l).length_le

theorem collapseRuns_mem (c : Char) (l : List Char) (x : Char)
    (h : x ∈ handlers.collapseRuns c l) : x ∈ l := by
  induction l using handlers.collapseRuns.induct c with
  | case1 => simp [handlers.collapseRuns] at h
  | case2 y => simpa [handlers.collapseRuns] using h
  | case3 a b rest hab ih =>
      rw [handlers.collapseRuns, if_pos hab] at h
      exact List.mem_cons_of_mem _ (ih h)
  | case4 a b rest hab ih =>
      rw [handlers.collapseRuns, if_neg hab] at h
      rcases List.mem_cons.mp h with h1 | h1
      · rw [h1]
        exact List.mem_cons_self _ _
      · exact List.mem_cons_of_mem _ (ih h1)

/-- Function `BlogHandler.generateSlug` returns lowercase ASCII letters, digits and
hyphens only, whatever the title. -/
theorem handlers_generateSlug_isSlugString (lower : Char → Char) (title : String) :
    isSlugString (handlers.generateSlug lower title) = true := by
  unfold isSlugString handlers.generateSlug
  rw [List.all_eq_true]
  intro x hx
  have h1 := collapseRuns_mem _ _ _ (trimChar_mem _ _ _ hx)
  exact (List.mem_filter.mp h1).2

/-- C24 (failing input). The title `What's New?` gets the slug `what's-new?` from
`generateSlug` of package `models`: the apostrophe and the question mark stay.
The title of the comment, `Modern CSS Techniques`, gets
`modern-css-techniques`; the handler's `generateSlug` removes both characters. -/
theorem models_generateSlug_keeps_unsafe_chars :
    models.generateSlug Char.toLower "What's New?" = "what's-new?"
    ∧ isSlugString (models.generateSlug Char.toLower "What's New?") = false
    ∧ models.generateSlug Char.toLower "Modern CSS Techniques" = "modern-css-techniques"
    ∧ handlers.generateSlug Char.toLower "What's New?" = "whats-new" := by
  decide

/-! ## Reading time -/

/-- Below 200 words both functions return `1 min read`. -/
theorem calculateReadingTime_short (isSpace : Char → Bool) (content : String)
    (h : countFields isSpace content < 200) :
    models.calculateReadingTime isSpace content = "1 min read"
    ∧ handlers.calculateReadingTime isSpace content = "1 min read" := by
  have h0 : countFields isSpace content / 200 = 0 := Nat.div_eq_of_lt h
  simp [models.calculateReadingTime, handlers.calculateReadingTime, h0]

theorem countFieldsFrom_words (n : Nat) :
    countFieldsFrom Char.isWhitespace false (List.replicate n "word ".data).flatten = n := by
  have hw : ("word " : String).data = ['w', 'o', 'r', 'd', ' '] := rfl
  rw [hw]
  induction n with
  | zero => rfl
  | succ k ih =>
      have h1 : Char.isWhitespace 'w' = false := by decide
      have h2 : Char.isWhitespace 'o' = false := by decide
      have h3 : Char.isWhitespace 'r' = false := by decide
      have h4 : Char.isWhitespace 'd' = false := by decide
      have h5 : Char.isWhitespace ' ' = true := by decide
      rw [List.replicate_succ, List.flatten_cons]
      simp only [List.cons_append, List.nil_append, List.append_eq, countFieldsFrom, h1, h2, h3,
        h4, h5, if_true, if_false, Bool.false_eq_true, ih]
      omega

/-- C25 (failing input). For a content of 1200 words `calculateReadingTime` of package
`models` returns the character with code 6 followed by ` min read`, not
`6 min read`; the handler's function returns `6 min read`. -/
theorem models_calculateReadingTime_control_char :
    countFields Char.isWhitespace exContent1200 = 1200
    ∧ models.calculateReadingTime Char.isWhitespace exContent1200
      = String.singleton (Char.ofNat 6) ++ " min read"
    ∧ models.calculateReadingTime Char.isWhitespace exContent1200 ≠ "6 min read"
    ∧ handlers.calculateReadingTime Char.isWhitespace exContent1200 = "6 min read" := by
  have hc : countFields Char.isWhitespace exContent1200 = 1200 := countFieldsFrom_words 1200
  simp only [models.calculateReadingTime, handlers.calculateReadingTime, hc]
  decide

/-! ## Pages of the blog response -/

open models in
/-- While `page * limit` fits a Go `int`, `GetBlogResponse` returns the window of the
published posts that starts at `(page-1)*limit` and holds at most `limit` posts. -/
theorem getBlogResponse_in_range (r : Redis) (now : Nat) (page limit : Int)
    (posts : List BlogPost) (hp : 1 ≤ page) (hl : 1 ≤ limit)
    (hfit : (page - 1) * limit + limit ≤ 9223372036854775807)
    (hposts : GetPublishedPosts r now = .ok posts) :
    GetBlogResponse r now page limit
      = .ok (some ⟨(((sortNewestFirst posts).drop ((page - 1) * limit).toNat).take
            limit.toNat).map BlogPost.ToSummary,
          (sortNewestFirst posts).length, page, limit⟩) := by
  have hnn : 0 ≤ (page - 1) * limit := Int.mul_nonneg (by omega) (by omega)
  have hw1 : wrapInt64 ((page - 1) * limit) = (page - 1) * limit :=
    wrapInt64_of_isInt64 _ (by unfold isInt64; omega)
  have hw2 : wrapInt64 ((page - 1) * limit + limit) = (page - 1) * limit + limit :=
    wrapInt64_of_isInt64 _ (by unfold isInt64; omega)
  simp only [GetBlogResponse, hposts, hw1, hw2]
  obtain ⟨s, hs⟩ : ∃ s : Int, s = (page - 1) * limit := ⟨_, rfl⟩
  rw [← hs] at hnn hfit ⊢
  obtain ⟨l, hl1⟩ : ∃ l : List BlogPost, l = sortNewestFirst posts := ⟨_, rfl⟩
  rw [← hl1]
  by_cases h1 : s ≥ (l.length : Int)
  · rw [if_pos h1]
    have : l.drop s.toNat = [] := List.drop_eq_nil_of_le (by omega)
    simp [this]
  · rw [if_neg h1]
    by_cases h2 : s + limit > (l.length : Int)
    · rw [if_pos h2, if_neg (by omega)]
      have : (l.drop s.toNat).take limit.toNat = l.drop s.toNat :=
        List.take_of_length_le (by rw [List.length_drop]; omega)
      simp [this]
    · rw [if_neg h2, if_neg (by omega)]
      have : (s + limit - s).toNat = limit.toNat := by
        congr 1
        omega
      simp [this]

open models in
/-- C26 (failing input). Two posts are published.  With page 4611686018427387905 and
limit 2, both accepted by the handler, `(page-1)*limit` wraps to the least
`int`, `GetBlogResponse` slices with a negative start and panics, and the
handler's answer is 500.  With the same page and limit 4 the product wraps to
0 and the response holds both posts, although the page lies far behind the
last post. -/
theorem getBlogResponse_overflow :
    wrapInt64 ((4611686018427387905 - 1) * 2) = -9223372036854775808
    ∧ GetBlogResponse storeWithTwoPosts 300 4611686018427387905 2 = .ok none
    ∧ handlers.GetPosts storeWithTwoPosts 300 (some 4611686018427387905) (some 2) = (500, none)
    ∧ wrapInt64 ((4611686018427387905 - 1) * 4) = 0
    ∧ GetBlogResponse storeWithTwoPosts 300 4611686018427387905 4
      = .ok (some ⟨[exNewQuietPost.ToSummary, exOldPopularPost.ToSummary], 2,
          4611686018427387905, 4⟩) :=
  ⟨by decide, rfl, rfl, by decide, rfl⟩

/-! ## The name of a blog image -/

theorem isSlugChar_utf8Size (c : Char) (h : handlers.isSlugChar c = true) : c.utf8Size = 1 := by
  have hv : c.val ≤ 127 := by
    simp only [handlers.isSlugChar, Char.isLower, Char.isDigit, Bool.or_eq_true,
      Bool.and_eq_true, decide_eq_true_eq] at h
    rcases h with (⟨-, h⟩ | ⟨-, h⟩) | h
    · have h1 : c.val.toNat ≤ 122 := h
      show c.val.toNat ≤ 127
      omega
    · have h1 : c.val.toNat ≤ 57 := h
      show c.val.toNat ≤ 127
      omega
    · rw [h]
      decide
  simp [Char.utf8Size, hv]

theorem utf8Len_of_slugChars (l : List Char) (h : ∀ c ∈ l, handlers.isSlugChar c = true) :
    String.utf8Len l = l.length := by
  induction l with
  | nil => rfl
  | cons a t ih =>
      simp only [String.utf8Len_cons, List.length_cons,
        ih (fun c hc => h c (List.mem_cons_of_mem _ hc)),
        isSlugChar_utf8Size a (h a (List.mem_cons_self _ _))]

theorem collapseRuns_head (c x : Char) (rest : List Char) :
    (handlers.collapseRuns c (x :: rest)).head? = some x := by
  induction rest generalizing x with
  | nil => rfl
  | cons y rest ih =>
      by_cases hxy : x = c ∧ y = c
      · rw [handlers.collapseRuns, if_pos hxy, ih y, hxy.1, hxy.2]
      · rw [handlers.collapseRuns, if_neg hxy]
        rfl

theorem collapseRuns_chain (c : Char) (l : List Char) :
    (handlers.collapseRuns c l).Chain' (fun a b => ¬ (a = c ∧ b = c)) := by
  induction l using handlers.collapseRuns.induct c with
  | case1 => simp [handlers.collapseRuns]
  | case2 y => simp [handlers.collapseRuns]
  | case3 a b rest hab ih =>
      rw [handlers.collapseRuns, if_pos hab]
      exact ih
  | case4 a b rest hab ih =>
      rw [handlers.collapseRuns, if_neg hab, List.chain'_cons']
      refine ⟨?_, ih⟩
      intro y hy
      rw [collapseRuns_head] at hy
      simp only [Option.mem_def, Option.some.injEq] at hy
      rw [← hy]
      exact hab

theorem trimChar_ends (c : Char) (l : List Char) :
    (handlers.trimChar c l).head? ≠ some c ∧ (handlers.trimChar c l).getLast? ≠ some c := by
  unfold handlers.trimChar
  obtain ⟨A, hA⟩ : ∃ A, A = l.dropWhile (fun x => decide (x = c)) := ⟨_, rfl⟩
  obtain ⟨B, hB⟩ : ∃ B, B = A.reverse.dropWhile (fun x => decide (x = c)) := ⟨_, rfl⟩
  rw [← hA, ← hB]
  have hBhead : B.head? ≠ some c := by
    have h := List.head?_dropWhile_not (fun x => decide (x = c)) A.reverse
    rw [← hB] at h
    intro hc
    rw [hc] at h
    simp at h
  have hAhead : A.head? ≠ some c := by
    have h := List.head?_dropWhile_not (fun x => decide (x = c)) l
    rw [← hA] at h
    intro hc
    rw [hc] at h
    simp at h
  refine ⟨?_, by rw [List.getLast?_reverse]; exact hBhead⟩
  have hpre : B.reverse <+: A := by
    rw [← List.reverse_suffix, List.reverse_reverse, hB]
    exact List.dropWhile_suffix _
  obtain ⟨t, ht⟩ := hpre
  cases hR : B.reverse with
  | nil => simp
  | cons x R =>
      rw [hR] at ht
      rw [← ht] at hAhead
      simpa using hAhead

theorem trimChar_ne_nil (c x : Char) (t : List Char) (hx : x ≠ c) :
    handlers.trimChar c (x :: t) ≠ [] := by
  unfold handlers.trimChar
  have h1 : (x :: t).dropWhile (fun y => decide (y = c)) = x :: t := by
    simp [List.dropWhile_cons, hx]
  rw [h1]
  intro h
  rw [List.reverse_eq_nil_iff, List.dropWhile_eq_nil_iff] at h
  have := h x (by simp)
  simp [hx] at this
/-- The last steps shared by the two blog sanitizers (collapse, trim, fallback for the
empty name, cut at sixty) give a `CleanName`. -/
theorem cleanName_finish (fb f : List Char) (hfb : CleanName fb)
    (hf : ∀ c ∈ f, handlers.isSlugChar c = true) :
    CleanName
      (if (if handlers.trimChar '-' (handlers.collapseRuns '-' f) = [] then fb
            else handlers.trimChar '-' (handlers.collapseRuns '-' f)).length > 60
        then handlers.trimChar '-'
          ((if handlers.trimChar '-' (handlers.collapseRuns '-' f) = [] then fb
            else handlers.trimChar '-' (handlers.collapseRuns '-' f)).take 60)
        else (if handlers.trimChar '-' (handlers.collapseRuns '-' f) = [] then fb
            else handlers.trimChar '-' (handlers.collapseRuns '-' f))) := by
  obtain ⟨n3, hn3⟩ : ∃ n3, n3 = handlers.trimChar '-' (handlers.collapseRuns '-' f) := ⟨_, rfl⟩
  rw [← hn3]
  have h3slug : ∀ c ∈ n3, handlers.isSlugChar c = true := by
    intro c hc
    rw [hn3] at hc
    exact hf c (collapseRuns_mem _ _ _ (trimChar_mem _ _ _ hc))
  have h3chain : n3.Chain' (fun a b => ¬ (a = '-' ∧ b = '-')) := by
    rw [hn3]
    exact chain_of_within _ _ _ (trimChar_within _ _) (collapseRuns_chain '-' f)
  have h3ends : n3.head? ≠ some '-' ∧ n3.getLast? ≠ some '-' := by
    rw [hn3]
    exact trimChar_ends _ _
  obtain ⟨n4, hn4⟩ : ∃ n4, n4 = if n3 = [] then fb else n3 := ⟨_, rfl⟩
  rw [← hn4]
  have h4 : n4 ≠ [] ∧ (∀ c ∈ n4, handlers.isSlugChar c = true)
      ∧ n4.Chain' (fun a b => ¬ (a = '-' ∧ b = '-'))
      ∧ n4.head? ≠ some '-' ∧ n4.getLast? ≠ some '-' := by
    by_cases he : n3 = []
    · rw [hn4, if_pos he]
      exact ⟨hfb.1, hfb.2.2.1, hfb.2.2.2.1, hfb.2.2.2.2⟩
    · rw [hn4, if_neg he]
      exact ⟨he, h3slug, h3chain, h3ends⟩
  obtain ⟨hne, hslug, hchain, hhead, hlast⟩ := h4
  by_cases hlen : n4.length > 60
  · rw [if_pos hlen]
    have hsub : ∀ c ∈ handlers.trimChar '-' (n4.take 60), c ∈ n4 :=
      fun c hc => List.mem_of_mem_take (trimChar_mem _ _ _ hc)
    refine ⟨?_, ?_, fun c hc => hslug c (hsub c hc), ?_, trimChar_ends _ _⟩
    · cases n4 with
      | nil => exact absurd rfl hne
      | cons x t =>
          have hx : x ≠ '-' := by
            intro hx
            apply hhead
            simp [hx]
          have : (x :: t).take 60 = x :: t.take 59 := rfl
          rw [this]
          exact trimChar_ne_nil _ _ _ hx
    · have := trimChar_length '-' (n4.take 60)
      have h60 := List.length_take_le 60 n4
      omega
    · exact chain_of_within _ _ _ (trimChar_within _ _) (chain_take _ 60 n4 hchain)
  · rw [if_neg hlen]
    exact ⟨hne, by omega, hslug, hchain, hhead, hlast⟩

theorem cleanName_image : CleanName "image".data := by
  unfold CleanName
  refine ⟨by decide, by decide, by decide, ?_, by decide, by decide⟩
  have hd : ("image" : String).data = ['i', 'm', 'a', 'g', 'e'] := rfl
  rw [hd]
  simp

theorem hasInfix_dots_count (l : List Char) (h : hasInfix ['.', '.'] l = true) :
    2 ≤ l.count '.' := by
  induction l with
  | nil => simp [hasInfix] at h
  | cons a t ih =>
      simp only [hasInfix, Bool.or_eq_true] at h
      rcases h with h | h
      · cases t with
        | nil => simp [List.isPrefixOf] at h
        | cons b t2 =>
            simp only [List.isPrefixOf, Bool.and_eq_true, beq_iff_eq] at h
            obtain ⟨h1, h2, -⟩ := h
            rw [← h1, ← h2]
            simp
      · have := ih h
        have hc := List.count_le_count_cons '.' a t
        omega

/-- C27. For every input string, `sanitizeBlogImageName` returns a non-empty string of at
most 60 bytes made of lowercase ASCII letters, digits and hyphens only, without
two hyphens in a row and without a hyphen at either end; so the file name
`blog-<name><ext>` with an extension of the allow-list holds no `/` and no
`..`. -/
theorem sanitizeBlogImageName_safe (lower : Char → Char) (name : String) :
    handlers.sanitizeBlogImageName lower name ≠ ""
    ∧ (handlers.sanitizeBlogImageName lower name).utf8ByteSize ≤ 60
    ∧ isSlugString (handlers.sanitizeBlogImageName lower name) = true
    ∧ (handlers.sanitizeBlogImageName lower name).data.Chain' (fun a b => ¬ (a = '-' ∧ b = '-'))
    ∧ (handlers.sanitizeBlogImageName lower name).data.head? ≠ some '-'
    ∧ (handlers.sanitizeBlogImageName lower name).data.getLast? ≠ some '-'
    ∧ ∀ ext, handlers.blogAllowedExts.contains ext = true →
        '/' ∉ ("blog-" ++ handlers.sanitizeBlogImageName lower name ++ ext).data
        ∧ stringsContains ("blog-" ++ handlers.sanitizeBlogImageName lower name ++ ext) ".."
          = false := by
  have hclean : CleanName (handlers.sanitizeBlogImageName lower name).data := by
    unfold handlers.sanitizeBlogImageName
    exact cleanName_finish "image".data _ cleanName_image
      (fun c hc => (List.mem_filter.mp hc).2)
  obtain ⟨s, hs⟩ : ∃ s, s = handlers.sanitizeBlogImageName lower name := ⟨_, rfl⟩
  rw [← hs] at hclean ⊢
  obtain ⟨hne, hlen, hslug, hchain, hhead, hlast⟩ := hclean
  refine ⟨?_, ?_, ?_, hchain, hhead, hlast, ?_⟩
  · intro h
    apply hne
    rw [h]
  · rw [utf8ByteSize_eq, utf8Len_of_slugChars _ hslug]
    exact hlen
  · unfold isSlugString
    rw [List.all_eq_true]
    exact hslug
  · intro ext hext
    have hslash : '/' ∉ s.data := by
      intro hm
      have := hslug _ hm
      exact absurd this (by decide)
    have hdot : s.data.count '.' = 0 := by
      rw [List.count_eq_zero]
      intro hm
      have := hslug _ hm
      exact absurd this (by decide)
    simp only [handlers.blogAllowedExts, List.contains_cons, List.contains_nil, Bool.or_false,
      Bool.or_eq_true, beq_iff_eq] at hext
    have hfacts : '/' ∉ ext.data ∧ ext.data.count '.' = 1 := by
      rcases hext with rfl | rfl | rfl | rfl | rfl <;> exact ⟨by decide, by decide⟩
    refine ⟨?_, ?_⟩
    · simp only [String.data_append, List.mem_append, not_or]
      exact ⟨⟨by decide, hslash⟩, hfacts.1⟩
    · cases hc : stringsContains ("blog-" ++ s ++ ext) ".." with
      | false => rfl
      | true =>
          have h2 := hasInfix_dots_count _ hc
          have h0 : ("blog-" : String).data.count '.' = 0 := by decide
          rw [String.data_append, String.data_append, List.count_append, List.count_append,
            hdot, hfacts.2, h0] at h2
          omega

theorem sanitizeBlogImageName_safe_witness :
    '/' ∉ ("blog-" ++ handlers.sanitizeBlogImageName Char.toLower "../Çok Güzel  Yazı!"
        ++ ".png").data
    ∧ stringsContains ("blog-" ++ handlers.sanitizeBlogImageName Char.toLower
        "../Çok Güzel  Yazı!" ++ ".png") ".." = false :=
  (sanitizeBlogImageName_safe Char.toLower "../Çok Güzel  Yazı!").2.2.2.2.2.2 ".png"
    (by decide)

/-! ## Cleanup of project images and the files of other projects -/

/-- C28 (failing input). The projects `project:404 Squad` and `project:404 Squad v2` have
different sanitized IDs; the directory holds the image of the second,
`project-404-squad-v2-main.png`.  `cleanupOldProjectImages` for the first
project globs `project-404-squad-*`, which matches that file, and renames it to
`project-404-squad-v2-backup.png`; after an image upload for the first project
the second project's image file is gone under its name. -/
theorem cleanup_renames_other_project_image :
    stringsToLower Char.toLower (replaceAllChar ' ' '-' (replaceAllChar ':' '-' "project:404 Squad"))
      ≠ stringsToLower Char.toLower
          (replaceAllChar ' ' '-' (replaceAllChar ':' '-' "project:404 Squad v2"))
    ∧ handlers.generateProjectImageName Char.toLower "project:404 Squad v2" ".png"
      = "project-404-squad-v2-main.png"
    ∧ diskWithSquadV2.read "./uploads" "project-404-squad-v2-main.png" = some "image of v2"
    ∧ handlers.cleanupOldProjectImages prefixStarMatch Char.toLower "project:404 Squad"
        diskWithSquadV2
      = [⟨"./uploads", "project-404-squad-v2-backup.png", "image of v2"⟩]
    ∧ (uploadProjectImage prefixStarMatch Char.toLower 100 "project:404 Squad" ⟨"new.png", 9⟩
        "image of v1" ⟨Redis.empty, diskWithSquadV2⟩).2.disk
      = [⟨"./uploads", "project-404-squad-main.png", "image of v1"⟩,
         ⟨"./uploads", "project-404-squad-v2-backup.png", "image of v2"⟩]
    ∧ (uploadProjectImage prefixStarMatch Char.toLower 100 "project:404 Squad" ⟨"new.png", 9⟩
        "image of v1" ⟨Redis.empty, diskWithSquadV2⟩).2.disk.read "./uploads"
        "project-404-squad-v2-main.png" = none := by
  decide

/-! ## Icon file names of skills -/

theorem string_append_right_cancel (a b e : String) (h : a ++ e = b ++ e) : a = b := by
  have hd := congrArg String.data h
  simp only [String.data_append, List.append_cancel_right_eq] at hd
  exact String.ext hd

theorem isSlugChar_isSkillNameChar (c : Char) (h : handlers.isSlugChar c = true) :
    handlers.isSkillNameChar c = true := by
  simp only [handlers.isSlugChar, Bool.or_eq_true, decide_eq_true_eq] at h
  simp only [handlers.isSkillNameChar, Char.isAlphanum, Char.isAlpha, Bool.or_eq_true,
    decide_eq_true_eq]
  rcases h with (h | h) | h
  · exact Or.inl (Or.inl (Or.inr h))
  · exact Or.inl (Or.inr h)
  · exact Or.inr h

/-- A name of lowercase ASCII letters, digits and hyphens is its own sanitized form. -/
theorem skill_name_sanitized_self (lower : Char → Char)
    (hlower : ∀ c, handlers.isSlugChar c = true → lower c = c) (a : String)
    (ha : isSlugString a = true) :
    String.mk ((stringsToLower lower (replaceAllChar ' ' '-' a)).data.filter
      handlers.isSkillNameChar) = a := by
  unfold isSlugString at ha
  rw [List.all_eq_true] at ha
  have h1 : a.data.map (fun c => if c = ' ' then '-' else c) = a.data := by
    conv_rhs => rw [← List.map_id a.data]
    apply List.map_congr_left
    intro c hc
    have hs := ha c hc
    have : c ≠ ' ' := by
      intro he
      rw [he] at hs
      exact absurd hs (by decide)
    simp [this]
  have h2 : a.data.map lower = a.data := by
    conv_rhs => rw [← List.map_id a.data]
    apply List.map_congr_left
    intro c hc
    simpa using hlower c (ha c hc)
  have h3 : a.data.filter handlers.isSkillNameChar = a.data := by
    rw [List.filter_eq_self]
    intro c hc
    exact isSlugChar_isSkillNameChar c (ha c hc)
  simp only [stringsToLower, replaceAllChar, h1, h2, h3]

/-- ASCII lower-casing leaves lowercase letters, digits and the hyphen as they are. -/
theorem toLower_of_isSlugChar (c : Char) (hc : handlers.isSlugChar c = true) :
    Char.toLower c = c := by
  simp only [handlers.isSlugChar, Bool.or_eq_true, decide_eq_true_eq] at hc
  have hnu : ¬ (c.toNat ≥ 65 ∧ c.toNat ≤ 90) := by
    rcases hc with (hc | hc) | hc
    · simp only [Char.isLower, Bool.and_eq_true, decide_eq_true_eq] at hc
      have h1 : 97 ≤ c.val.toNat := hc.1
      intro hu
      have h2 : c.val.toNat ≤ 90 := hu.2
      omega
    · simp only [Char.isDigit, Bool.and_eq_true, decide_eq_true_eq] at hc
      have h1 : c.val.toNat ≤ 57 := hc.2
      intro hu
      have h2 : 65 ≤ c.val.toNat := hu.1
      omega
    · rw [hc]
      decide
  simp only [Char.toLower]
  rw [if_neg hnu]

/-- C29 (amended). Two skill names get the same icon file name for an extension exactly
when their sanitized forms (spaces to hyphens, lower case, only ASCII letters,
digits and hyphens kept) are equal; in particular two distinct names made of
lowercase ASCII letters, digits and hyphens get distinct file names. -/
theorem generateSkillIconName_eq_iff (lower : Char → Char) (a b ext : String) :
    (handlers.generateSkillIconName lower a ext = handlers.generateSkillIconName lower b ext
      ↔ String.mk ((stringsToLower lower (replaceAllChar ' ' '-' a)).data.filter
            handlers.isSkillNameChar)
          = String.mk ((stringsToLower lower (replaceAllChar ' ' '-' b)).data.filter
            handlers.isSkillNameChar))
    ∧ ((∀ c, handlers.isSlugChar c = true → lower c = c) →
        isSlugString a = true → isSlugString b = true → a ≠ b →
        handlers.generateSkillIconName lower a ext
          ≠ handlers.generateSkillIconName lower b ext) := by
  have hiff : handlers.generateSkillIconName lower a ext
        = handlers.generateSkillIconName lower b ext
      ↔ String.mk ((stringsToLower lower (replaceAllChar ' ' '-' a)).data.filter
            handlers.isSkillNameChar)
          = String.mk ((stringsToLower lower (replaceAllChar ' ' '-' b)).data.filter
            handlers.isSkillNameChar) := by
    unfold handlers.generateSkillIconName
    constructor
    · exact string_append_right_cancel _ _ _
    · intro h
      rw [h]
  refine ⟨hiff, ?_⟩
  intro hlower ha hb hab heq
  have h := hiff.mp heq
  rw [skill_name_sanitized_self lower hlower a ha, skill_name_sanitized_self lower hlower b hb]
    at h
  exact hab h

theorem generateSkillIconName_eq_iff_witness :
    handlers.generateSkillIconName Char.toLower "rust" ".svg"
      ≠ handlers.generateSkillIconName Char.toLower "go" ".svg" :=
  (generateSkillIconName_eq_iff Char.toLower "rust" "go" ".svg").2
    toLower_of_isSlugChar
    (by decide) (by decide) (by decide)

/-- C29 (counterexample). The skill names `C++` and `C` differ and both get the icon
file name `c.png`.  After the icon of `C++` is uploaded, the upload of the icon
of `C` removes that file in its cleanup and writes its own file under the same
name: the directory holds one file, with the bytes of the second upload. -/
theorem skill_icons_collide :
    handlers.generateSkillIconName Char.toLower "C++" ".png" = "c.png"
    ∧ handlers.generateSkillIconName Char.toLower "C" ".png" = "c.png"
    ∧ (uploadSkillIcon prefixStarMatch Char.toLower "C++" ⟨"cpp.png", 9⟩ "icon of C++"
        ⟨Redis.empty, []⟩).2.disk = [⟨"./skills-upload", "c.png", "icon of C++"⟩]
    ∧ handlers.cleanupOldSkillIcons prefixStarMatch Char.toLower "C"
        [⟨"./skills-upload", "c.png", "icon of C++"⟩] = []
    ∧ (uploadSkillIcon prefixStarMatch Char.toLower "C" ⟨"c.png", 9⟩ "icon of C"
        (uploadSkillIcon prefixStarMatch Char.toLower "C++" ⟨"cpp.png", 9⟩ "icon of C++"
          ⟨Redis.empty, []⟩).2).2.disk = [⟨"./skills-upload", "c.png", "icon of C"⟩] := by
  decide

/-! ## The two sanitizers of blog image names -/

/-- The two sanitizers agree on every slug that keeps at least one character after the
filter, the collapse of hyphen runs and the trim. -/
theorem blog_sanitizers_agree_of_nonempty (lower : Char → Char) (slug : String)
    (h : handlers.trimChar '-' (handlers.collapseRuns '-'
      ((((stringsToLower lower slug).data.map handlers.turkishReplacement).map
        (fun c => if c = ' ' then '-' else c)).filter handlers.isSlugChar)) ≠ []) :
    handlers.sanitizeBlogSlugForFile lower slug = handlers.sanitizeBlogImageName lower slug := by
  simp only [handlers.sanitizeBlogSlugForFile, handlers.sanitizeBlogImageName, if_neg h]

/-- On a slug that keeps no character the upload sanitizer answers `image` and the delete
sanitizer answers `unknown`. -/
theorem blog_sanitizers_differ_of_empty (lower : Char → Char) (slug : String)
    (h : handlers.trimChar '-' (handlers.collapseRuns '-'
      ((((stringsToLower lower slug).data.map handlers.turkishReplacement).map
        (fun c => if c = ' ' then '-' else c)).filter handlers.isSlugChar)) = []) :
    handlers.sanitizeBlogSlugForFile lower slug = "unknown"
    ∧ handlers.sanitizeBlogImageName lower slug = "image" := by
  simp only [handlers.sanitizeBlogSlugForFile, handlers.sanitizeBlogImageName, if_pos h]
  constructor <;> rfl

/-- C30 (failing input). For the slug `日本語` the upload sanitizer `sanitizeBlogImageName`
answers `image` and the delete sanitizer `sanitizeBlogSlugForFile` answers
`unknown`.  The upload with this slug writes `blog-image.png`; the pattern
`blog-unknown.*` of `deleteBlogImageFile` for the same slug does not match it
and the file stays on the disk, while the cleanup of the upload handler for
the same slug does remove it. -/
theorem blog_sanitizers_disagree :
    handlers.sanitizeBlogImageName Char.toLower "日本語" = "image"
    ∧ handlers.sanitizeBlogSlugForFile Char.toLower "日本語" = "unknown"
    ∧ uploadBlogImage prefixStarMatch Char.toLower 0 "日本語" ⟨"cover.png", 9⟩ "bytes" []
        = (200, [⟨"./blog-upload", "blog-image.png", "bytes"⟩])
    ∧ prefixStarMatch ("blog-" ++ handlers.sanitizeBlogSlugForFile Char.toLower "日本語" ++ ".*")
        "blog-image.png" = false
    ∧ handlers.deleteBlogImageFile prefixStarMatch Char.toLower "日本語"
        [⟨"./blog-upload", "blog-image.png", "bytes"⟩]
        = [⟨"./blog-upload", "blog-image.png", "bytes"⟩]
    ∧ handlers.cleanupOldBlogImages prefixStarMatch Char.toLower "日本語"
        [⟨"./blog-upload", "blog-image.png", "bytes"⟩] = [] := by
  decide

end Portfolio
